import Mathlib

/-!
# Ibis tracked ultrasound acquisition: a shallow embedding of `USAcquisitionObject`

The definitions follow `src/IbisLib/usacquisitionobject.cpp`.  Scalars of the
VTK matrices, timestamps, origins and spacings (C++ `double`) are taken in an
arbitrary commutative ring `α`, so every matrix identity proved here is an
identity of exact arithmetic.  The one place where the rounding of `double`
decides an integer result, the static slice sampler, is modelled with IEEE
binary64 rounding on natural numbers (section `Binary64`).
-/

namespace Ibis

/-! ## VTK data carried by the acquisition object -/

/-- The 4x4 homogeneous matrix of `vtkMatrix4x4`. -/
abbrev Mat4 (α : Type) := Matrix (Fin 4) (Fin 4) α

/-- The part of `vtkImageData` the acquisition code reads: `GetDimensions()`,
the number of scalar components, origin, spacing and the pixel values. -/
structure vtkImageData (α : Type) where
  dimensions : Int × Int × Int
  numberOfScalarComponents : Int
  origin : α × α × α
  spacing : α × α × α
  scalars : List Nat
deriving DecidableEq

/-- One stored triple of the frame store: image, tracked (uncalibrated) pose
and timestamp. -/
structure Frame (α : Type) where
  image : vtkImageData α
  matrix : Mat4 α
  timestamp : α

/-- Modelled from the spec: `TrackedVideoBuffer` (trackedvideobuffer.cpp is not
part of the sources).  Section 3 and 4.1 of the specification describe it as an
ordered sequence of (image, pose matrix, timestamp) triples with a "current
index" cursor, growing only by append and cleared wholesale. -/
structure TrackedVideoBuffer (α : Type) where
  m_frames : List (Frame α)
  m_currentFrame : Int

/-- What `UsProbeObject` offers to `Record()` and `Updated()`: `IsOk()`,
`GetVideoOutput()`, `GetUncalibratedWorldTransform()->GetMatrix()` and
`GetLastTimestamp()`, as read at the moment of the call. -/
structure UsProbeObject (α : Type) where
  isOk : Bool
  videoOutput : vtkImageData α
  uncalibratedWorldTransform : Mat4 α
  lastTimestamp : α

/-- The struct `PerStaticSlice` filled by `ComputeOneStaticSliceData`: the image
fed to `mapToColors`, and the tracked matrix copied into the
`sliceUncalibratedTransform` that `transform` concatenates between the world
transform and `m_calibrationTransform`.  These two are concatenated by reference,
so the matrix of `transform` is the derived value `staticSliceTransform` below. -/
structure PerStaticSlice (α : Type) where
  slice : vtkImageData α
  sliceUncalibratedMatrix : Mat4 α

/-- The output ports a current-slice surface or a published output can be
connected to: those of the filters `m_mapToColors`, `m_sliceStencil`,
`m_constantPad` and `m_sliceStencilDoppler`. -/
inductive OutputPort where
  | m_mapToColors
  | m_sliceStencil
  | m_constantPad
  | m_sliceStencilDoppler
deriving DecidableEq

/-- The input connection of a static slice actor: the output port of the
`imageStencil` (or else of the `mapToColors`) of `m_staticSlicesData[index]`. -/
structure StaticSlicePort where
  index : Nat
  imageStencil : Bool
deriving DecidableEq

/-- The values of `View::GetType()` that `Setup` tells apart. -/
inductive ViewType where
  | THREED_VIEW_TYPE
  | otherViewType
deriving DecidableEq

/-- A `View *`: the identity of the view and its type. -/
structure View where
  id : Nat
  viewType : ViewType
deriving DecidableEq

/-- The struct `PerViewElements`: the input connection of the mapper of
`imageSlice` and, for each actor of `staticSlices`, its input connection. -/
structure PerViewElements where
  imageSlice : OutputPort
  staticSlices : List StaticSlicePort
deriving DecidableEq

/-- The part of `USMask` that `USAcquisitionObject` writes: the size set by
`SetMaskSize`. -/
structure USMask where
  m_maskSize : Int × Int
deriving DecidableEq

/-- The members of `USAcquisitionObject` that the recording, frame store,
transform, static slice and pipeline code reads or writes.  `worldTransform` is
the matrix of `SceneObject::GetWorldTransform()`.  The pipelined
`m_sliceTransform` is the derived value `m_sliceTransform` below.
`m_maskedImageOutput` and `m_unmaskedImageOutput` hold the input connection of
the two pass-through filters, `m_perViews` the entries of the `std::map` in
insertion order.  `m_componentsNumber` and `m_useCalibratedTransform` are set
when frames are loaded from MINC files. -/
structure USAcquisitionObject (α : Type) where
  m_isRecording : Bool
  m_defaultImageSize : Int × Int
  m_mask : USMask
  m_videoBuffer : TrackedVideoBuffer α
  worldTransform : Mat4 α
  m_calibrationTransform : Mat4 α
  m_currentImageTransform : Mat4 α
  m_staticSlicesEnabled : Bool
  m_numberOfStaticSlices : Int
  m_staticSlicesLutIndex : Int
  m_staticSlicesDataNeedUpdate : Bool
  m_staticSlicesData : List (PerStaticSlice α)
  m_isMaskOn : Bool
  m_isDopplerOn : Bool
  m_maskedImageOutput : OutputPort
  m_unmaskedImageOutput : OutputPort
  m_perViews : List (View × PerViewElements)
  m_componentsNumber : Int
  m_useCalibratedTransform : Bool

section Store

variable {α : Type}

/-! ## The frame store -/

/-- Modelled from the spec: the constructor of `TrackedVideoBuffer`; the store is
"created empty" and the cursor is the negative sentinel while there is no frame
(`UpdateMask` reads `GetCurrentFrame() < 0` as "no frames yet"). -/
def TrackedVideoBuffer.new : TrackedVideoBuffer α :=
  { m_frames := [], m_currentFrame := -1 }

/-- Modelled from the spec: `TrackedVideoBuffer::GetNumberOfFrames`, the `Count()`
of the frame store. -/
def TrackedVideoBuffer.GetNumberOfFrames (b : TrackedVideoBuffer α) : Int :=
  b.m_frames.length

/-- Modelled from the spec: `TrackedVideoBuffer::AddFrame`; "on success appends,
does not move the cursor".  The callers use it as a statement, so the append
itself is unconditional.  How the real buffer keeps its cursor on an append is not
in the sources (`UpdateMask` reads a negative cursor as "no frames yet"); no
statement about the range of the cursor rests on this definition. -/
def TrackedVideoBuffer.AddFrame (b : TrackedVideoBuffer α) (frame : vtkImageData α)
    (mat : Mat4 α) (timestamp : α) : TrackedVideoBuffer α :=
  { b with m_frames := b.m_frames ++ [{ image := frame, matrix := mat, timestamp := timestamp }] }

/-- Modelled from the spec: `TrackedVideoBuffer::Clear`; "empties the sequence",
after which the cursor is the sentinel again. -/
def TrackedVideoBuffer.Clear (_b : TrackedVideoBuffer α) : TrackedVideoBuffer α :=
  { m_frames := [], m_currentFrame := -1 }

/-- Modelled from the spec: the frame at `index`; "fails with OutOfRange if index
not in bounds". -/
def TrackedVideoBuffer.GetFrame (b : TrackedVideoBuffer α) (index : Int) : Option (Frame α) :=
  if 0 ≤ index then b.m_frames[index.toNat]? else none

/-- Modelled from the spec: `TrackedVideoBuffer::GetImage`. -/
def TrackedVideoBuffer.GetImage (b : TrackedVideoBuffer α) (index : Int) :
    Option (vtkImageData α) :=
  (b.GetFrame index).map Frame.image

/-- Modelled from the spec: `TrackedVideoBuffer::GetMatrix`. -/
def TrackedVideoBuffer.GetMatrix (b : TrackedVideoBuffer α) (index : Int) : Option (Mat4 α) :=
  (b.GetFrame index).map Frame.matrix

/-- Modelled from the spec: `TrackedVideoBuffer::GetTimestamp`. -/
def TrackedVideoBuffer.GetTimestamp (b : TrackedVideoBuffer α) (index : Int) : Option α :=
  (b.GetFrame index).map Frame.timestamp

/-- Modelled from the spec: `TrackedVideoBuffer::SetCurrentFrame`, the setter of
the cursor; the specification gives it no precondition and no result.  Whether the
real buffer checks the index is not in the sources; no statement about the range
of the cursor rests on this definition. -/
def TrackedVideoBuffer.SetCurrentFrame (b : TrackedVideoBuffer α) (index : Int) :
    TrackedVideoBuffer α :=
  { b with m_currentFrame := index }

/-- Modelled from the spec: `TrackedVideoBuffer::GetCurrentFrame`. -/
def TrackedVideoBuffer.GetCurrentFrame (b : TrackedVideoBuffer α) : Int :=
  b.m_currentFrame

variable [CommRing α]

/-- Modelled from the spec: `TrackedVideoBuffer::GetCurrentMatrix`, the tracked
matrix of the frame under the cursor.  The specification leaves the cursor
"undefined/sentinel" when it is on no frame; there is then no tracked pose and the
identity, the matrix of a fresh `vtkTransform`, is returned. -/
def TrackedVideoBuffer.GetCurrentMatrix (b : TrackedVideoBuffer α) : Mat4 α :=
  (b.GetMatrix b.m_currentFrame).getD 1

/-! ## Construction and the transform chain -/

/-- The matrix of a `vtkTransform` on which the listed transforms were
`Concatenate`d in that order (the default `PreMultiply` mode): starting from the
identity, each one is multiplied on the right. -/
def vtkConcatenate (ms : List (Mat4 α)) : Mat4 α :=
  ms.foldl (fun acc m => acc * m) 1

/-- `USAcquisitionObject::USAcquisitionObject`, for a scene whose world transform
of the object is `world`; `defaultMask` is the mask made by `USMask::New()`. -/
def USAcquisitionObject.new (world : Mat4 α) (defaultMask : USMask) : USAcquisitionObject α :=
  { m_isRecording := false
    m_defaultImageSize := (640, 480)
    m_mask := defaultMask
    m_videoBuffer := TrackedVideoBuffer.new
    worldTransform := world
    m_calibrationTransform := 1
    m_currentImageTransform := 1
    m_staticSlicesEnabled := false
    m_numberOfStaticSlices := 2
    m_staticSlicesLutIndex := 0
    m_staticSlicesDataNeedUpdate := true
    m_staticSlicesData := []
    m_isMaskOn := true
    m_isDopplerOn := false
    m_maskedImageOutput := OutputPort.m_sliceStencil
    m_unmaskedImageOutput := OutputPort.m_mapToColors
    m_perViews := []
    m_componentsNumber := 0
    m_useCalibratedTransform := false }

/-- The matrix of `m_sliceTransform`: the constructor concatenates the world
transform, `m_currentImageTransform` and `m_calibrationTransform`, by reference,
so the matrix follows their current values. -/
def USAcquisitionObject.m_sliceTransform (s : USAcquisitionObject α) : Mat4 α :=
  vtkConcatenate [s.worldTransform, s.m_currentImageTransform, s.m_calibrationTransform]

end Store

section Operations

variable {α : Type}

/-- `USAcquisitionObject::GetNumberOfSlices`, the `Count()` of the specification. -/
def USAcquisitionObject.GetNumberOfSlices (s : USAcquisitionObject α) : Int :=
  s.m_videoBuffer.GetNumberOfFrames

/-- `USAcquisitionObject::GetCurrentSlice`. -/
def USAcquisitionObject.GetCurrentSlice (s : USAcquisitionObject α) : Int :=
  s.m_videoBuffer.GetCurrentFrame

/-- `USAcquisitionObject::GetFrameTimestamp`. -/
def USAcquisitionObject.GetFrameTimestamp (s : USAcquisitionObject α) (index : Int) : Option α :=
  s.m_videoBuffer.GetTimestamp index

/-- `USAcquisitionObject::SetFrameAndMaskSize`. -/
def USAcquisitionObject.SetFrameAndMaskSize (s : USAcquisitionObject α) (width height : Int) :
    USAcquisitionObject α :=
  { s with m_defaultImageSize := (width, height), m_mask := { m_maskSize := (width, height) } }

/-- `USAcquisitionObject::AddFrame`: the new state and the returned `bool`. -/
def USAcquisitionObject.AddFrame (s : USAcquisitionObject α) (image : vtkImageData α)
    (mat : Mat4 α) (timestamp : α) : USAcquisitionObject α × Bool :=
  if s.m_isRecording then (s, false)
  else
    let dims := image.dimensions
    if s.m_videoBuffer.GetNumberOfFrames ≠ 0 then
      if dims.1 ≠ s.m_defaultImageSize.1 ∨ dims.2.1 ≠ s.m_defaultImageSize.2 then (s, false)
      else ({ s with m_videoBuffer := s.m_videoBuffer.AddFrame image mat timestamp }, true)
    else
      let s1 := s.SetFrameAndMaskSize dims.1 dims.2.1
      ({ s1 with m_videoBuffer := s1.m_videoBuffer.AddFrame image mat timestamp }, true)

/-- `USAcquisitionObject::SetEnableStaticSlices`, on the flag it guards. -/
def USAcquisitionObject.SetEnableStaticSlices (s : USAcquisitionObject α) (enable : Bool) :
    USAcquisitionObject α :=
  if s.m_staticSlicesEnabled = enable then s else { s with m_staticSlicesEnabled := enable }

/-- `USAcquisitionObject::Record`; `probe` is what the scene manager returns for
`m_usProbeObjectId`.  A failed `Q_ASSERT` is the result `none`. -/
def USAcquisitionObject.Record (s : USAcquisitionObject α) (probe : Option (UsProbeObject α)) :
    Option (USAcquisitionObject α) :=
  if s.m_isRecording then none
  else
    let s1 := { s with m_isRecording := true }
    match probe with
    | none => none
    | some p =>
      let s2 :=
        if p.isOk then
          let dims := p.videoOutput.dimensions
          let s' := s1.SetFrameAndMaskSize dims.1 dims.2.1
          { s' with m_videoBuffer :=
              s'.m_videoBuffer.AddFrame p.videoOutput p.uncalibratedWorldTransform p.lastTimestamp }
        else s1
      some (s2.SetEnableStaticSlices false)

/-- `USAcquisitionObject::Record` as compiled with `QT_NO_DEBUG` defined (a release
build), where `Q_ASSERT( !m_isRecording )` and `Q_ASSERT( probe )` expand to no
code: the remaining statements of `Record`, in their order.  A null `probe` is
dereferenced; that run has no result (`none`). -/
def USAcquisitionObject.RecordNoDebug (s : USAcquisitionObject α)
    (probe : Option (UsProbeObject α)) : Option (USAcquisitionObject α) :=
  let s1 := { s with m_isRecording := true }
  match probe with
  | none => none
  | some p =>
    let s2 :=
      if p.isOk then
        let dims := p.videoOutput.dimensions
        let s' := s1.SetFrameAndMaskSize dims.1 dims.2.1
        { s' with m_videoBuffer :=
            s'.m_videoBuffer.AddFrame p.videoOutput p.uncalibratedWorldTransform p.lastTimestamp }
      else s1
    some (s2.SetEnableStaticSlices false)

/-- `USAcquisitionObject::Updated`, the slot run on every `IbisClockTick`. -/
def USAcquisitionObject.Updated (s : USAcquisitionObject α) (probe : Option (UsProbeObject α)) :
    Option (USAcquisitionObject α) :=
  if s.m_isRecording then
    match probe with
    | none => none
    | some p =>
      if p.isOk then
        some { s with m_videoBuffer :=
          s.m_videoBuffer.AddFrame p.videoOutput p.uncalibratedWorldTransform p.lastTimestamp }
      else some s
  else some s

/-- `USAcquisitionObject::Stop`. -/
def USAcquisitionObject.Stop (s : USAcquisitionObject α) : USAcquisitionObject α :=
  if s.m_isRecording then { s with m_isRecording := false } else s

/-- `USAcquisitionObject::Clear`. -/
def USAcquisitionObject.Clear (s : USAcquisitionObject α) : USAcquisitionObject α :=
  { s with m_videoBuffer := s.m_videoBuffer.Clear }

variable [CommRing α]

/-- `USAcquisitionObject::SetCurrentFrame`. -/
def USAcquisitionObject.SetCurrentFrame (s : USAcquisitionObject α) (frameIndex : Int) :
    USAcquisitionObject α :=
  let vb := s.m_videoBuffer.SetCurrentFrame frameIndex
  { s with m_videoBuffer := vb, m_currentImageTransform := vb.GetCurrentMatrix }

/-- `USAcquisitionObject::GetFrameData`: the state left behind, the image copied
into `slice` and the matrix copied into `calibratedSliceMatrix`; `none` when the
range assertion on `index` fails. -/
def USAcquisitionObject.GetFrameData (s : USAcquisitionObject α) (index : Int) :
    Option (USAcquisitionObject α × vtkImageData α × Mat4 α) :=
  if 0 ≤ index ∧ index < s.m_videoBuffer.GetNumberOfFrames then
    let currentFrame := s.m_videoBuffer.GetCurrentFrame
    let s1 := s.SetCurrentFrame index
    let calibratedSliceMatrix := s1.m_sliceTransform
    let s2 := s1.SetCurrentFrame currentFrame
    (s2.m_videoBuffer.GetImage index).map (fun slice => (s2, slice, calibratedSliceMatrix))
  else none

end Operations

/-! ## IEEE binary64 arithmetic of the static slice sampler

`ComputeAllStaticSlicesData` computes `(int)floor( interval * i )` with
`double interval = double( nbSlices ) / m_numberOfStaticSlices`.  A finite
positive `double` is kept as a fraction `num / den` of natural numbers whose
denominator is a power of two; `roundToDouble` is round-to-nearest, ties-to-even,
to 53 significant bits.  The exponent range of binary64 is not modelled: it is
never left for operands that are 32-bit `int`s. -/

section Binary64

/-- The integer nearest to `a / b`, a tie going to the even neighbour. -/
def roundHalfEven (a b : Nat) : Nat :=
  let q := a / b
  let r := a % b
  if 2 * r < b then q
  else if b < 2 * r then q + 1
  else if q % 2 = 0 then q else q + 1

/-- The number of doublings of `a` needed to reach `b * 2 ^ 52 ≤ a`. -/
def scaleUp : Nat → Nat → Nat → Nat
  | 0, _, _ => 0
  | f + 1, a, b => if a < b * 2 ^ 52 then scaleUp f (2 * a) b + 1 else 0

/-- The number of doublings of `b` needed to reach `a < b * 2 ^ 53`. -/
def scaleDown : Nat → Nat → Nat → Nat
  | 0, _, _ => 0
  | f + 1, a, b => if b * 2 ^ 53 ≤ a then scaleDown f a (2 * b) + 1 else 0

/-- The `double` nearest to `a / b` (for `0 < b`), as numerator and denominator:
the quotient is scaled into `[2 ^ 52, 2 ^ 53)`, rounded to an integer mantissa and
scaled back. -/
def roundToDouble (a b : Nat) : Nat × Nat :=
  if a = 0 then (0, 1)
  else
    let k := scaleUp (b + 52) a b
    let j := scaleDown (a * 2 ^ k) (a * 2 ^ k) b
    (roundHalfEven (a * 2 ^ k) (b * 2 ^ j) * 2 ^ j, 2 ^ k)

/-- The index `(int)floor( interval * i )` of the loop body of
`ComputeAllStaticSlicesData`, with `interval = double( nbSlices ) /
m_numberOfStaticSlices`.  Inside the loop `nbSlices > 1`, `i >= 0` and
`m_numberOfStaticSlices > i + 1`, so the three operands are positive and the
conversions of the `int`s to `double` are exact. -/
def staticSliceIndex (nbSlices numberOfStaticSlices i : Int) : Int :=
  let interval := roundToDouble nbSlices.toNat numberOfStaticSlices.toNat
  let prod := roundToDouble (interval.1 * i.toNat) interval.2
  ((prod.1 / prod.2 : Nat) : Int)

/-- The arguments of the successive calls of `ComputeOneStaticSliceData` made by
`ComputeAllStaticSlicesData`, in order. -/
def staticSliceIndices (nbSlices numberOfStaticSlices : Int) : List Int :=
  if nbSlices > 1 then
    (List.range (numberOfStaticSlices - 1).toNat).map
        (fun (i : Nat) => staticSliceIndex nbSlices numberOfStaticSlices (i : Int))
      ++ [nbSlices - 1]
  else []

/-- The sampling rule in the words of the specification, for comparison: "for `i`
in `[0, N-1)` select index `floor(count/N * i)`; the final slice is always forced
to `count-1`", in exact arithmetic; nothing "if `count <= 1`". -/
def specStaticSliceIndices (count N : Int) : List Int :=
  if count > 1 then
    (List.range (N - 1).toNat).map (fun (i : Nat) => (count * (i : Int)) / N) ++ [count - 1]
  else []

/-- The `double` nearest to the rational number `q`: round to nearest, ties to
even, 53 significant bits, through `roundToDouble` on the absolute value.  The
exponent range of binary64 is not modelled (no overflow, no subnormal numbers). -/
def Binary64.round (q : ℚ) : ℚ :=
  let r := roundToDouble q.num.natAbs q.den
  if q < 0 then -((r.1 : ℚ) / r.2) else (r.1 : ℚ) / r.2

/-- A finite `double`, kept as the rational number it represents: a value that
rounding produces.  The two zeros of binary64 are one value here. -/
def Double : Type := { q : ℚ // ∃ x : ℚ, Binary64.round x = q }

/-- The `double` nearest to `q`, as a literal or a conversion gives it. -/
def Double.ofRat (q : ℚ) : Double := ⟨Binary64.round q, q, rfl⟩

instance : DecidableEq Double := fun a b => decidable_of_iff (a.val = b.val) Subtype.ext_iff.symm

instance : Zero Double := ⟨Double.ofRat 0⟩

instance : One Double := ⟨Double.ofRat 1⟩

/-- Addition of `double`s: the exact sum, rounded. -/
instance : Add Double := ⟨fun a b => Double.ofRat (a.val + b.val)⟩

/-- Multiplication of `double`s: the exact product, rounded. -/
instance : Mul Double := ⟨fun a b => Double.ofRat (a.val * b.val)⟩

end Binary64

/-! ## `vtkMatrix4x4` and `vtkTransform` on any arithmetic

The matrix code below uses only `0`, `1`, `+` and `*` of the scalars, in the order
in which VTK performs them, so that it can be read with exact scalars and with
`Double`. -/

section Transforms

variable {α : Type} [Zero α] [One α] [Add α] [Mul α]

/-- `vtkMatrix4x4::Multiply4x4( a, b, c )`: element `(i, j)` of `c` is
`a[i][0]*b[0][j] + a[i][1]*b[1][j] + a[i][2]*b[2][j] + a[i][3]*b[3][j]`, the sum
taken from left to right. -/
def vtkMatrix4x4.Multiply4x4 (a b : Mat4 α) : Mat4 α :=
  Matrix.of fun i j => a i 0 * b 0 j + a i 1 * b 1 j + a i 2 * b 2 j + a i 3 * b 3 j

/-- `vtkMatrix4x4::MultiplyPoint( in, out )`: component `i` of `out` is
`m[i][0]*in[0] + m[i][1]*in[1] + m[i][2]*in[2] + m[i][3]*in[3]`. -/
def vtkMatrix4x4.MultiplyPoint (m : Mat4 α) (v : Fin 4 → α) : Fin 4 → α :=
  fun i => m i 0 * v 0 + m i 1 * v 1 + m i 2 * v 2 + m i 3 * v 3

/-- The matrix that `vtkTransform::Translate( t )` concatenates. -/
def vtkTranslate (t : α × α × α) : Mat4 α :=
  !![1, 0, 0, t.1; 0, 1, 0, t.2.1; 0, 0, 1, t.2.2; 0, 0, 0, 1]

/-- The matrix that `vtkTransform::Scale( s )` concatenates. -/
def vtkScale (s : α × α × α) : Mat4 α :=
  !![s.1, 0, 0, 0; 0, s.2.1, 0, 0; 0, 0, s.2.2, 0; 0, 0, 0, 1]

/-- A point in homogeneous coordinates. -/
def homogeneous (p : α × α × α) : Fin 4 → α :=
  ![p.1, p.2.1, p.2.2, 1]

/-- The position that `vtkImageData` gives the pixel of index `p` in the frame of
the image: origin plus spacing times index, per axis. -/
def vtkImageData.pixelPosition (frame : vtkImageData α) (p : α × α × α) : α × α × α :=
  (frame.origin.1 + frame.spacing.1 * p.1,
    frame.origin.2.1 + frame.spacing.2.1 * p.2.1,
    frame.origin.2.2 + frame.spacing.2.2 * p.2.2)

/-- `USAcquisitionObject::AdjustFrame`: the frame with origin and spacing reset,
and the matrix copied to `outputMatrix`.  `localTransform` is a fresh
`vtkTransform` (PreMultiply): `SetMatrix` makes it the identity and concatenates
`inputMatrix`, `Translate` and `Scale` concatenate their matrix, each
concatenation being a `Multiply4x4` with the new matrix on the right. -/
def USAcquisitionObject.AdjustFrame (frame : vtkImageData α) (inputMatrix : Mat4 α) :
    vtkImageData α × Mat4 α :=
  let start := frame.origin
  let step := frame.spacing
  let localTransform : Mat4 α := vtkMatrix4x4.Multiply4x4 1 inputMatrix
  let localTransform := vtkMatrix4x4.Multiply4x4 localTransform (vtkTranslate start)
  let localTransform := vtkMatrix4x4.Multiply4x4 localTransform (vtkScale step)
  ({ frame with origin := (0, 0, 0), spacing := (1, 1, 1) }, localTransform)

/-- The rational numbers that the entries of a matrix of `double`s represent. -/
def exactMatrix (m : Mat4 Double) : Mat4 ℚ :=
  Matrix.of fun i j => (m i j).val

/-- The frame with the rational numbers that its origin and spacing represent. -/
def exactFrame (frame : vtkImageData Double) : vtkImageData ℚ :=
  { dimensions := frame.dimensions
    numberOfScalarComponents := frame.numberOfScalarComponents
    origin := (frame.origin.1.val, frame.origin.2.1.val, frame.origin.2.2.val)
    spacing := (frame.spacing.1.val, frame.spacing.2.1.val, frame.spacing.2.2.val)
    scalars := frame.scalars }

end Transforms

/-! ## Static slices -/

section StaticSlices

variable {α : Type}

/-- `USAcquisitionObject::ClearStaticSlicesData`. -/
def USAcquisitionObject.ClearStaticSlicesData (s : USAcquisitionObject α) :
    USAcquisitionObject α :=
  { s with m_staticSlicesData := [] }

/-- `USAcquisitionObject::SetStaticSlicesLutIndex`: the lookup table it builds is
installed in the `mapToColors` of every cached slice, which leaves the images and
transforms of the cache as they are. -/
def USAcquisitionObject.SetStaticSlicesLutIndex (s : USAcquisitionObject α) (index : Int) :
    USAcquisitionObject α :=
  { s with m_staticSlicesLutIndex := index }

variable [CommRing α]

/-- The `PerStaticSlice` built by `ComputeOneStaticSliceData( sliceIndex )` from
the image and the tracked matrix of the frame; `none` when the buffer has no
frame at `sliceIndex`. -/
def USAcquisitionObject.staticSliceAt (s : USAcquisitionObject α) (sliceIndex : Int) :
    Option (PerStaticSlice α) :=
  match s.m_videoBuffer.GetImage sliceIndex, s.m_videoBuffer.GetMatrix sliceIndex with
  | some slice, some sliceUncalibratedMatrix =>
    some { slice := slice, sliceUncalibratedMatrix := sliceUncalibratedMatrix }
  | _, _ => none

/-- The matrix of `pss.transform`: `ComputeOneStaticSliceData` concatenates the
world transform, the transform holding the tracked matrix of the frame, and
`m_calibrationTransform`, the first and the last by reference. -/
def USAcquisitionObject.staticSliceTransform (s : USAcquisitionObject α)
    (pss : PerStaticSlice α) : Mat4 α :=
  vtkConcatenate [s.worldTransform, pss.sliceUncalibratedMatrix, s.m_calibrationTransform]

/-- `USAcquisitionObject::ComputeOneStaticSliceData`. -/
def USAcquisitionObject.ComputeOneStaticSliceData (s : USAcquisitionObject α) (sliceIndex : Int) :
    Option (USAcquisitionObject α) :=
  (s.staticSliceAt sliceIndex).map
    (fun pss => { s with m_staticSlicesData := s.m_staticSlicesData ++ [pss] })

/-- `USAcquisitionObject::ComputeAllStaticSlicesData`. -/
def USAcquisitionObject.ComputeAllStaticSlicesData (s : USAcquisitionObject α) :
    Option (USAcquisitionObject α) :=
  let s0 := s.ClearStaticSlicesData
  let nbSlices := s0.GetNumberOfSlices
  if nbSlices > 1 then
    ((List.range (s0.m_numberOfStaticSlices - 1).toNat).foldlM
        (fun (st : USAcquisitionObject α) (i : Nat) =>
          st.ComputeOneStaticSliceData
            (staticSliceIndex nbSlices s0.m_numberOfStaticSlices (i : Int)))
        s0).bind
      (fun s1 => (s1.ComputeOneStaticSliceData (nbSlices - 1)).map
        (fun s2 =>
          { s2.SetStaticSlicesLutIndex s2.m_staticSlicesLutIndex with
            m_staticSlicesDataNeedUpdate := false }))
  else some s0

/-- `USAcquisitionObject::SetupAllStaticSlices`, on the state of the acquisition
object: the cache is recomputed when it is marked as needing an update (the image
actors the function then adds to the view are not part of this state). -/
def USAcquisitionObject.SetupAllStaticSlices (s : USAcquisitionObject α) :
    Option (USAcquisitionObject α) :=
  if s.m_staticSlicesDataNeedUpdate then s.ComputeAllStaticSlicesData else some s

end StaticSlices

/-! ## Calibration, rendering pipeline and views -/

section Pipeline

variable {α : Type}

/-- `USAcquisitionObject::SetCalibrationMatrix`: the matrix of
`m_calibrationTransform` becomes a copy of `mat`. -/
def USAcquisitionObject.SetCalibrationMatrix (s : USAcquisitionObject α) (mat : Mat4 α) :
    USAcquisitionObject α :=
  { s with m_calibrationTransform := mat }

/-- The processing chain of the specification table of section 4.4, by the port
that ends it: mask off / normal is colorize, mask on / normal is colorize then
stencil, mask off / alternate is the 4-channel pad, mask on / alternate is pad
then stencil. -/
def specChain (maskEnabled modalityIsAlternate : Bool) : OutputPort :=
  match maskEnabled, modalityIsAlternate with
  | false, false => OutputPort.m_mapToColors
  | true, false => OutputPort.m_sliceStencil
  | false, true => OutputPort.m_constantPad
  | true, true => OutputPort.m_sliceStencilDoppler

/-- The body of the loop of `UpdatePipeline` for one entry of `m_perViews`: the
current slice is reconnected by the four-way test on mask and Doppler, the `i`-th
static actor to the stencil or the colour map of `m_staticSlicesData[i]`. -/
def USAcquisitionObject.rewirePerView (s : USAcquisitionObject α) (perView : PerViewElements) :
    PerViewElements :=
  { imageSlice :=
      if s.m_isMaskOn ∧ ¬ s.m_isDopplerOn then OutputPort.m_sliceStencil
      else if ¬ s.m_isMaskOn ∧ ¬ s.m_isDopplerOn then OutputPort.m_mapToColors
      else if s.m_isMaskOn ∧ s.m_isDopplerOn then OutputPort.m_sliceStencilDoppler
      else OutputPort.m_constantPad
    staticSlices :=
      (List.range perView.staticSlices.length).map
        (fun (i : Nat) => { index := i, imageStencil := s.m_isMaskOn }) }

/-- Every view has at most as many static actors as `m_staticSlicesData` has
slices, so that `m_staticSlicesData[i]` exists for each static actor `i`. -/
def USAcquisitionObject.staticActorsInCache (s : USAcquisitionObject α) : Bool :=
  s.m_perViews.all (fun pv => decide (pv.2.staticSlices.length ≤ s.m_staticSlicesData.length))

/-- The statements of `UpdatePipeline` in order: the two published outputs are
connected by the test on `m_isDopplerOn`, then every entry of `m_perViews` is
reconnected. -/
def USAcquisitionObject.pipelineRewired (s : USAcquisitionObject α) : USAcquisitionObject α :=
  let s1 : USAcquisitionObject α :=
    if ¬ s.m_isDopplerOn then
      { s with m_maskedImageOutput := OutputPort.m_sliceStencil
               m_unmaskedImageOutput := OutputPort.m_mapToColors }
    else
      { s with m_maskedImageOutput := OutputPort.m_sliceStencilDoppler
               m_unmaskedImageOutput := OutputPort.m_constantPad }
  { s1 with m_perViews := s1.m_perViews.map (fun pv => (pv.1, s1.rewirePerView pv.2)) }

/-- `USAcquisitionObject::UpdatePipeline`.  The loop over the static actors of a
view reads `m_staticSlicesData[i]` for every `i` below the number of actors; a
read past the end of the vector has no defined result and is `none`. -/
def USAcquisitionObject.UpdatePipeline (s : USAcquisitionObject α) :
    Option (USAcquisitionObject α) :=
  if s.staticActorsInCache then some s.pipelineRewired else none

/-- `USAcquisitionObject::SetUseMask`. -/
def USAcquisitionObject.SetUseMask (s : USAcquisitionObject α) (useMask : Bool) :
    Option (USAcquisitionObject α) :=
  USAcquisitionObject.UpdatePipeline { s with m_isMaskOn := useMask }

/-- `USAcquisitionObject::SetUseDoppler`. -/
def USAcquisitionObject.SetUseDoppler (s : USAcquisitionObject α) (useDoppler : Bool) :
    Option (USAcquisitionObject α) :=
  USAcquisitionObject.UpdatePipeline { s with m_isDopplerOn := useDoppler }

/-- The assignment `m_perViews[view] = elem` on the map. -/
def perViewsInsert (m : List (View × PerViewElements)) (view : View) (elem : PerViewElements) :
    List (View × PerViewElements) :=
  if m.any (fun pv => decide (pv.1 = view)) then
    m.map (fun pv => if pv.1 = view then (view, elem) else pv)
  else m ++ [(view, elem)]

/-- `USAcquisitionObject::Release`: the loop removes the actors of every entry of
`m_perViews`, whatever `view` was passed, and the map is cleared. -/
def USAcquisitionObject.Release (s : USAcquisitionObject α) (_view : View) :
    USAcquisitionObject α :=
  { s with m_perViews := [] }

/-- `USAcquisitionObject::ReleaseAllStaticSlicesInAllViews`. -/
def USAcquisitionObject.ReleaseAllStaticSlicesInAllViews (s : USAcquisitionObject α) :
    USAcquisitionObject α :=
  { s with m_perViews := s.m_perViews.map (fun pv => (pv.1, { pv.2 with staticSlices := [] })) }

variable [CommRing α]

/-- `USAcquisitionObject::SetupAllStaticSlices( view, perView )`: the cache is
recomputed when marked as needing it, then one actor per cached slice is appended
to `perView.staticSlices`, connected by the test on `m_isMaskOn`. -/
def USAcquisitionObject.SetupAllStaticSlicesInView (s : USAcquisitionObject α)
    (perView : PerViewElements) : Option (USAcquisitionObject α × PerViewElements) :=
  s.SetupAllStaticSlices.map
    (fun s1 =>
      (s1, { perView with
        staticSlices := perView.staticSlices ++
          (List.range s1.m_staticSlicesData.length).map
            (fun (i : Nat) => { index := i, imageStencil := s1.m_isMaskOn }) }))

/-- `USAcquisitionObject::Setup`. -/
def USAcquisitionObject.Setup (s : USAcquisitionObject α) (view : View) :
    Option (USAcquisitionObject α) :=
  if view.viewType = ViewType.THREED_VIEW_TYPE then
    let elem : PerViewElements :=
      { imageSlice :=
          if s.m_isMaskOn then OutputPort.m_sliceStencil else OutputPort.m_mapToColors
        staticSlices := [] }
    (s.SetupAllStaticSlicesInView elem).map
      (fun r => { r.1 with m_perViews := perViewsInsert r.1.m_perViews view r.2 })
  else some s

/-- The loop of `SetupAllStaticSlicesInAllViews` over the entries of the map. -/
def USAcquisitionObject.setupViews (s : USAcquisitionObject α) :
    List (View × PerViewElements) →
      Option (USAcquisitionObject α × List (View × PerViewElements))
  | [] => some (s, [])
  | pv :: rest =>
    (s.SetupAllStaticSlicesInView pv.2).bind
      (fun r => (USAcquisitionObject.setupViews r.1 rest).map
        (fun r2 => (r2.1, (pv.1, r.2) :: r2.2)))

/-- `USAcquisitionObject::SetupAllStaticSlicesInAllViews`. -/
def USAcquisitionObject.SetupAllStaticSlicesInAllViews (s : USAcquisitionObject α) :
    Option (USAcquisitionObject α) :=
  (s.setupViews s.m_perViews).map (fun r => { r.1 with m_perViews := r.2 })

/-- The state of `SetNumberOfStaticSlices( nb )` when it reaches the call of
`SetupAllStaticSlicesInAllViews`: the number is stored, the static actors of all
views are released and the cache is marked as needing an update. -/
def USAcquisitionObject.numberOfStaticSlicesStored (s : USAcquisitionObject α) (nb : Int) :
    USAcquisitionObject α :=
  { USAcquisitionObject.ReleaseAllStaticSlicesInAllViews
      { s with m_numberOfStaticSlices := nb } with
    m_staticSlicesDataNeedUpdate := true }

/-- `USAcquisitionObject::SetNumberOfStaticSlices`; `none` when `Q_ASSERT( nb >= 2 )`
fails. -/
def USAcquisitionObject.SetNumberOfStaticSlices (s : USAcquisitionObject α) (nb : Int) :
    Option (USAcquisitionObject α) :=
  if nb ≥ 2 then (s.numberOfStaticSlicesStored nb).SetupAllStaticSlicesInAllViews else none

/-- The wiring that the specification table prescribes for the configuration of
`s`: the published outputs on the stencilled and unstencilled chain of the
modality, the current slice of every view on the chain of the table, its static
actors on the stencil or colour map of their slice by the mask flag. -/
def USAcquisitionObject.wiredByConfiguration (s : USAcquisitionObject α) : Prop :=
  s.m_maskedImageOutput = specChain true s.m_isDopplerOn ∧
  s.m_unmaskedImageOutput = specChain false s.m_isDopplerOn ∧
  ∀ pv ∈ s.m_perViews,
    pv.2.imageSlice = specChain s.m_isMaskOn s.m_isDopplerOn ∧
    pv.2.staticSlices =
      (List.range pv.2.staticSlices.length).map
        (fun (i : Nat) => { index := i, imageStencil := s.m_isMaskOn })

/-- The state `t` differs from `s` at most in the static slice cache and its
flag. -/
def sameButCache (s t : USAcquisitionObject α) : Prop :=
  t = { s with m_staticSlicesData := t.m_staticSlicesData
               m_staticSlicesDataNeedUpdate := t.m_staticSlicesDataNeedUpdate }

/-- The states that the operations on the object lead to from a new object. -/
inductive Reachable : USAcquisitionObject α → Prop
  | new (world : Mat4 α) (defaultMask : USMask) :
      Reachable (USAcquisitionObject.new world defaultMask)
  | AddFrame (s : USAcquisitionObject α) (image : vtkImageData α) (mat : Mat4 α) (timestamp : α) :
      Reachable s → Reachable (s.AddFrame image mat timestamp).1
  | Record (s s' : USAcquisitionObject α) (probe : Option (UsProbeObject α)) :
      Reachable s → s.Record probe = some s' → Reachable s'
  | Updated (s s' : USAcquisitionObject α) (probe : Option (UsProbeObject α)) :
      Reachable s → s.Updated probe = some s' → Reachable s'
  | Stop (s : USAcquisitionObject α) : Reachable s → Reachable s.Stop
  | Clear (s : USAcquisitionObject α) : Reachable s → Reachable s.Clear
  | SetCurrentFrame (s : USAcquisitionObject α) (frameIndex : Int) :
      Reachable s → Reachable (s.SetCurrentFrame frameIndex)
  | SetCalibrationMatrix (s : USAcquisitionObject α) (mat : Mat4 α) :
      Reachable s → Reachable (s.SetCalibrationMatrix mat)
  | SetEnableStaticSlices (s : USAcquisitionObject α) (enable : Bool) :
      Reachable s → Reachable (s.SetEnableStaticSlices enable)
  | SetNumberOfStaticSlices (s s' : USAcquisitionObject α) (nb : Int) :
      Reachable s → s.SetNumberOfStaticSlices nb = some s' → Reachable s'
  | SetUseMask (s s' : USAcquisitionObject α) (useMask : Bool) :
      Reachable s → s.SetUseMask useMask = some s' → Reachable s'
  | SetUseDoppler (s s' : USAcquisitionObject α) (useDoppler : Bool) :
      Reachable s → s.SetUseDoppler useDoppler = some s' → Reachable s'
  | Setup (s s' : USAcquisitionObject α) (view : View) :
      Reachable s → s.Setup view = some s' → Reachable s'
  | Release (s : USAcquisitionObject α) (view : View) : Reachable s → Reachable (s.Release view)

/-- Every static actor of every view has its slice in the cache, and no view has a
static actor while the cache is marked as needing an update. -/
def USAcquisitionObject.staticActorsSound (s : USAcquisitionObject α) : Prop :=
  ∀ pv ∈ s.m_perViews,
    pv.2.staticSlices.length ≤ s.m_staticSlicesData.length ∧
    (s.m_staticSlicesDataNeedUpdate = true → pv.2.staticSlices = [])

end Pipeline

/-! ## Export to MINC files, loading, and the frame matrix -/

section Export

variable {α : Type} [CommRing α]

/-- What `GetItkImage` needs of the object found for `relativeToObjectID`: the
matrix of `GetWorldTransform()` and the matrix of its `GetLinearInverse()`. -/
structure SceneObject (α : Type) where
  worldTransform : Mat4 α
  worldTransformLinearInverse : Mat4 α

/-- What the acquisition object asks of its `SceneManager`: the constant
`SceneManager::InvalidId` and `GetObjectByID`. -/
structure SceneManager (α : Type) where
  InvalidId : Int
  GetObjectByID : Int → Option (SceneObject α)

/-- `USAcquisitionObject::GetItkImage`, up to the `frameMatrix` it hands to
`ConvertVtkImageToItkImage`; `none` when the buffer has no frame `frameNo` or
`Q_ASSERT( relativeTo )` fails.  The image handed over with it depends on `masked`
only. -/
def USAcquisitionObject.GetItkImage (s : USAcquisitionObject α) (manager : SceneManager α)
    (frameNo : Int) (_masked : Bool) (useCalibratedTransform : Bool) (relativeToObjectID : Int) :
    Option (Mat4 α) :=
  (s.m_videoBuffer.GetMatrix frameNo).bind (fun matrix =>
    let calibratedFrameMatrix := matrix * s.m_calibrationTransform
    let relativeToMatrix : Option (Option (Mat4 α)) :=
      if relativeToObjectID ≠ manager.InvalidId then
        (manager.GetObjectByID relativeToObjectID).map
          (fun relativeTo => some relativeTo.worldTransformLinearInverse)
      else some none
    relativeToMatrix.map (fun relativeToMatrix =>
      match relativeToMatrix with
      | some relativeToMatrix =>
        if useCalibratedTransform then relativeToMatrix * calibratedFrameMatrix
        else relativeToMatrix * matrix
      | none =>
        if useCalibratedTransform then calibratedFrameMatrix
        else matrix))

/-- `USAcquisitionObject::GetItkRGBImage`, up to the `frameMatrix` it hands to
`ConvertVtkImageToItkImage`. -/
def USAcquisitionObject.GetItkRGBImage (s : USAcquisitionObject α) (manager : SceneManager α)
    (frameNo : Int) (_masked : Bool) (useCalibratedTransform : Bool) (relativeToObjectID : Int) :
    Option (Mat4 α) :=
  (s.m_videoBuffer.GetMatrix frameNo).bind (fun matrix =>
    let calibratedFrameMatrix := matrix * s.m_calibrationTransform
    let relativeToMatrix : Option (Option (Mat4 α)) :=
      if relativeToObjectID ≠ manager.InvalidId then
        (manager.GetObjectByID relativeToObjectID).map
          (fun relativeTo => some relativeTo.worldTransformLinearInverse)
      else some none
    relativeToMatrix.map (fun relativeToMatrix =>
      match relativeToMatrix with
      | some relativeToMatrix =>
        if useCalibratedTransform then relativeToMatrix * calibratedFrameMatrix
        else relativeToMatrix * matrix
      | none =>
        if useCalibratedTransform then calibratedFrameMatrix
        else matrix))

/-! ### Qt strings, MINC metadata and file names -/

/-- The character of a decimal digit. -/
def decimalDigit (d : Nat) : Char :=
  match d with
  | 0 => '0' | 1 => '1' | 2 => '2' | 3 => '3' | 4 => '4'
  | 5 => '5' | 6 => '6' | 7 => '7' | 8 => '8' | _ => '9'

/-- The decimal digits of `n`, most significant first, without leading zeros;
`fuel` bounds the number of digits. -/
def decimalDigits : Nat → Nat → List Char
  | 0, _ => []
  | fuel + 1, n =>
    if n < 10 then [decimalDigit n] else decimalDigits fuel (n / 10) ++ [decimalDigit (n % 10)]

/-- `QString::number( int )`: the decimal representation (an `int` has at most ten
digits). -/
def QString.number (n : Int) : String :=
  if n < 0 then String.mk ('-' :: decimalDigits 10 n.natAbs)
  else String.mk (decimalDigits 10 n.toNat)

/-- `QString::replace( position, n, after )`: the `n` characters from `position`
on are replaced by `after`. -/
def QString.replace (s : String) (position n : Nat) (after : String) : String :=
  String.mk (s.data.take position ++ after.data ++ s.data.drop (position + n))

/-- The `w` low decimal digits of `n`, most significant first, zeros included. -/
def fixedDigits : Nat → Nat → List Char
  | 0, _ => []
  | w + 1, n => decimalDigit (n / 10 ^ w % 10) :: fixedDigits w (n % 10 ^ w)

/-- The string entries of an `itk::MetaDataDictionary`, latest first. -/
abbrev MetaDataDictionary := List (String × String)

/-- `itk::ExposeMetaData<std::string>`: the value stored under `key`, if any. -/
def ExposeMetaData (dictionary : MetaDataDictionary) (key : String) : Option String :=
  dictionary.lookup key

/-- `itk::EncapsulateMetaData<std::string>`: `value` is stored under `key`,
replacing what was there. -/
def EncapsulateMetaData (dictionary : MetaDataDictionary) (key value : String) :
    MetaDataDictionary :=
  (key, value) :: dictionary.filter (fun entry => entry.1 != key)

/-- The order in which `QDir::entryList( ..., QDir::Name )` lists file names: the
names are compared character by character, a proper prefix coming first. -/
def QDir.Name (a b : String) : Prop :=
  List.lt a.data b.data

instance (a b : String) : Decidable (QDir.Name a b) :=
  List.hasDecidableLt a.data b.data

/-- The name that the export loop of `ExportTrackedVideoBuffer` gives the file of
sequence number `sequenceNumber`: `partFileName`, a dot, zeros while the number
has fewer than five characters, the number, and `.mnc`. -/
def numberedFileName (partFileName : String) (sequenceNumber : Int) : String :=
  let Number := QString.number sequenceNumber
  let numLength := Number.length
  let padded := (List.range (5 - numLength)).foldl (fun (name : String) _ => name ++ "0")
    (partFileName ++ ".")
  padded ++ Number ++ ".mnc"

/-- The string `calMatString` that `ExportTrackedVideoBuffer` prepares: the twelve
entries of the first three rows of the calibration matrix, each followed by a
blank, the last blank replaced by a semicolon.  `number x f` is
`QString::number( x, f, 6 )`. -/
def calibrationMatrixString (number : α → Char → String) (calMatrix : Mat4 α) : String :=
  let calMatString := ([0, 1, 2] : List (Fin 4)).foldl
    (fun (acc : String) i => ([0, 1, 2, 3] : List (Fin 4)).foldl
      (fun (acc : String) j => (acc ++ number (calMatrix i j) 'f') ++ " ") acc) ""
  QString.replace calMatString (calMatString.length - 1) 1 ";"

/-- One file written by the export loop: its name, the frame matrix given to the
ITK image and the metadata dictionary of the image. -/
structure ExportedFrame (α : Type) where
  fileName : String
  frameMatrix : Mat4 α
  metaData : MetaDataDictionary

/-- The body of the export loop of `ExportTrackedVideoBuffer` for frame `i`, in
the branch for one component (`gray`) or for several: `sequenceNumber` is `i + 1`
after its increment.  `dictionary` is the dictionary of the image made by the
converter; `none` when `GetItkImage` fails. -/
def USAcquisitionObject.exportFrame (s : USAcquisitionObject α) (manager : SceneManager α)
    (number : α → Char → String) (dictionary : MetaDataDictionary) (partFileName : String)
    (masked useCalibratedTransform : Bool) (relativeToID : Int) (gray : Bool) (i : Nat) :
    Option (ExportedFrame α) :=
  let sequenceNumber : Int := (i : Int) + 1
  let calMatString := calibrationMatrixString number s.m_calibrationTransform
  let frameMatrix :=
    if gray then s.GetItkImage manager i masked useCalibratedTransform relativeToID
    else s.GetItkRGBImage manager i masked useCalibratedTransform relativeToID
  match frameMatrix, s.m_videoBuffer.GetTimestamp i with
  | some frameMatrix, some timestamp =>
    let metaDict := EncapsulateMetaData dictionary "acquisition:calibratioMatrix" calMatString
    let metaDict := EncapsulateMetaData metaDict "acquisition:calibratioMatrixApplied"
      (if useCalibratedTransform then "1" else "0")
    let metaDict := EncapsulateMetaData metaDict "acquisition:timestamp"
      (number timestamp (if gray then 'f' else 'g'))
    let metaDict := EncapsulateMetaData metaDict "acquisition:frameID"
      (QString.number (sequenceNumber - 1))
    some { fileName := numberedFileName partFileName sequenceNumber
           frameMatrix := frameMatrix
           metaData := metaDict }
  | _, _ => none

/-- The export loop of `ExportTrackedVideoBuffer`, when the directories could be
made, every file could be written and the user did not cancel: the files written
for the frames `0 .. numberOfFrames - 1`, in order.  `nbComp` is
`m_videoBuffer->GetFrameNumberOfComponents()`. -/
def USAcquisitionObject.ExportTrackedVideoBuffer (s : USAcquisitionObject α)
    (manager : SceneManager α) (number : α → Char → String) (dictionary : MetaDataDictionary)
    (partFileName : String) (masked useCalibratedTransform : Bool) (relativeToID : Int)
    (nbComp : Int) : Option (List (ExportedFrame α)) :=
  let numberOfFrames := s.m_videoBuffer.GetNumberOfFrames
  (List.range numberOfFrames.toNat).mapM
    (s.exportFrame manager number dictionary partFileName masked useCalibratedTransform
      relativeToID (nbComp == 1))

/-- What `GetGrayFrame` or `GetRGBFrame` and then `ConvertItkImageToVtkImage` give
for one MINC file: the metadata dictionary, the frame and the matrix of `tr`. -/
structure ItkImage (α : Type) where
  metaData : MetaDataDictionary
  frame : vtkImageData α
  matrix : Mat4 α

/-- A MINC file as the loading code sees it: whether it is readable, its number
of components, and what `GetGrayFrame` and `GetRGBFrame` return for it (`none`
when they return false). -/
structure MincFile (α : Type) where
  isReadable : Bool
  numberOfComponents : Int
  grayFrame : Option (ItkImage α)
  rgbFrame : Option (ItkImage α)

/-- The part of the body of the loading loops run for a frame that could be read:
the timestamp is parsed by `stod` (0.0 without the entry), the frame is adjusted
and appended to the buffer. -/
def USAcquisitionObject.loadFrame (s : USAcquisitionObject α) (stod : String → α)
    (itkImage : ItkImage α) : USAcquisitionObject α :=
  let ts : α :=
    match ExposeMetaData itkImage.metaData "acquisition:timestamp" with
    | some value => stod value
    | none => 0
  let adjusted := USAcquisitionObject.AdjustFrame itkImage.frame itkImage.matrix
  { s with m_videoBuffer := s.m_videoBuffer.AddFrame adjusted.1 adjusted.2 ts }

/-- The loop `for( i = 0; i < allMINCFiles.count() && processOK; ++i )` of the
loading functions, over what the reader returns for each file; the user does not
cancel. -/
def USAcquisitionObject.loadFrames (s : USAcquisitionObject α) (stod : String → α) :
    List (Option (ItkImage α)) → USAcquisitionObject α × Bool
  | [] => (s, true)
  | some itkImage :: rest => USAcquisitionObject.loadFrames (s.loadFrame stod itkImage) stod rest
  | none :: _ => (s, false)

/-- `USAcquisitionObject::LoadGrayFrames`: the new state and the returned `bool`;
`none` when `allMINCFiles.at( 0 )` does not exist.  `calMat` and `calMatUsed`
start empty and are filled by `ExposeMetaData` when the entry exists. -/
def USAcquisitionObject.LoadGrayFrames (s : USAcquisitionObject α) (stod : String → α)
    (allMINCFiles : List (MincFile α)) : Option (USAcquisitionObject α × Bool) :=
  match allMINCFiles with
  | [] => none
  | first :: _ =>
    match first.grayFrame with
    | none => some (s, false)
    | some itkImage =>
      let dictionary := itkImage.metaData
      let calMat : String := (ExposeMetaData dictionary "acquisition:calibratioMatrix").getD ""
      let s1 := { s with m_useCalibratedTransform := false }
      let s2 :=
        match ExposeMetaData dictionary "acquisition:calibratioMatrixApplied" with
        | some _calMatUsed =>
          if calMat = "1" then { s1 with m_useCalibratedTransform := true } else s1
        | none => s1
      some (s2.loadFrames stod (allMINCFiles.map MincFile.grayFrame))

/-- `USAcquisitionObject::LoadRGBFrames`. -/
def USAcquisitionObject.LoadRGBFrames (s : USAcquisitionObject α) (stod : String → α)
    (allMINCFiles : List (MincFile α)) : Option (USAcquisitionObject α × Bool) :=
  match allMINCFiles with
  | [] => none
  | first :: _ =>
    match first.rgbFrame with
    | none => some (s, false)
    | some itkImage =>
      let dictionary := itkImage.metaData
      let calMat : String := (ExposeMetaData dictionary "acquisition:calibratioMatrix").getD ""
      let s1 := { s with m_useCalibratedTransform := false }
      let s2 :=
        match ExposeMetaData dictionary "acquisition:calibratioMatrixApplied" with
        | some _calMatUsed =>
          if calMat = "1" then { s1 with m_useCalibratedTransform := true } else s1
        | none => s1
      some (s2.loadFrames stod (allMINCFiles.map MincFile.rgbFrame))

/-- `USAcquisitionObject::LoadFramesFromMINCFile( QStringList & )`. -/
def USAcquisitionObject.LoadFramesFromMINCFile (s : USAcquisitionObject α) (stod : String → α)
    (allMINCFiles : List (MincFile α)) : Option (USAcquisitionObject α × Bool) :=
  match allMINCFiles with
  | [] => none
  | first :: _ =>
    if ¬ first.isReadable then some (s, false)
    else
      let s1 := { s with m_componentsNumber := first.numberOfComponents }
      if s1.m_componentsNumber = 1 then s1.LoadGrayFrames stod allMINCFiles
      else if s1.m_componentsNumber > 1 then s1.LoadRGBFrames stod allMINCFiles
      else some (s1, false)

/-! ### `UpdateMask` and reading a scene -/

/-- `USAcquisitionObject::UpdateMask`; `none` when the assertion of
`SetNumberOfStaticSlices` fails. -/
def USAcquisitionObject.UpdateMask (s : USAcquisitionObject α) : Option (USAcquisitionObject α) :=
  let currentFrameIndex := s.m_videoBuffer.GetCurrentFrame
  if currentFrameIndex < 0 then some s
  else
    let s1 := s.SetCurrentFrame 0
    (s1.SetNumberOfStaticSlices s1.m_numberOfStaticSlices).map
      (fun s2 => s2.SetCurrentFrame currentFrameIndex)

/-- What `Serialize` finds when it reads a scene: whether the acquisition
directory exists, the values of the entries it reads into members or locals, and
the `*.mnc` files of the directory listed by name (`none` when the sub-directory is
missing). -/
structure SerializedAcquisition (α : Type) where
  directoryExists : Bool
  calibrationMatrix : Mat4 α
  currentSlice : Int
  staticSlicesEnabled : Bool
  numberOfStaticSlices : Int
  staticSlicesLutIndex : Int
  isMaskOn : Bool
  mask : USMask
  allMINCFiles : Option (List (MincFile α))

/-- `USAcquisitionObject::LoadFramesFromMINCFile( Serializer * )`: false when the
directory is missing or holds no MINC file. -/
def USAcquisitionObject.LoadFramesFromMINCFileOfScene (s : USAcquisitionObject α)
    (stod : String → α) (ser : SerializedAcquisition α) : Option (USAcquisitionObject α × Bool) :=
  match ser.allMINCFiles with
  | none => some (s, false)
  | some [] => some (s, false)
  | some (first :: rest) => s.LoadFramesFromMINCFile stod (first :: rest)

/-- `USAcquisitionObject::Serialize` with a reader. -/
def USAcquisitionObject.Serialize (s : USAcquisitionObject α) (stod : String → α)
    (ser : SerializedAcquisition α) : Option (USAcquisitionObject α) :=
  if ¬ ser.directoryExists then some s
  else
    let currentSlice := ser.currentSlice
    let s1 : USAcquisitionObject α :=
      { s with m_calibrationTransform := ser.calibrationMatrix
               m_staticSlicesEnabled := ser.staticSlicesEnabled
               m_numberOfStaticSlices := ser.numberOfStaticSlices
               m_staticSlicesLutIndex := ser.staticSlicesLutIndex
               m_isMaskOn := ser.isMaskOn
               m_mask := ser.mask }
    let s2 := s1.SetStaticSlicesLutIndex s1.m_staticSlicesLutIndex
    (s2.LoadFramesFromMINCFileOfScene stod ser).bind (fun loaded =>
      let s3 := if loaded.2 then loaded.1.SetCurrentFrame currentSlice else loaded.1
      s3.UpdateMask)

end Export

/-! ## `PointsObject` (src/IbisLib/pointsobject.cpp) -/

section Points

variable {α : Type}

/-- The colour `UpdatePointProperties` gives a point representation: one of
`m_selectedColor`, `m_activeColor`, `m_inactiveColor`. -/
inductive PointColor where
  | m_selectedColor
  | m_activeColor
  | m_inactiveColor
deriving DecidableEq

/-- The part of a `PointRepresentation` that `PointsObject` sets. -/
structure PointRepresentation (α : Type) where
  name : String
  pointIndex : Int
  position : α × α × α
  label : String
  active : Bool
  propertyColor : Option PointColor

/-- The members of `PointsObject` behind the list of points and the selection:
`m_pointCoordinates` holds the points of the `vtkPoints`. -/
structure PointsObject (α : Type) where
  m_pointCoordinates : List (α × α × α)
  m_pointNames : List String
  m_timeStamps : List String
  m_pointList : List (PointRepresentation α)
  m_selectedPointIndex : Int
  m_pickabilityLocked : Bool

/-- `PointsObject::InvalidPointIndex`. -/
def PointsObject.InvalidPointIndex : Int := -1

/-- `PointsObject::PointsObject`. -/
def PointsObject.new : PointsObject α :=
  { m_pointCoordinates := []
    m_pointNames := []
    m_timeStamps := []
    m_pointList := []
    m_selectedPointIndex := PointsObject.InvalidPointIndex
    m_pickabilityLocked := false }

/-- `PointsObject::GetNumberOfPoints`, the number of points of
`m_pointCoordinates`. -/
def PointsObject.GetNumberOfPoints (p : PointsObject α) : Int :=
  p.m_pointCoordinates.length

/-- `PointsObject::UpdatePointProperties`; `none` when the assertion on `index`
fails or a list has no entry `index`. -/
def PointsObject.UpdatePointProperties (p : PointsObject α) (index : Int) :
    Option (PointsObject α) :=
  if 0 ≤ index ∧ index < p.m_pointList.length then
    match p.m_pointList[index.toNat]?, p.m_pointNames[index.toNat]?,
      p.m_pointCoordinates[index.toNat]? with
    | some pt, some name, some position =>
      let color :=
        if index = p.m_selectedPointIndex ∧ pt.active then PointColor.m_selectedColor
        else if pt.active ∧ ¬ p.m_pickabilityLocked then PointColor.m_activeColor
        else PointColor.m_inactiveColor
      let updated : PointRepresentation α :=
        { pt with label := name, position := position, propertyColor := some color }
      some { p with m_pointList := p.m_pointList.set index.toNat updated }
    | _, _, _ => none
  else none

/-- `PointsObject::UpdatePoints`. -/
def PointsObject.UpdatePoints (p : PointsObject α) : Option (PointsObject α) :=
  (List.range p.m_pointList.length).foldlM
    (fun (q : PointsObject α) (i : Nat) => q.UpdatePointProperties (i : Int)) p

/-- `PointsObject::AddPointLocal`; `now` is the current date and time as text. -/
def PointsObject.AddPointLocal (p : PointsObject α) (coords : α × α × α)
    (name timestamp now : String) : Option (PointsObject α) :=
  let name := if name.isEmpty then QString.number (p.GetNumberOfPoints + 1) else name
  let timestamp := if timestamp.isEmpty then now else timestamp
  let p1 : PointsObject α :=
    { p with m_pointNames := p.m_pointNames ++ [name]
             m_pointCoordinates := p.m_pointCoordinates ++ [coords]
             m_timeStamps := p.m_timeStamps ++ [timestamp] }
  let index : Int := p1.m_pointList.length
  let pr : PointRepresentation α :=
    { name := name, pointIndex := index, position := coords, label := name, active := true
      propertyColor := none }
  let p2 : PointsObject α := { p1 with m_pointList := p1.m_pointList ++ [pr] }
  p2.UpdatePointProperties index

/-- `PointsObject::SetSelectedPoint`. -/
def PointsObject.SetSelectedPoint (p : PointsObject α) (index : Int) : Option (PointsObject α) :=
  if index ≠ PointsObject.InvalidPointIndex ∧ index < p.m_pointCoordinates.length then
    PointsObject.UpdatePoints { p with m_selectedPointIndex := index }
  else some p

/-- `PointsObject::UnselectAllPoints`. -/
def PointsObject.UnselectAllPoints (p : PointsObject α) : Option (PointsObject α) :=
  PointsObject.UpdatePoints { p with m_selectedPointIndex := PointsObject.InvalidPointIndex }

/-- `PointsObject::RemovePoint`; `none` when the assertion on `index` fails. -/
def PointsObject.RemovePoint (p : PointsObject α) (index : Int) : Option (PointsObject α) :=
  if 0 ≤ index ∧ index < p.m_pointCoordinates.length then
    let p1 : PointsObject α :=
      { p with m_pointCoordinates := p.m_pointCoordinates.eraseIdx index.toNat
               m_pointNames := p.m_pointNames.eraseIdx index.toNat
               m_timeStamps := p.m_timeStamps.eraseIdx index.toNat }
    let removed := p1.m_pointList.eraseIdx index.toNat
    let renumbered := (List.range removed.length).zipWith
      (fun (i : Nat) (pt : PointRepresentation α) => { pt with pointIndex := (i : Int) }) removed
    let p2 : PointsObject α := { p1 with m_pointList := renumbered }
    let p3 : PointsObject α :=
      if p2.m_selectedPointIndex ≥ p2.GetNumberOfPoints then
        if p2.GetNumberOfPoints > 0 then
          { p2 with m_selectedPointIndex := p2.GetNumberOfPoints - 1 }
        else { p2 with m_selectedPointIndex := PointsObject.InvalidPointIndex }
      else p2
    p3.UpdatePoints
  else none

/-- The name, timestamp and representation lists have the length of the
coordinate list. -/
def PointsObject.listsAligned (p : PointsObject α) : Prop :=
  p.m_pointNames.length = p.m_pointCoordinates.length ∧
  p.m_timeStamps.length = p.m_pointCoordinates.length ∧
  p.m_pointList.length = p.m_pointCoordinates.length

/-- The state `q` has the coordinates, names, timestamps and selection of `p`
and as many point representations. -/
def PointsObject.samePoints (p q : PointsObject α) : Prop :=
  q.m_pointCoordinates = p.m_pointCoordinates ∧ q.m_pointNames = p.m_pointNames ∧
  q.m_timeStamps = p.m_timeStamps ∧ q.m_selectedPointIndex = p.m_selectedPointIndex ∧
  q.m_pointList.length = p.m_pointList.length

/-- The states that `AddPointLocal`, `RemovePoint`, `SetSelectedPoint` and
`UnselectAllPoints` lead to from a new `PointsObject`, when the arguments of
`SetSelectedPoint` satisfy `allowed`. -/
inductive PointsObject.Reachable (allowed : Int → Prop) : PointsObject α → Prop
  | new : PointsObject.Reachable allowed PointsObject.new
  | AddPointLocal (p p' : PointsObject α) (coords : α × α × α) (name timestamp now : String) :
      PointsObject.Reachable allowed p → p.AddPointLocal coords name timestamp now = some p' →
      PointsObject.Reachable allowed p'
  | RemovePoint (p p' : PointsObject α) (index : Int) :
      PointsObject.Reachable allowed p → p.RemovePoint index = some p' →
      PointsObject.Reachable allowed p'
  | SetSelectedPoint (p p' : PointsObject α) (index : Int) :
      PointsObject.Reachable allowed p → allowed index → p.SetSelectedPoint index = some p' →
      PointsObject.Reachable allowed p'
  | UnselectAllPoints (p p' : PointsObject α) :
      PointsObject.Reachable allowed p → p.UnselectAllPoints = some p' →
      PointsObject.Reachable allowed p'

end Points

/-! ## Sequences of calls and sample data -/

section Sequences

variable {α : Type}

/-- The arguments of one call of `AddFrame`: image, tracked matrix, timestamp. -/
abbrev AddFrameCall (α : Type) := vtkImageData α × Mat4 α × α

/-- The frame stored for an accepted `AddFrame` call. -/
def AddFrameCall.toFrame (c : AddFrameCall α) : Frame α :=
  { image := c.1, matrix := c.2.1, timestamp := c.2.2 }

/-- Successive calls of `AddFrame`: the final state and, in call order, the calls
that returned true. -/
def USAcquisitionObject.AddFrames (s : USAcquisitionObject α) :
    List (AddFrameCall α) → USAcquisitionObject α × List (AddFrameCall α)
  | [] => (s, [])
  | c :: cs =>
    let r := s.AddFrame c.1 c.2.1 c.2.2
    let rest := USAcquisitionObject.AddFrames r.1 cs
    (rest.1, if r.2 then c :: rest.2 else rest.2)

/-- Successive clock ticks, the probe being read anew at each of them. -/
def USAcquisitionObject.Ticks (s : USAcquisitionObject α) :
    List (Option (UsProbeObject α)) → Option (USAcquisitionObject α)
  | [] => some s
  | p :: ps => (s.Updated p).bind (fun s1 => USAcquisitionObject.Ticks s1 ps)

/-- The frame stored for what a ready probe shows. -/
def UsProbeObject.toFrame (p : UsProbeObject α) : Frame α :=
  { image := p.videoOutput, matrix := p.uncalibratedWorldTransform, timestamp := p.lastTimestamp }

/-- A one-component test image of the given width and height. -/
def sampleImage (width height : Int) (scalars : List Nat) : vtkImageData ℤ :=
  { dimensions := (width, height, 1)
    numberOfScalarComponents := 1
    origin := (0, 0, 0)
    spacing := (1, 1, 1)
    scalars := scalars }

/-- A ready probe showing a test image of the given width and height. -/
def sampleProbe (width height : Int) (timestamp : ℤ) : UsProbeObject ℤ :=
  { isOk := true
    videoOutput := sampleImage width height []
    uncalibratedWorldTransform := 1
    lastTimestamp := timestamp }

/-- A fresh acquisition object with identity world transform. -/
def sampleObject : USAcquisitionObject ℤ :=
  USAcquisitionObject.new 1 { m_maskSize := (640, 480) }

/-- A fresh acquisition object put in the recording state. -/
def sampleRecording : USAcquisitionObject ℤ :=
  { sampleObject with m_isRecording := true }

/-- A test call of `AddFrame` with an image of the given size. -/
def sampleCall (width height : Int) (timestamp : ℤ) : AddFrameCall ℤ :=
  (sampleImage width height [], 1, timestamp)

/-- Two accepted 2x2 frames with different pixels on a fresh acquisition object. -/
def sampleTwoFrames : USAcquisitionObject ℤ :=
  ((sampleObject.AddFrame (sampleImage 2 2 [1]) 1 10).1.AddFrame (sampleImage 2 2 [2]) 1 11).1

/-- A recording object that holds two frames of 2 x 2 pixels. -/
def sampleRecordingTwoFrames : USAcquisitionObject ℤ :=
  { sampleTwoFrames with m_isRecording := true }

/-- A state holding `n` copies of one 2x2 frame and asking for `N` static slices. -/
def sampleWithFrames (n : Nat) (N : Int) : USAcquisitionObject ℤ :=
  { sampleObject with
    m_videoBuffer :=
      { m_frames := List.replicate n (AddFrameCall.toFrame (sampleCall 2 2 0))
        m_currentFrame := -1 }
    m_numberOfStaticSlices := N }

/-- A three-dimensional view. -/
def sampleView : View :=
  { id := 0, viewType := ViewType.THREED_VIEW_TYPE }

/-- A fresh acquisition object with one three-dimensional view registered. -/
def sampleWithView : USAcquisitionObject ℤ :=
  { sampleObject with
    m_perViews := [(sampleView, { imageSlice := OutputPort.m_sliceStencil, staticSlices := [] })] }

/-- An acquisition object moved by one unit along x in the scene, holding one 2x2
frame with identity tracked matrix. -/
def sampleMoved : USAcquisitionObject ℤ :=
  ((USAcquisitionObject.new (vtkTranslate (1, 0, 0)) { m_maskSize := (640, 480) }).AddFrame
    (sampleImage 2 2 [1]) 1 10).1

/-- A scene manager that knows one object, of id 7, placed at the identity. -/
def sampleManager : SceneManager ℤ :=
  { InvalidId := -1
    GetObjectByID := fun id =>
      if id = 7 then some { worldTransform := 1, worldTransformLinearInverse := 1 } else none }

/-- A reference object whose world transform is the concatenation of two
translations, `t1` by one unit along x and `t2` by one unit along y.  The matrix of
its `GetLinearInverse()` is the one that the comment in `PointsObject::DoPicking`
reports for a world transform of two or more concatenations: the inverse of `t1`. -/
def sampleConcatenatedReference : SceneObject ℤ :=
  { worldTransform := vtkTranslate (1, 0, 0) * vtkTranslate (0, 1, 0)
    worldTransformLinearInverse := vtkTranslate (-1, 0, 0) }

/-- A scene manager that knows the object of id 8, `sampleConcatenatedReference`. -/
def sampleConcatenatedManager : SceneManager ℤ :=
  { InvalidId := -1
    GetObjectByID := fun id => if id = 8 then some sampleConcatenatedReference else none }

/-- A frame as read from a file, with origin 0 and a spacing of `0.1` along x. -/
def sampleSpacedFrame : vtkImageData Double :=
  { dimensions := (640, 480, 1)
    numberOfScalarComponents := 1
    origin := (0, 0, 0)
    spacing := (Double.ofRat (1 / 10), 1, 1)
    scalars := [] }

/-- An input matrix that scales x by 3. -/
def sampleScaling : Mat4 Double :=
  vtkScale (Double.ofRat 3, 1, 1)

/-- A stand-in for `QString::number( x, f, 6 )` on whole numbers: six zero
decimals. -/
def sampleNumber (x : ℤ) (_f : Char) : String :=
  QString.number x ++ ".000000"

/-- The file that the export of `sampleTwoFrames` writes for frame `i` with
`useCalibratedTransform` as given, no mask and no reference object. -/
def sampleExportedFrame (useCalibratedTransform : Bool) (i : Nat) : Option (ExportedFrame ℤ) :=
  sampleTwoFrames.exportFrame sampleManager sampleNumber [] "acq/7" false useCalibratedTransform
    (-1) true i

/-- A readable one-component MINC file whose frame carries the dictionary
`dictionary`. -/
def sampleMincFile (dictionary : MetaDataDictionary) : MincFile ℤ :=
  { isReadable := true
    numberOfComponents := 1
    grayFrame := some { metaData := dictionary, frame := sampleImage 2 2 [1], matrix := 1 }
    rgbFrame := none }

end Sequences

/-! ## The frame store contract of `AddFrame` -/

section AddFrameContract

variable {α : Type}

theorem AddFrame_recording (s : USAcquisitionObject α) (image : vtkImageData α) (mat : Mat4 α)
    (timestamp : α) (h : s.m_isRecording = true) : s.AddFrame image mat timestamp = (s, false) := by
  simp [USAcquisitionObject.AddFrame, h]

theorem GetNumberOfFrames_AddFrame (b : TrackedVideoBuffer α) (image : vtkImageData α)
    (mat : Mat4 α) (timestamp : α) :
    (b.AddFrame image mat timestamp).GetNumberOfFrames = b.GetNumberOfFrames + 1 := by
  simp [TrackedVideoBuffer.AddFrame, TrackedVideoBuffer.GetNumberOfFrames]

/-- C1. `AddFrame` returns true exactly when the object is not recording and
either the frame store is empty or the width and height of the image equal the
established frame size; `GetNumberOfSlices` grows by one when it returns true and
keeps its value when it returns false. -/
theorem C1_AddFrame_accepts_iff_and_counts (s : USAcquisitionObject α) (image : vtkImageData α)
    (mat : Mat4 α) (timestamp : α) :
    ((s.AddFrame image mat timestamp).2 = true ↔
      (s.m_isRecording = false ∧
        (s.GetNumberOfSlices = 0 ∨
          (image.dimensions.1 = s.m_defaultImageSize.1 ∧
            image.dimensions.2.1 = s.m_defaultImageSize.2)))) ∧
    (s.AddFrame image mat timestamp).1.GetNumberOfSlices =
      s.GetNumberOfSlices + (if (s.AddFrame image mat timestamp).2 then 1 else 0) := by
  unfold USAcquisitionObject.AddFrame USAcquisitionObject.GetNumberOfSlices
  by_cases hr : s.m_isRecording = true
  · simp [hr]
  · by_cases hn : s.m_videoBuffer.GetNumberOfFrames = 0
    · simp [hr, hn, USAcquisitionObject.SetFrameAndMaskSize, GetNumberOfFrames_AddFrame]
    · by_cases hd : image.dimensions.1 ≠ s.m_defaultImageSize.1 ∨
          image.dimensions.2.1 ≠ s.m_defaultImageSize.2
      · have hd' : ¬ (image.dimensions.1 = s.m_defaultImageSize.1 ∧
            image.dimensions.2.1 = s.m_defaultImageSize.2) := by
          intro hc
          rcases hd with h | h
          · exact h hc.1
          · exact h hc.2
        simp [hr, hn, hd, hd']
      · have hd' : image.dimensions.1 = s.m_defaultImageSize.1 ∧
            image.dimensions.2.1 = s.m_defaultImageSize.2 := by
          constructor
          · by_contra hc
            exact hd (Or.inl hc)
          · by_contra hc
            exact hd (Or.inr hc)
        simp [hr, hn, hd, hd', GetNumberOfFrames_AddFrame]

/-- C2. While the object is recording, `AddFrame` returns false and hands back the
very same state: the count, the stored frames, the established frame size and the
recording flag are all unchanged. -/
theorem C2_AddFrame_fails_while_recording (s : USAcquisitionObject α) (image : vtkImageData α)
    (mat : Mat4 α) (timestamp : α) (hrec : s.m_isRecording = true) :
    (s.AddFrame image mat timestamp).2 = false ∧
    (s.AddFrame image mat timestamp).1 = s ∧
    (s.AddFrame image mat timestamp).1.GetNumberOfSlices = s.GetNumberOfSlices ∧
    (s.AddFrame image mat timestamp).1.m_videoBuffer.m_frames = s.m_videoBuffer.m_frames ∧
    (s.AddFrame image mat timestamp).1.m_defaultImageSize = s.m_defaultImageSize ∧
    (s.AddFrame image mat timestamp).1.m_isRecording = true := by
  rw [AddFrame_recording s image mat timestamp hrec]
  exact ⟨rfl, rfl, rfl, rfl, rfl, hrec⟩

/-- C3. In a non-recording state that holds at least one frame, `AddFrame` with an
image whose width or height differs from the established frame size returns false
and changes neither the count, nor `m_defaultImageSize`, nor the current index (it
returns the state it was given). -/
theorem C3_AddFrame_mismatch_no_mutation (s : USAcquisitionObject α) (image : vtkImageData α)
    (mat : Mat4 α) (timestamp : α) (hidle : s.m_isRecording = false)
    (hcount : 0 < s.GetNumberOfSlices)
    (hdims : image.dimensions.1 ≠ s.m_defaultImageSize.1 ∨
      image.dimensions.2.1 ≠ s.m_defaultImageSize.2) :
    (s.AddFrame image mat timestamp).2 = false ∧
    (s.AddFrame image mat timestamp).1 = s ∧
    (s.AddFrame image mat timestamp).1.GetNumberOfSlices = s.GetNumberOfSlices ∧
    (s.AddFrame image mat timestamp).1.m_defaultImageSize = s.m_defaultImageSize ∧
    (s.AddFrame image mat timestamp).1.GetCurrentSlice = s.GetCurrentSlice := by
  have hn : s.m_videoBuffer.GetNumberOfFrames ≠ 0 := by
    unfold USAcquisitionObject.GetNumberOfSlices at hcount
    omega
  have h : s.AddFrame image mat timestamp = (s, false) := by
    simp [USAcquisitionObject.AddFrame, hidle, hn, hdims]
  rw [h]
  exact ⟨rfl, rfl, rfl, rfl, rfl⟩

theorem C1_witness :
    ((sampleObject.AddFrame (sampleImage 2 2 []) 1 0).2 = true ↔
      (sampleObject.m_isRecording = false ∧
        (sampleObject.GetNumberOfSlices = 0 ∨
          ((sampleImage 2 2 []).dimensions.1 = sampleObject.m_defaultImageSize.1 ∧
            (sampleImage 2 2 []).dimensions.2.1 = sampleObject.m_defaultImageSize.2)))) ∧
    (sampleObject.AddFrame (sampleImage 2 2 []) 1 0).1.GetNumberOfSlices =
      sampleObject.GetNumberOfSlices +
        (if (sampleObject.AddFrame (sampleImage 2 2 []) 1 0).2 then 1 else 0) :=
  C1_AddFrame_accepts_iff_and_counts sampleObject (sampleImage 2 2 []) 1 0

theorem C2_witness :
    sampleRecording.m_isRecording = true ∧
    (sampleRecording.AddFrame (sampleImage 2 2 []) 1 0).2 = false ∧
    (sampleRecording.AddFrame (sampleImage 2 2 []) 1 0).1 = sampleRecording :=
  ⟨rfl, (C2_AddFrame_fails_while_recording sampleRecording (sampleImage 2 2 []) 1 0 rfl).1,
    (C2_AddFrame_fails_while_recording sampleRecording (sampleImage 2 2 []) 1 0 rfl).2.1⟩

theorem C3_witness :
    (sampleObject.AddFrame (sampleImage 2 2 []) 1 0).1.m_isRecording = false ∧
    0 < (sampleObject.AddFrame (sampleImage 2 2 []) 1 0).1.GetNumberOfSlices ∧
    (((sampleObject.AddFrame (sampleImage 2 2 []) 1 0).1.AddFrame (sampleImage 3 2 []) 1 1).2
      = false) :=
  ⟨by decide, by decide,
    (C3_AddFrame_mismatch_no_mutation (sampleObject.AddFrame (sampleImage 2 2 []) 1 0).1
      (sampleImage 3 2 []) 1 1 (by decide) (by decide) (by decide)).1⟩

end AddFrameContract

/-! ## Round trip of append and read-back, and the composed pose -/

section RoundTrip

variable {α : Type}

theorem GetFrame_eq_get? (b : TrackedVideoBuffer α) (i : Int) (h0 : 0 ≤ i) :
    b.GetFrame i = b.m_frames[i.toNat]? := by
  simp [TrackedVideoBuffer.GetFrame, h0]

theorem GetFrame_isSome (b : TrackedVideoBuffer α) (i : Int) (h0 : 0 ≤ i)
    (h1 : i < b.GetNumberOfFrames) : ∃ f, b.GetFrame i = some f := by
  have hlt : i.toNat < b.m_frames.length := by
    unfold TrackedVideoBuffer.GetNumberOfFrames at h1
    omega
  refine ⟨b.m_frames[i.toNat], ?_⟩
  rw [GetFrame_eq_get? b i h0]
  exact List.getElem?_eq_getElem hlt

theorem AddFrame_frames (s : USAcquisitionObject α) (c : AddFrameCall α) :
    (s.AddFrame c.1 c.2.1 c.2.2).1.m_videoBuffer.m_frames =
      s.m_videoBuffer.m_frames ++
        (if (s.AddFrame c.1 c.2.1 c.2.2).2 then [AddFrameCall.toFrame c] else []) := by
  unfold USAcquisitionObject.AddFrame
  by_cases hr : s.m_isRecording = true
  · simp [hr]
  · by_cases hn : s.m_videoBuffer.GetNumberOfFrames = 0
    · simp [hr, hn, USAcquisitionObject.SetFrameAndMaskSize, TrackedVideoBuffer.AddFrame,
        AddFrameCall.toFrame]
    · by_cases hd : c.1.dimensions.1 ≠ s.m_defaultImageSize.1 ∨
          c.1.dimensions.2.1 ≠ s.m_defaultImageSize.2
      · simp [hr, hn, hd]
      · simp [hr, hn, hd, TrackedVideoBuffer.AddFrame, AddFrameCall.toFrame]

theorem AddFrames_frames (calls : List (AddFrameCall α)) (s : USAcquisitionObject α) :
    (s.AddFrames calls).1.m_videoBuffer.m_frames =
      s.m_videoBuffer.m_frames ++ (s.AddFrames calls).2.map AddFrameCall.toFrame := by
  induction calls generalizing s with
  | nil => simp [USAcquisitionObject.AddFrames]
  | cons c cs ih =>
    simp only [USAcquisitionObject.AddFrames]
    rw [ih, AddFrame_frames]
    by_cases hb : (s.AddFrame c.1 c.2.1 c.2.2).2 = true
    · simp [hb]
    · simp [hb]

variable [CommRing α]

theorem m_frames_SetCurrentFrame (s : USAcquisitionObject α) (i : Int) :
    (s.SetCurrentFrame i).m_videoBuffer.m_frames = s.m_videoBuffer.m_frames := rfl

theorem m_sliceTransform_SetCurrentFrame (s : USAcquisitionObject α) (i : Int) (f : Frame α)
    (hf : s.m_videoBuffer.GetFrame i = some f) :
    (s.SetCurrentFrame i).m_sliceTransform =
      s.worldTransform * f.matrix * s.m_calibrationTransform := by
  have hg : (s.m_videoBuffer.SetCurrentFrame i).GetFrame i = some f := by
    rw [← hf]
    rfl
  have hg' : TrackedVideoBuffer.GetFrame
      { m_frames := s.m_videoBuffer.m_frames, m_currentFrame := i } i = some f := hg
  simp [USAcquisitionObject.m_sliceTransform, USAcquisitionObject.SetCurrentFrame,
    vtkConcatenate, TrackedVideoBuffer.GetCurrentMatrix, TrackedVideoBuffer.GetMatrix,
    TrackedVideoBuffer.SetCurrentFrame, hg']

theorem GetFrameData_of_frame (s : USAcquisitionObject α) (i : Int) (f : Frame α) (h0 : 0 ≤ i)
    (h1 : i < s.GetNumberOfSlices) (hf : s.m_videoBuffer.GetFrame i = some f) :
    s.GetFrameData i =
      some ((s.SetCurrentFrame i).SetCurrentFrame s.m_videoBuffer.GetCurrentFrame, f.image,
        s.worldTransform * f.matrix * s.m_calibrationTransform) := by
  have hr : 0 ≤ i ∧ i < s.m_videoBuffer.GetNumberOfFrames := ⟨h0, h1⟩
  have himg : ((s.SetCurrentFrame i).SetCurrentFrame
      s.m_videoBuffer.GetCurrentFrame).m_videoBuffer.GetImage i = some f.image := by
    have : ((s.SetCurrentFrame i).SetCurrentFrame
        s.m_videoBuffer.GetCurrentFrame).m_videoBuffer.GetFrame i = some f := by
      rw [← hf]
      rfl
    simp [TrackedVideoBuffer.GetImage, this]
  simp only [USAcquisitionObject.GetFrameData, hr, and_self, if_true, himg,
    m_sliceTransform_SetCurrentFrame s i f hf, Option.map_some']

/-- C4. After any sequence of `AddFrame` calls on a new acquisition object, the
count is the number of accepted calls and, for every index `i` in `[0, Count())`,
`GetFrameData(i)` returns the image passed to the `i`-th accepted call and
`GetFrameTimestamp(i)` the timestamp of that call. -/
theorem C4_AddFrame_read_back_round_trip (world : Mat4 α) (mask : USMask)
    (calls : List (AddFrameCall α)) (i : Int) (h0 : 0 ≤ i)
    (h1 : i < ((USAcquisitionObject.new world mask).AddFrames calls).1.GetNumberOfSlices) :
    ((USAcquisitionObject.new world mask).AddFrames calls).1.GetNumberOfSlices =
        (((USAcquisitionObject.new world mask).AddFrames calls).2.length : Int) ∧
    ∃ c, ((USAcquisitionObject.new world mask).AddFrames calls).2.get? i.toNat = some c ∧
      ((USAcquisitionObject.new world mask).AddFrames calls).1.GetFrameTimestamp i = some c.2.2 ∧
      ∃ s' m, ((USAcquisitionObject.new world mask).AddFrames calls).1.GetFrameData i =
        some (s', c.1, m) := by
  have hfr := AddFrames_frames calls (USAcquisitionObject.new world mask)
  have hnil : (USAcquisitionObject.new world mask).m_videoBuffer.m_frames = [] := rfl
  rw [hnil, List.nil_append] at hfr
  have hcount : ((USAcquisitionObject.new world mask).AddFrames calls).1.GetNumberOfSlices =
      (((USAcquisitionObject.new world mask).AddFrames calls).2.length : Int) := by
    simp [USAcquisitionObject.GetNumberOfSlices, TrackedVideoBuffer.GetNumberOfFrames, hfr]
  refine ⟨hcount, ?_⟩
  have hlt : i.toNat < ((USAcquisitionObject.new world mask).AddFrames calls).2.length := by
    rw [hcount] at h1
    omega
  have hc : ((USAcquisitionObject.new world mask).AddFrames calls).2.get? i.toNat =
      some (((USAcquisitionObject.new world mask).AddFrames calls).2[i.toNat]) := by
    rw [List.get?_eq_getElem?]
    exact List.getElem?_eq_getElem hlt
  have hf : ((USAcquisitionObject.new world mask).AddFrames calls).1.m_videoBuffer.GetFrame i =
      some (AddFrameCall.toFrame
        (((USAcquisitionObject.new world mask).AddFrames calls).2[i.toNat])) := by
    rw [GetFrame_eq_get? _ i h0, hfr, List.getElem?_map, List.getElem?_eq_getElem hlt]
    rfl
  refine ⟨_, hc, ?_, ?_⟩
  · simp only [USAcquisitionObject.GetFrameTimestamp, TrackedVideoBuffer.GetTimestamp, hf]
    rfl
  · exact ⟨_, _, GetFrameData_of_frame _ i _ h0 h1 hf⟩

theorem C4_witness :
    (0 : Int) ≤ 1 ∧
    (1 : Int) < (sampleObject.AddFrames
      [sampleCall 2 2 10, sampleCall 3 2 11, sampleCall 2 2 12]).1.GetNumberOfSlices ∧
    ∃ c, (sampleObject.AddFrames
        [sampleCall 2 2 10, sampleCall 3 2 11, sampleCall 2 2 12]).2.get? (1 : Int).toNat
          = some c ∧
      (sampleObject.AddFrames
        [sampleCall 2 2 10, sampleCall 3 2 11, sampleCall 2 2 12]).1.GetFrameTimestamp 1
          = some c.2.2 ∧
      ∃ s' m, (sampleObject.AddFrames
        [sampleCall 2 2 10, sampleCall 3 2 11, sampleCall 2 2 12]).1.GetFrameData 1
          = some (s', c.1, m) :=
  ⟨by decide, by decide,
    (C4_AddFrame_read_back_round_trip 1 { m_maskSize := (640, 480) }
      [sampleCall 2 2 10, sampleCall 3 2 11, sampleCall 2 2 12] 1 (by decide) (by decide)).2⟩

/-- C5. For every valid frame index `i`, the matrix of the slice transform after
`SetCurrentFrame(i)` and the matrix that `GetFrameData(i)` returns are both the
product world transform x tracked matrix of frame `i` x calibration, in that
order. -/
theorem C5_composed_pose_is_world_tracked_calibration (s : USAcquisitionObject α) (i : Int)
    (h0 : 0 ≤ i) (h1 : i < s.GetNumberOfSlices) :
    ∃ T, s.m_videoBuffer.GetMatrix i = some T ∧
      (s.SetCurrentFrame i).m_sliceTransform = s.worldTransform * T * s.m_calibrationTransform ∧
      ∃ s' slice, s.GetFrameData i =
        some (s', slice, s.worldTransform * T * s.m_calibrationTransform) := by
  obtain ⟨f, hf⟩ := GetFrame_isSome s.m_videoBuffer i h0 h1
  refine ⟨f.matrix, ?_, m_sliceTransform_SetCurrentFrame s i f hf, ?_⟩
  · simp [TrackedVideoBuffer.GetMatrix, hf]
  · exact ⟨_, _, GetFrameData_of_frame s i f h0 h1 hf⟩

theorem C5_witness :
    (0 : Int) ≤ 0 ∧ (0 : Int) < (sampleObject.AddFrame (sampleImage 2 2 []) 1 0).1.GetNumberOfSlices ∧
    ∃ T, (sampleObject.AddFrame (sampleImage 2 2 []) 1 0).1.m_videoBuffer.GetMatrix 0 = some T ∧
      ((sampleObject.AddFrame (sampleImage 2 2 []) 1 0).1.SetCurrentFrame 0).m_sliceTransform =
        (sampleObject.AddFrame (sampleImage 2 2 []) 1 0).1.worldTransform * T *
          (sampleObject.AddFrame (sampleImage 2 2 []) 1 0).1.m_calibrationTransform ∧
      ∃ s' slice, (sampleObject.AddFrame (sampleImage 2 2 []) 1 0).1.GetFrameData 0 =
        some (s', slice, (sampleObject.AddFrame (sampleImage 2 2 []) 1 0).1.worldTransform * T *
          (sampleObject.AddFrame (sampleImage 2 2 []) 1 0).1.m_calibrationTransform) :=
  ⟨by decide, by decide,
    C5_composed_pose_is_world_tracked_calibration
      (sampleObject.AddFrame (sampleImage 2 2 []) 1 0).1 0 (by decide) (by decide)⟩

end RoundTrip

/-! ## The recording controller -/

section Recording

variable {α : Type}

theorem Record_idle_ready (s : USAcquisitionObject α) (p : UsProbeObject α)
    (hidle : s.m_isRecording = false) (hok : p.isOk = true) :
    ∃ s1, s.Record (some p) = some s1 ∧ s1.m_isRecording = true ∧
      s1.m_videoBuffer.m_frames = s.m_videoBuffer.m_frames ++ [p.toFrame] := by
  unfold USAcquisitionObject.Record
  simp only [hidle, hok, Bool.false_eq_true, if_false, if_true]
  refine ⟨_, rfl, ?_, ?_⟩
  · by_cases he : s.m_staticSlicesEnabled = false
    · simp [USAcquisitionObject.SetEnableStaticSlices, USAcquisitionObject.SetFrameAndMaskSize, he]
    · simp [USAcquisitionObject.SetEnableStaticSlices, USAcquisitionObject.SetFrameAndMaskSize, he]
  · by_cases he : s.m_staticSlicesEnabled = false
    · simp [USAcquisitionObject.SetEnableStaticSlices, USAcquisitionObject.SetFrameAndMaskSize, he,
        TrackedVideoBuffer.AddFrame, UsProbeObject.toFrame]
    · simp [USAcquisitionObject.SetEnableStaticSlices, USAcquisitionObject.SetFrameAndMaskSize, he,
        TrackedVideoBuffer.AddFrame, UsProbeObject.toFrame]

theorem Updated_recording_ready (s : USAcquisitionObject α) (p : UsProbeObject α)
    (hrec : s.m_isRecording = true) (hok : p.isOk = true) :
    s.Updated (some p) = some { s with
      m_videoBuffer :=
        (s.m_videoBuffer.AddFrame p.videoOutput p.uncalibratedWorldTransform p.lastTimestamp) } := by
  simp [USAcquisitionObject.Updated, hrec, hok]

theorem Ticks_recording_ready (probes : List (UsProbeObject α)) (s : USAcquisitionObject α)
    (hrec : s.m_isRecording = true) (hall : ∀ p ∈ probes, p.isOk = true) :
    ∃ s2, s.Ticks (probes.map some) = some s2 ∧ s2.m_isRecording = true ∧
      s2.m_videoBuffer.m_frames = s.m_videoBuffer.m_frames ++ probes.map UsProbeObject.toFrame := by
  induction probes generalizing s with
  | nil => exact ⟨s, rfl, hrec, by simp⟩
  | cons p ps ih =>
    have hp : p.isOk = true := hall p (List.mem_cons_self p ps)
    have hps : ∀ q ∈ ps, q.isOk = true := fun q hq => hall q (List.mem_cons_of_mem p hq)
    obtain ⟨s2, h2, hr2, hf2⟩ := ih { s with
      m_videoBuffer :=
        (s.m_videoBuffer.AddFrame p.videoOutput p.uncalibratedWorldTransform p.lastTimestamp) }
      hrec hps
    refine ⟨s2, ?_, hr2, ?_⟩
    · simp only [List.map_cons, USAcquisitionObject.Ticks, Updated_recording_ready s p hrec hp,
        Option.some_bind]
      exact h2
    · rw [hf2]
      simp [TrackedVideoBuffer.AddFrame, UsProbeObject.toFrame]

/-- C9. From an idle state, `Record()`, then `k` clock ticks, then `Stop()`, with
the probe ready at `Record()` and at every tick, succeed, add exactly `k + 1` frames
(the one read by `Record()` and one for each tick, in that order) and end idle. -/
theorem C9_record_ticks_stop_adds_k_plus_one (s : USAcquisitionObject α) (p0 : UsProbeObject α)
    (probes : List (UsProbeObject α)) (hidle : s.m_isRecording = false) (h0 : p0.isOk = true)
    (hall : ∀ p ∈ probes, p.isOk = true) :
    ∃ s1 s2, s.Record (some p0) = some s1 ∧ s1.Ticks (probes.map some) = some s2 ∧
      s2.Stop.GetNumberOfSlices = s.GetNumberOfSlices + ((probes.length : Int) + 1) ∧
      s2.Stop.m_videoBuffer.m_frames =
        s.m_videoBuffer.m_frames ++ (p0 :: probes).map UsProbeObject.toFrame ∧
      s2.Stop.m_isRecording = false := by
  obtain ⟨s1, hs1, hr1, hf1⟩ := Record_idle_ready s p0 hidle h0
  obtain ⟨s2, hs2, hr2, hf2⟩ := Ticks_recording_ready probes s1 hr1 hall
  have hstop : s2.Stop = { s2 with m_isRecording := false } := by
    simp [USAcquisitionObject.Stop, hr2]
  have hfr : s2.Stop.m_videoBuffer.m_frames =
      s.m_videoBuffer.m_frames ++ (p0 :: probes).map UsProbeObject.toFrame := by
    rw [hstop]
    show s2.m_videoBuffer.m_frames = _
    rw [hf2, hf1]
    simp
  refine ⟨s1, s2, hs1, hs2, ?_, hfr, ?_⟩
  · simp only [USAcquisitionObject.GetNumberOfSlices, TrackedVideoBuffer.GetNumberOfFrames, hfr]
    simp
  · rw [hstop]

theorem C9_witness :
    sampleObject.m_isRecording = false ∧ (sampleProbe 2 2 10).isOk = true ∧
    (∀ p ∈ [sampleProbe 2 2 11], p.isOk = true) ∧
    sampleObject.GetNumberOfSlices = 0 ∧
    ∃ s1 s2, sampleObject.Record (some (sampleProbe 2 2 10)) = some s1 ∧
      s1.Ticks ([sampleProbe 2 2 11].map some) = some s2 ∧
      s2.Stop.GetNumberOfSlices = 2 ∧ s2.Stop.m_isRecording = false := by
  refine ⟨rfl, rfl, by simp [sampleProbe], rfl, ?_⟩
  obtain ⟨s1, s2, h1, h2, h3, _, h5⟩ :=
    C9_record_ticks_stop_adds_k_plus_one sampleObject (sampleProbe 2 2 10) [sampleProbe 2 2 11]
      rfl rfl (by simp [sampleProbe])
  exact ⟨s1, s2, h1, h2, by simpa [sampleObject, USAcquisitionObject.new,
    USAcquisitionObject.GetNumberOfSlices, TrackedVideoBuffer.GetNumberOfFrames,
    TrackedVideoBuffer.new] using h3, h5⟩

/-- C10. A clock tick in the recording state with the probe ready appends exactly
one frame, the one the probe shows; with the probe not ready, and in the idle
state whatever the probe, it returns the state unchanged. -/
theorem C10_tick_appends_one_or_nothing (s : USAcquisitionObject α) (p : UsProbeObject α)
    (probe : Option (UsProbeObject α)) :
    (s.m_isRecording = true → p.isOk = true →
      ∃ s', s.Updated (some p) = some s' ∧
        s'.m_videoBuffer.m_frames = s.m_videoBuffer.m_frames ++ [p.toFrame] ∧
        s'.GetNumberOfSlices = s.GetNumberOfSlices + 1) ∧
    (s.m_isRecording = true → p.isOk = false → s.Updated (some p) = some s) ∧
    (s.m_isRecording = false → s.Updated probe = some s) := by
  refine ⟨?_, ?_, ?_⟩
  · intro hrec hok
    refine ⟨_, Updated_recording_ready s p hrec hok, ?_, ?_⟩
    · simp [TrackedVideoBuffer.AddFrame, UsProbeObject.toFrame]
    · simp [USAcquisitionObject.GetNumberOfSlices, TrackedVideoBuffer.GetNumberOfFrames,
        TrackedVideoBuffer.AddFrame]
  · intro hrec hok
    simp [USAcquisitionObject.Updated, hrec, hok]
  · intro hidle
    simp [USAcquisitionObject.Updated, hidle]

end Recording

/-! ## Rounding error of the sampled index

`roundToDouble a b` is within a factor `1 ± 2 ^ (-53)` of `a / b`; two roundings
stand between the exact quotient `count * i / N` and the sampled index. -/

section Rounding

theorem roundHalfEven_le (a b : Nat) (hb : 0 < b) : 2 * (roundHalfEven a b * b) ≤ 2 * a + b := by
  have hdm : b * (a / b) + a % b = a := Nat.div_add_mod a b
  have hr : a % b < b := Nat.mod_lt a hb
  unfold roundHalfEven
  simp only
  generalize a / b = q at hdm ⊢
  generalize a % b = r at hdm hr ⊢
  subst hdm
  split_ifs with h1 h2 h3
  · nlinarith
  · have : 2 * ((q + 1) * b) = 2 * (b * q) + 2 * b := by ring
    omega
  · nlinarith
  · have : 2 * ((q + 1) * b) = 2 * (b * q) + 2 * b := by ring
    omega

theorem roundHalfEven_ge (a b : Nat) (hb : 0 < b) : 2 * a ≤ 2 * (roundHalfEven a b * b) + b := by
  have hdm : b * (a / b) + a % b = a := Nat.div_add_mod a b
  have hr : a % b < b := Nat.mod_lt a hb
  unfold roundHalfEven
  simp only
  generalize a / b = q at hdm ⊢
  generalize a % b = r at hdm hr ⊢
  subst hdm
  split_ifs with h1 h2 h3
  · have : 2 * (q * b) = 2 * (b * q) := by ring
    omega
  · have : 2 * ((q + 1) * b) = 2 * (b * q) + 2 * b := by ring
    omega
  · have : 2 * (q * b) = 2 * (b * q) := by ring
    omega
  · have : 2 * ((q + 1) * b) = 2 * (b * q) + 2 * b := by ring
    omega

theorem scaleUp_spec (f : Nat) : ∀ a b : Nat, b * 2 ^ 52 ≤ a * 2 ^ f →
    b * 2 ^ 52 ≤ a * 2 ^ scaleUp f a b := by
  induction f with
  | zero => intro a b h; simpa [scaleUp] using h
  | succ f ih =>
    intro a b h
    unfold scaleUp
    split_ifs with hlt
    · have e1 : a * 2 ^ (f + 1) = (2 * a) * 2 ^ f := by ring
      rw [e1] at h
      have := ih (2 * a) b h
      have e2 : a * 2 ^ (scaleUp f (2 * a) b + 1) = (2 * a) * 2 ^ scaleUp f (2 * a) b := by ring
      rw [e2]
      exact this
    · simp only [pow_zero, mul_one]
      omega

theorem scaleDown_spec (f : Nat) : ∀ a b : Nat, b * 2 ^ 52 ≤ a →
    (b * 2 ^ scaleDown f a b) * 2 ^ 52 ≤ a := by
  induction f with
  | zero => intro a b h; simpa [scaleDown] using h
  | succ f ih =>
    intro a b h
    unfold scaleDown
    split_ifs with hle
    · have h' : (2 * b) * 2 ^ 52 ≤ a := by
        have e : b * 2 ^ 53 = (2 * b) * 2 ^ 52 := by ring
        rw [e] at hle
        exact hle
      have := ih a (2 * b) h'
      have e2 : b * 2 ^ (scaleDown f a (2 * b) + 1) = (2 * b) * 2 ^ scaleDown f a (2 * b) := by ring
      rw [e2]
      exact this
    · simpa using h

theorem roundToDouble_den_pos (a b : Nat) : 0 < (roundToDouble a b).2 := by
  unfold roundToDouble
  split_ifs
  · simp
  · simp

theorem roundToDouble_scaled (a b : Nat) (ha : a ≠ 0) (hb : 0 < b) :
    ∃ A B m : Nat, 0 < B ∧ B * 2 ^ 52 ≤ A ∧ 2 * (m * B) ≤ 2 * A + B ∧ 2 * A ≤ 2 * (m * B) + B ∧
      A = a * (roundToDouble a b).2 ∧ (roundToDouble a b).1 * b = m * B := by
  have hup : b * 2 ^ 52 ≤ a * 2 ^ scaleUp (b + 52) a b := by
    apply scaleUp_spec
    have h1 : b < 2 ^ b := Nat.lt_two_pow b
    have h2 : 1 ≤ a := Nat.one_le_iff_ne_zero.mpr ha
    rw [pow_add]
    nlinarith [Nat.mul_le_mul h2 (Nat.mul_le_mul_right (2 ^ 52) h1.le)]
  have hdown := scaleDown_spec (a * 2 ^ scaleUp (b + 52) a b) (a * 2 ^ scaleUp (b + 52) a b) b hup
  have hB : 0 < b * 2 ^ scaleDown (a * 2 ^ scaleUp (b + 52) a b) (a * 2 ^ scaleUp (b + 52) a b) b :=
    Nat.mul_pos hb (by positivity)
  refine ⟨a * 2 ^ scaleUp (b + 52) a b,
    b * 2 ^ scaleDown (a * 2 ^ scaleUp (b + 52) a b) (a * 2 ^ scaleUp (b + 52) a b) b,
    roundHalfEven (a * 2 ^ scaleUp (b + 52) a b)
      (b * 2 ^ scaleDown (a * 2 ^ scaleUp (b + 52) a b) (a * 2 ^ scaleUp (b + 52) a b) b),
    hB, hdown, roundHalfEven_le _ _ hB, roundHalfEven_ge _ _ hB, ?_, ?_⟩
  · simp [roundToDouble, ha]
  · simp only [roundToDouble, ha, if_false]
    ring

theorem roundToDouble_le (a b : Nat) (hb : 0 < b) :
    (roundToDouble a b).1 * b * 2 ^ 53 ≤ a * (roundToDouble a b).2 * (2 ^ 53 + 1) := by
  by_cases ha : a = 0
  · simp [roundToDouble, ha]
  · obtain ⟨A, B, m, _, h52, hle, _, hA, hm⟩ := roundToDouble_scaled a b ha hb
    rw [hm, ← hA]
    have : (2:ℕ) ^ 53 = 2 * 2 ^ 52 := by norm_num
    rw [this]
    nlinarith

theorem roundToDouble_ge (a b : Nat) (hb : 0 < b) :
    a * (roundToDouble a b).2 * (2 ^ 53 - 1) ≤ (roundToDouble a b).1 * b * 2 ^ 53 := by
  by_cases ha : a = 0
  · simp [roundToDouble, ha]
  · obtain ⟨A, B, m, _, h52, _, hge, hA, hm⟩ := roundToDouble_scaled a b ha hb
    rw [hm, ← hA]
    have h1 : (2:ℕ) ^ 53 = 2 * 2 ^ 52 := by norm_num
    have h2 : (2:ℕ) ^ 53 - 1 = 2 * 2 ^ 52 - 1 := by norm_num
    rw [h2, h1]
    have h3 : A * (2 * 2 ^ 52 - 1) = A * (2 * 2 ^ 52) - A := by
      rw [Nat.mul_sub_one]
    rw [h3]
    have : A * (2 * 2 ^ 52) ≤ m * B * (2 * 2 ^ 52) + A := by nlinarith
    omega

theorem scaleUp_lt (f : Nat) : ∀ a b : Nat, scaleUp f a b = 0 ∨ a * 2 ^ scaleUp f a b < b * 2 ^ 53 := by
  induction f with
  | zero => intro a b; left; rfl
  | succ f ih =>
    intro a b
    unfold scaleUp
    split_ifs with hlt
    · right
      have e2 : a * 2 ^ (scaleUp f (2 * a) b + 1) = (2 * a) * 2 ^ scaleUp f (2 * a) b := by ring
      rw [e2]
      rcases ih (2 * a) b with h0 | h1
      · rw [h0]
        have e : b * 2 ^ 53 = 2 * (b * 2 ^ 52) := by ring
        rw [e]
        simp only [pow_zero, mul_one]
        omega
      · exact h1
    · left; rfl

theorem scaleDown_lt (f : Nat) : ∀ a b : Nat, a < b * 2 ^ f * 2 ^ 53 →
    a < b * 2 ^ scaleDown f a b * 2 ^ 53 := by
  induction f with
  | zero => intro a b h; simpa [scaleDown] using h
  | succ f ih =>
    intro a b h
    unfold scaleDown
    split_ifs with hle
    · have e1 : b * 2 ^ (f + 1) * 2 ^ 53 = (2 * b) * 2 ^ f * 2 ^ 53 := by ring
      rw [e1] at h
      have := ih a (2 * b) h
      have e2 : b * 2 ^ (scaleDown f a (2 * b) + 1) * 2 ^ 53 =
          (2 * b) * 2 ^ scaleDown f a (2 * b) * 2 ^ 53 := by ring
      rw [e2]
      exact this
    · simp only [pow_zero, mul_one]
      omega

theorem roundToDouble_mantissa (a b : Nat) (ha : a ≠ 0) (hb : 0 < b) :
    ∃ m k j : Nat, roundToDouble a b = (m * 2 ^ j, 2 ^ k) ∧ 2 ^ 52 ≤ m ∧ m ≤ 2 ^ 53 ∧
      2 * (m * (b * 2 ^ j)) ≤ 2 * (a * 2 ^ k) + b * 2 ^ j ∧
      2 * (a * 2 ^ k) ≤ 2 * (m * (b * 2 ^ j)) + b * 2 ^ j := by
  have hup : b * 2 ^ 52 ≤ a * 2 ^ scaleUp (b + 52) a b := by
    apply scaleUp_spec
    have h1 : b < 2 ^ b := Nat.lt_two_pow b
    have h2 : 1 ≤ a := Nat.one_le_iff_ne_zero.mpr ha
    rw [pow_add]
    nlinarith [Nat.mul_le_mul h2 (Nat.mul_le_mul_right (2 ^ 52) h1.le)]
  generalize hk : scaleUp (b + 52) a b = k at hup
  have hdown := scaleDown_spec (a * 2 ^ k) (a * 2 ^ k) b hup
  have hfuel : a * 2 ^ k < b * 2 ^ (a * 2 ^ k) * 2 ^ 53 := by
    have h1 : a * 2 ^ k < 2 ^ (a * 2 ^ k) := Nat.lt_two_pow _
    have h2 : 2 ^ (a * 2 ^ k) ≤ b * 2 ^ (a * 2 ^ k) * 2 ^ 53 := by
      have : 1 ≤ b * 2 ^ 53 := Nat.mul_pos hb (by positivity)
      calc 2 ^ (a * 2 ^ k) = 1 * 2 ^ (a * 2 ^ k) := by ring
        _ ≤ (b * 2 ^ 53) * 2 ^ (a * 2 ^ k) := Nat.mul_le_mul_right _ this
        _ = b * 2 ^ (a * 2 ^ k) * 2 ^ 53 := by ring
    omega
  have hlt := scaleDown_lt (a * 2 ^ k) (a * 2 ^ k) b hfuel
  generalize hj : scaleDown (a * 2 ^ k) (a * 2 ^ k) b = j at hdown hlt
  have hB : 0 < b * 2 ^ j := Nat.mul_pos hb (by positivity)
  have hle := roundHalfEven_le (a * 2 ^ k) (b * 2 ^ j) hB
  have hge := roundHalfEven_ge (a * 2 ^ k) (b * 2 ^ j) hB
  refine ⟨roundHalfEven (a * 2 ^ k) (b * 2 ^ j), k, j, ?_, ?_, ?_, hle, hge⟩
  · simp [roundToDouble, ha, hk, hj]
  · generalize roundHalfEven (a * 2 ^ k) (b * 2 ^ j) = m at hle hge
    generalize a * 2 ^ k = A at *
    generalize b * 2 ^ j = B at *
    by_contra hcon
    have hm : m + 1 ≤ 2 ^ 52 := by omega
    have := Nat.mul_le_mul_right B hm
    nlinarith
  · generalize roundHalfEven (a * 2 ^ k) (b * 2 ^ j) = m at hle hge
    generalize a * 2 ^ k = A at *
    generalize b * 2 ^ j = B at *
    by_contra hcon
    have hm : 2 ^ 53 + 1 ≤ m := by omega
    have := Nat.mul_le_mul_right B hm
    nlinarith

theorem twoRoundings_le (c N i : Nat) (hN : 0 < N) :
    (roundToDouble ((roundToDouble c N).1 * i) (roundToDouble c N).2).1 * N * (2 ^ 53 * 2 ^ 53) ≤
      c * i * (roundToDouble ((roundToDouble c N).1 * i) (roundToDouble c N).2).2 *
        ((2 ^ 53 + 1) * (2 ^ 53 + 1)) := by
  have hd1 := roundToDouble_den_pos c N
  have e1 := roundToDouble_le c N hN
  have e2 := roundToDouble_le ((roundToDouble c N).1 * i) (roundToDouble c N).2 hd1
  generalize (roundToDouble ((roundToDouble c N).1 * i) (roundToDouble c N).2).1 = n2 at *
  generalize (roundToDouble ((roundToDouble c N).1 * i) (roundToDouble c N).2).2 = d2 at *
  generalize (roundToDouble c N).1 = n1 at *
  generalize (roundToDouble c N).2 = d1 at *
  generalize (2 : ℕ) ^ 53 = F at *
  have h1 := Nat.mul_le_mul_right (N * F) e2
  have h2 := Nat.mul_le_mul_right (i * d2 * (F + 1)) e1
  have h3 : d1 * (n2 * N * (F * F)) ≤ d1 * (c * i * d2 * ((F + 1) * (F + 1))) := by
    calc d1 * (n2 * N * (F * F)) = n2 * d1 * F * (N * F) := by ring
      _ ≤ n1 * i * d2 * (F + 1) * (N * F) := h1
      _ = n1 * N * F * (i * d2 * (F + 1)) := by ring
      _ ≤ c * d1 * (F + 1) * (i * d2 * (F + 1)) := h2
      _ = d1 * (c * i * d2 * ((F + 1) * (F + 1))) := by ring
  exact Nat.le_of_mul_le_mul_left h3 hd1

theorem twoRoundings_ge (c N i : Nat) (hN : 0 < N) :
    c * i * (roundToDouble ((roundToDouble c N).1 * i) (roundToDouble c N).2).2 *
        ((2 ^ 53 - 1) * (2 ^ 53 - 1)) ≤
      (roundToDouble ((roundToDouble c N).1 * i) (roundToDouble c N).2).1 * N * (2 ^ 53 * 2 ^ 53) := by
  have hd1 := roundToDouble_den_pos c N
  have e1 := roundToDouble_ge c N hN
  have e2 := roundToDouble_ge ((roundToDouble c N).1 * i) (roundToDouble c N).2 hd1
  generalize (roundToDouble ((roundToDouble c N).1 * i) (roundToDouble c N).2).1 = n2 at *
  generalize (roundToDouble ((roundToDouble c N).1 * i) (roundToDouble c N).2).2 = d2 at *
  generalize (roundToDouble c N).1 = n1 at *
  generalize (roundToDouble c N).2 = d1 at *
  generalize (2 : ℕ) ^ 53 = F at *
  generalize F - 1 = G at *
  have h1 := Nat.mul_le_mul_right (N * F) e2
  have h2 := Nat.mul_le_mul_right (i * d2 * G) e1
  have h3 : d1 * (c * i * d2 * (G * G)) ≤ d1 * (n2 * N * (F * F)) := by
    calc d1 * (c * i * d2 * (G * G)) = c * d1 * G * (i * d2 * G) := by ring
      _ ≤ n1 * N * F * (i * d2 * G) := h2
      _ = n1 * i * d2 * G * (N * F) := by ring
      _ ≤ n2 * d1 * F * (N * F) := h1
      _ = d1 * (n2 * N * (F * F)) := by ring
  exact Nat.le_of_mul_le_mul_left h3 hd1

theorem sliceIndex_lt_count (c N i : Nat) (hc : 0 < c) (hN : N < 2 ^ 31) (hi : i + 2 ≤ N) :
    (roundToDouble ((roundToDouble c N).1 * i) (roundToDouble c N).2).1 /
      (roundToDouble ((roundToDouble c N).1 * i) (roundToDouble c N).2).2 < c := by
  have hU := twoRoundings_le c N i (by omega)
  have hd2 := roundToDouble_den_pos ((roundToDouble c N).1 * i) (roundToDouble c N).2
  generalize (roundToDouble ((roundToDouble c N).1 * i) (roundToDouble c N).2).1 = n2 at *
  generalize (roundToDouble ((roundToDouble c N).1 * i) (roundToDouble c N).2).2 = d2 at *
  rw [Nat.div_lt_iff_lt_mul hd2]
  by_contra hcon
  have hle : c * d2 ≤ n2 := Nat.le_of_not_lt hcon
  have hcd : 0 < c * d2 := Nat.mul_pos hc hd2
  have h1 : c * d2 * (N * (2 ^ 53 * 2 ^ 53)) ≤ c * d2 * (i * ((2 ^ 53 + 1) * (2 ^ 53 + 1))) := by
    calc c * d2 * (N * (2 ^ 53 * 2 ^ 53)) ≤ n2 * (N * (2 ^ 53 * 2 ^ 53)) :=
          Nat.mul_le_mul_right _ hle
      _ = n2 * N * (2 ^ 53 * 2 ^ 53) := by ring
      _ ≤ c * i * d2 * ((2 ^ 53 + 1) * (2 ^ 53 + 1)) := hU
      _ = c * d2 * (i * ((2 ^ 53 + 1) * (2 ^ 53 + 1))) := by ring
  have h2 := Nat.le_of_mul_le_mul_left h1 hcd
  norm_num at h2 hN
  omega

theorem sliceIndex_le_exact (c N i : Nat) (hN : 0 < N) (hA : c * i ≤ 2 ^ 51) :
    (roundToDouble ((roundToDouble c N).1 * i) (roundToDouble c N).2).1 /
      (roundToDouble ((roundToDouble c N).1 * i) (roundToDouble c N).2).2 ≤ c * i / N := by
  have hU := twoRoundings_le c N i hN
  have hd2 := roundToDouble_den_pos ((roundToDouble c N).1 * i) (roundToDouble c N).2
  generalize (roundToDouble ((roundToDouble c N).1 * i) (roundToDouble c N).2).1 = n2 at *
  generalize (roundToDouble ((roundToDouble c N).1 * i) (roundToDouble c N).2).2 = d2 at *
  generalize hAe : c * i = A at *
  rw [← Nat.lt_succ_iff, Nat.div_lt_iff_lt_mul hd2]
  by_contra hcon
  have hle : (A / N).succ * d2 ≤ n2 := Nat.le_of_not_lt hcon
  have hA1 : A + 1 ≤ N * (A / N + 1) := Nat.lt_mul_div_succ A hN
  have h1 : (A + 1) * d2 ≤ n2 * N := by
    calc (A + 1) * d2 ≤ N * (A / N + 1) * d2 := Nat.mul_le_mul_right _ hA1
      _ = (A / N).succ * d2 * N := by rw [Nat.succ_eq_add_one]; ring
      _ ≤ n2 * N := Nat.mul_le_mul_right _ hle
  have h2 : (A + 1) * d2 * (2 ^ 53 * 2 ^ 53) ≤ A * d2 * ((2 ^ 53 + 1) * (2 ^ 53 + 1)) :=
    le_trans (Nat.mul_le_mul_right _ h1) hU
  have h3 : A * d2 ≤ 2 ^ 51 * d2 := Nat.mul_le_mul_right _ hA
  have e : (A + 1) * d2 = A * d2 + d2 := by ring
  rw [e] at h2
  generalize A * d2 = X at *
  norm_num at h2 h3
  omega

theorem sliceIndex_ge_exact (c N i : Nat) (hN : 0 < N) (hA : c * i ≤ 2 ^ 51) :
    c * i / N ≤ (roundToDouble ((roundToDouble c N).1 * i) (roundToDouble c N).2).1 /
      (roundToDouble ((roundToDouble c N).1 * i) (roundToDouble c N).2).2 + 1 ∧
    (¬ N ∣ c * i → c * i / N ≤ (roundToDouble ((roundToDouble c N).1 * i) (roundToDouble c N).2).1 /
      (roundToDouble ((roundToDouble c N).1 * i) (roundToDouble c N).2).2) := by
  have hL := twoRoundings_ge c N i hN
  have hd2 := roundToDouble_den_pos ((roundToDouble c N).1 * i) (roundToDouble c N).2
  generalize (roundToDouble ((roundToDouble c N).1 * i) (roundToDouble c N).2).1 = n2 at *
  generalize (roundToDouble ((roundToDouble c N).1 * i) (roundToDouble c N).2).2 = d2 at *
  generalize hAe : c * i = A at *
  have hEN : N * (A / N) ≤ A := Nat.mul_div_le A N
  have h3 : A * d2 ≤ 2 ^ 51 * d2 := Nat.mul_le_mul_right _ hA
  have hlt : n2 < (n2 / d2 + 1) * d2 := by
    have := Nat.lt_mul_div_succ n2 hd2
    calc n2 < d2 * (n2 / d2 + 1) := this
      _ = (n2 / d2 + 1) * d2 := by ring
  constructor
  · by_contra hcon
    have hE : n2 / d2 + 2 ≤ A / N := by omega
    have h1 : (n2 / d2 + 1) * d2 + d2 ≤ (A / N) * d2 := by
      calc (n2 / d2 + 1) * d2 + d2 = (n2 / d2 + 2) * d2 := by ring
        _ ≤ (A / N) * d2 := Nat.mul_le_mul_right _ hE
    have h2 : (A / N) * d2 * N ≤ A * d2 := by
      calc (A / N) * d2 * N = N * (A / N) * d2 := by ring
        _ ≤ A * d2 := Nat.mul_le_mul_right _ hEN
    have h4 : (n2 + 1 + d2) * N ≤ A * d2 :=
      le_trans (Nat.mul_le_mul_right _ (by omega)) h2
    have h5 : 1 * d2 ≤ N * d2 := Nat.mul_le_mul_right _ hN
    have e : (n2 + 1 + d2) * N = n2 * N + N + N * d2 := by ring
    rw [e] at h4
    generalize A * d2 = X at *
    generalize n2 * N = Y at *
    generalize N * d2 = Z at *
    norm_num at hL h3
    omega
  · intro hdvd
    by_contra hcon
    have hE : n2 / d2 + 1 ≤ A / N := by omega
    have hmod : 0 < A % N := Nat.pos_of_ne_zero (fun h => hdvd (Nat.dvd_of_mod_eq_zero h))
    have hA1 : N * (A / N) + 1 ≤ A := by
      have := Nat.div_add_mod A N
      omega
    have h1 : n2 + 1 ≤ (A / N) * d2 :=
      le_trans hlt (Nat.mul_le_mul_right _ hE)
    have h2 : (A / N) * d2 * N + d2 ≤ A * d2 := by
      calc (A / N) * d2 * N + d2 = (N * (A / N) + 1) * d2 := by ring
        _ ≤ A * d2 := Nat.mul_le_mul_right _ hA1
    have h4 : (n2 + 1) * N ≤ (A / N) * d2 * N := Nat.mul_le_mul_right _ h1
    have e : (n2 + 1) * N = n2 * N + N := by ring
    rw [e] at h4
    generalize A * d2 = X at *
    generalize n2 * N = Y at *
    generalize (A / N) * d2 * N = W at *
    norm_num at hL h3
    omega

end Rounding

/-! ## The cache of static slices -/

section StaticSliceCache

variable {α : Type} [CommRing α]

theorem staticSliceIndex_natCast (c n i : Nat) :
    staticSliceIndex (c : Int) (n : Int) (i : Int) =
      (((roundToDouble ((roundToDouble c n).1 * i) (roundToDouble c n).2).1 /
        (roundToDouble ((roundToDouble c n).1 * i) (roundToDouble c n).2).2 : Nat) : Int) := by
  simp [staticSliceIndex]

theorem staticSliceIndex_range (count N : Int) (i : Nat) (hc : 1 < count) (hN : N < 2 ^ 31)
    (hi : (i : Int) + 2 ≤ N) :
    0 ≤ staticSliceIndex count N i ∧ staticSliceIndex count N i < count := by
  obtain ⟨c, rfl⟩ := Int.eq_ofNat_of_zero_le (by omega : 0 ≤ count)
  obtain ⟨n, rfl⟩ := Int.eq_ofNat_of_zero_le (by omega : 0 ≤ N)
  rw [staticSliceIndex_natCast]
  have hn : n < 2 ^ 31 := by exact_mod_cast hN
  have hlt := sliceIndex_lt_count c n i (by omega) hn (by omega)
  exact ⟨Int.natCast_nonneg _, by exact_mod_cast hlt⟩

theorem staticSliceAt_isSome (s : USAcquisitionObject α) (index : Int) (h0 : 0 ≤ index)
    (h1 : index < s.GetNumberOfSlices) : ∃ pss, s.staticSliceAt index = some pss := by
  obtain ⟨f, hf⟩ := GetFrame_isSome s.m_videoBuffer index h0 h1
  refine ⟨{ slice := f.image, sliceUncalibratedMatrix := f.matrix }, ?_⟩
  simp [USAcquisitionObject.staticSliceAt, TrackedVideoBuffer.GetImage,
    TrackedVideoBuffer.GetMatrix, hf]

theorem ComputeOneStaticSliceData_of_slice (s : USAcquisitionObject α)
    (acc : List (PerStaticSlice α)) (index : Int) (pss : PerStaticSlice α)
    (hp : s.staticSliceAt index = some pss) :
    USAcquisitionObject.ComputeOneStaticSliceData { s with m_staticSlicesData := acc } index =
      some { s with m_staticSlicesData := acc ++ [pss] } := by
  have hp' : USAcquisitionObject.staticSliceAt
      { s with m_staticSlicesData := acc } index = some pss := hp
  unfold USAcquisitionObject.ComputeOneStaticSliceData
  rw [hp']
  rfl

theorem foldlM_ComputeOneStaticSliceData (s : USAcquisitionObject α) (f : Nat → Int)
    (l : List Nat) (h : ∀ i ∈ l, ∃ pss, s.staticSliceAt (f i) = some pss) :
    ∀ acc : List (PerStaticSlice α), ∃ slices,
      l.foldlM (fun (st : USAcquisitionObject α) (i : Nat) => st.ComputeOneStaticSliceData (f i))
          { s with m_staticSlicesData := acc } =
        some { s with m_staticSlicesData := acc ++ slices } ∧
      slices.map some = l.map (fun i => s.staticSliceAt (f i)) := by
  induction l with
  | nil =>
    intro acc
    exact ⟨[], by simp, by simp⟩
  | cons i l ih =>
    intro acc
    obtain ⟨pss, hp⟩ := h i (List.mem_cons_self i l)
    obtain ⟨slices, h1, h2⟩ := ih (fun j hj => h j (List.mem_cons_of_mem i hj)) (acc ++ [pss])
    refine ⟨pss :: slices, ?_, ?_⟩
    · rw [List.foldlM_cons, ComputeOneStaticSliceData_of_slice s acc (f i) pss hp]
      have e : acc ++ pss :: slices = acc ++ [pss] ++ slices := by simp
      rw [e]
      exact h1
    · simp [hp, h2]

theorem ComputeAllStaticSlicesData_spec (s : USAcquisitionObject α)
    (hcount : 1 < s.GetNumberOfSlices) (hN31 : s.m_numberOfStaticSlices < 2 ^ 31) :
    ∃ slices last,
      s.ComputeAllStaticSlicesData =
        some { s with m_staticSlicesData := slices ++ [last]
                      m_staticSlicesDataNeedUpdate := false } ∧
      s.staticSliceAt (s.GetNumberOfSlices - 1) = some last ∧
      slices.map some = (List.range (s.m_numberOfStaticSlices - 1).toNat).map
        (fun (i : Nat) =>
          s.staticSliceAt
            (staticSliceIndex s.GetNumberOfSlices s.m_numberOfStaticSlices (i : Int))) := by
  have hloop : ∀ i ∈ List.range (s.m_numberOfStaticSlices - 1).toNat, ∃ pss,
      s.staticSliceAt
        (staticSliceIndex s.GetNumberOfSlices s.m_numberOfStaticSlices (i : Nat)) = some pss := by
    intro i hi
    rw [List.mem_range] at hi
    have hr := staticSliceIndex_range s.GetNumberOfSlices s.m_numberOfStaticSlices i hcount hN31
      (by omega)
    exact staticSliceAt_isSome s _ hr.1 hr.2
  obtain ⟨slices, h1, h2⟩ := foldlM_ComputeOneStaticSliceData s
    (fun i => staticSliceIndex s.GetNumberOfSlices s.m_numberOfStaticSlices (i : Nat)) _ hloop []
  obtain ⟨last, hlast⟩ := staticSliceAt_isSome s (s.GetNumberOfSlices - 1) (by omega) (by omega)
  refine ⟨slices, last, ?_, hlast, h2⟩
  have hc' : (USAcquisitionObject.ClearStaticSlicesData s).GetNumberOfSlices > 1 := hcount
  unfold USAcquisitionObject.ComputeAllStaticSlicesData
  simp only [hc', if_true]
  have h1' : (List.range ((USAcquisitionObject.ClearStaticSlicesData s).m_numberOfStaticSlices
        - 1).toNat).foldlM
      (fun (st : USAcquisitionObject α) (i : Nat) => st.ComputeOneStaticSliceData
        (staticSliceIndex (USAcquisitionObject.ClearStaticSlicesData s).GetNumberOfSlices
          (USAcquisitionObject.ClearStaticSlicesData s).m_numberOfStaticSlices (i : Nat)))
      (USAcquisitionObject.ClearStaticSlicesData s) =
      some { s with m_staticSlicesData := [] ++ slices } := h1
  have hone : USAcquisitionObject.ComputeOneStaticSliceData
      { s with m_staticSlicesData := [] ++ slices }
      ((USAcquisitionObject.ClearStaticSlicesData s).GetNumberOfSlices - 1) =
      some { s with m_staticSlicesData := ([] ++ slices) ++ [last] } :=
    ComputeOneStaticSliceData_of_slice s ([] ++ slices) _ last hlast
  rw [h1', Option.some_bind, hone]
  simp [USAcquisitionObject.SetStaticSlicesLutIndex]

theorem staticSliceIndex_exact_bounds (count N : Int) (i : Nat) (hc : 1 < count) (hN : 2 ≤ N)
    (hsize : count * N ≤ 2 ^ 51) (hi : (i : Int) + 2 ≤ N) :
    staticSliceIndex count N i ≤ count * i / N ∧
    count * i / N ≤ staticSliceIndex count N i + 1 ∧
    (¬ N ∣ count * i → staticSliceIndex count N i = count * i / N) := by
  obtain ⟨c, rfl⟩ := Int.eq_ofNat_of_zero_le (by omega : 0 ≤ count)
  obtain ⟨n, rfl⟩ := Int.eq_ofNat_of_zero_le (by omega : 0 ≤ N)
  rw [staticSliceIndex_natCast]
  have hn : 0 < n := by omega
  have hin : i ≤ n := by omega
  have hA : c * i ≤ 2 ^ 51 := by
    have h1 : c * i ≤ c * n := Nat.mul_le_mul_left c hin
    have h2 : c * n ≤ 2 ^ 51 := by exact_mod_cast hsize
    exact le_trans h1 h2
  have hle := sliceIndex_le_exact c n i hn hA
  have hge := sliceIndex_ge_exact c n i hn hA
  have hdiv : ((c : Int) * (i : Int)) / (n : Int) = ((c * i / n : Nat) : Int) := by
    push_cast
    rfl
  have hdvd : ((n : Int) ∣ (c : Int) * (i : Int)) ↔ n ∣ c * i := by
    rw [← Nat.cast_mul, Int.natCast_dvd_natCast]
  rw [hdiv, hdvd]
  refine ⟨by exact_mod_cast hle, by exact_mod_cast hge.1, ?_⟩
  intro hnd
  have := hge.2 hnd
  exact_mod_cast le_antisymm hle this

/-- C6. After one accepted `AddFrame` with a 2x2 image on a new object, `Record()`
with a ready probe showing a 3x3 image succeeds, sets `m_defaultImageSize` to
(3, 3) while the store is not empty and leaves a 2x2 and a 3x3 frame side by
side; a recording tick with a 3x3 image after `Record()` on a 2x2 image stores
frames of both sizes too. -/
theorem C6_record_and_ticks_do_not_keep_frame_size :
    (((sampleObject.AddFrame (sampleImage 2 2 []) 1 0).1.Record (some (sampleProbe 3 3 1))).map
        (fun s => (s.m_defaultImageSize,
          s.m_videoBuffer.m_frames.map (fun f => (f.image.dimensions.1, f.image.dimensions.2.1))))
      = some ((3, 3), [(2, 2), (3, 3)])) ∧
    (((sampleObject.Record (some (sampleProbe 2 2 0))).bind
        (fun s => s.Updated (some (sampleProbe 3 3 1)))).map
        (fun s => (s.m_defaultImageSize,
          s.m_videoBuffer.m_frames.map (fun f => (f.image.dimensions.1, f.image.dimensions.2.1))))
      = some ((2, 2), [(2, 2), (3, 3)])) := by
  constructor <;> decide

set_option maxRecDepth 8192 in
/-- With 30 frames and 22 static slices the code does not sample
`floor(30 * i / 22)`: `double(30) / 22` is `0x1.5d1745d1745d1p+0`, its product
with 11 rounds to `0x1.dffffffffffffp+3 = 14.999999999999998`, and the index
sampled for `i = 11` is 14 where `floor(30 * 11 / 22)` is 15. -/
theorem C7_counterexample_count30_N22 :
    staticSliceIndices 30 22 ≠ specStaticSliceIndices 30 22 ∧
    roundToDouble 30 22 = (0x15d1745d1745d1, 2 ^ 52) ∧
    roundToDouble (0x15d1745d1745d1 * 11) (2 ^ 52) = (0x1dffffffffffff, 2 ^ 49) ∧
    (staticSliceIndices 30 22).get? 11 = some 14 ∧
    (specStaticSliceIndices 30 22).get? 11 = some 15 := by
  decide

/-- C7 (amended). With `N >= 2` requested slices: when the count is at most 1,
nothing is sampled and `ComputeAllStaticSlicesData` only empties the cache,
leaving the stale flag as it was; when the count exceeds 1 the sampled indices
are, in order, `(int)floor(interval * i)` in `double` arithmetic for
`i = 0 .. N-2` followed by `count-1`, and the cache holds the slices of exactly
these frames; for `count * N <= 2^51` the index for `i` is `floor(count*i/N)` or
one less, and equals `floor(count*i/N)` whenever `N` does not divide `count*i`;
count 10 with N 4 gives 0, 2, 5, 9 and count 5 with N 5 gives 0, 1, 2, 3, 4. -/
theorem C7_static_slice_sampling (s : USAcquisitionObject α)
    (hN : 2 ≤ s.m_numberOfStaticSlices) :
    (s.GetNumberOfSlices ≤ 1 →
      staticSliceIndices s.GetNumberOfSlices s.m_numberOfStaticSlices = [] ∧
      s.ComputeAllStaticSlicesData = some { s with m_staticSlicesData := [] }) ∧
    (1 < s.GetNumberOfSlices →
      staticSliceIndices s.GetNumberOfSlices s.m_numberOfStaticSlices =
        (List.range (s.m_numberOfStaticSlices - 1).toNat).map
          (fun (i : Nat) =>
            staticSliceIndex s.GetNumberOfSlices s.m_numberOfStaticSlices (i : Int))
        ++ [s.GetNumberOfSlices - 1]) ∧
    (1 < s.GetNumberOfSlices → s.m_numberOfStaticSlices < 2 ^ 31 →
      ∃ s', s.ComputeAllStaticSlicesData = some s' ∧
        s'.m_staticSlicesData.map some =
          (staticSliceIndices s.GetNumberOfSlices s.m_numberOfStaticSlices).map s.staticSliceAt) ∧
    (1 < s.GetNumberOfSlices → s.GetNumberOfSlices * s.m_numberOfStaticSlices ≤ 2 ^ 51 →
      ∀ i : Nat, (i : Int) + 2 ≤ s.m_numberOfStaticSlices →
        staticSliceIndex s.GetNumberOfSlices s.m_numberOfStaticSlices i ≤
          s.GetNumberOfSlices * i / s.m_numberOfStaticSlices ∧
        s.GetNumberOfSlices * i / s.m_numberOfStaticSlices ≤
          staticSliceIndex s.GetNumberOfSlices s.m_numberOfStaticSlices i + 1 ∧
        (¬ s.m_numberOfStaticSlices ∣ s.GetNumberOfSlices * i →
          staticSliceIndex s.GetNumberOfSlices s.m_numberOfStaticSlices i =
            s.GetNumberOfSlices * i / s.m_numberOfStaticSlices)) ∧
    staticSliceIndices 10 4 = [0, 2, 5, 9] ∧
    staticSliceIndices 5 5 = [0, 1, 2, 3, 4] := by
  refine ⟨?_, ?_, ?_, ?_, by decide, by decide⟩
  · intro hc
    have hc' : ¬ s.GetNumberOfSlices > 1 := by omega
    have hc'' : ¬ (USAcquisitionObject.ClearStaticSlicesData s).GetNumberOfSlices > 1 := hc'
    refine ⟨by simp [staticSliceIndices, hc'], ?_⟩
    unfold USAcquisitionObject.ComputeAllStaticSlicesData
    simp only [hc'', if_false]
    rfl
  · intro hc
    simp [staticSliceIndices, hc]
  · intro hc hN31
    obtain ⟨slices, last, h1, h2, h3⟩ := ComputeAllStaticSlicesData_spec s hc hN31
    refine ⟨_, h1, ?_⟩
    simp [staticSliceIndices, hc, h2, h3]
  · intro hc hsize i hi
    exact staticSliceIndex_exact_bounds _ _ i hc hN hsize hi

theorem C7_witness :
    2 ≤ (sampleWithFrames 30 22).m_numberOfStaticSlices ∧
    staticSliceIndex 30 22 11 ≤ 30 * 11 / 22 ∧
    (30 * 11 / 22 : Int) ≤ staticSliceIndex 30 22 11 + 1 :=
  ⟨by decide,
    ((C7_static_slice_sampling (sampleWithFrames 30 22) (by decide)).2.2.2.1
      (by decide) (by decide) 11 (by decide)).1,
    ((C7_static_slice_sampling (sampleWithFrames 30 22) (by decide)).2.2.2.1
      (by decide) (by decide) 11 (by decide)).2.1⟩

/-- Two frames, a recomputation of the static slices, one more `AddFrame`: the
set is still marked as not needing an update, the count is 3, and the last cached
slice shows the second frame, not the last one. -/
theorem C8_counterexample_append_after_recompute :
    (sampleTwoFrames.SetupAllStaticSlices.map
        (fun sc =>
          ((sc.AddFrame (sampleImage 2 2 [3]) 1 12).1.m_staticSlicesDataNeedUpdate,
            (sc.AddFrame (sampleImage 2 2 [3]) 1 12).1.GetNumberOfSlices,
            (sc.AddFrame (sampleImage 2 2 [3]) 1 12).1.m_staticSlicesData.getLast?.map
              PerStaticSlice.slice,
            (sc.AddFrame (sampleImage 2 2 [3]) 1 12).1.m_videoBuffer.GetImage (3 - 1)))
      = some (false, 3, some (sampleImage 2 2 [2]), some (sampleImage 2 2 [3]))) ∧
    sampleImage 2 2 [2] ≠ sampleImage 2 2 [3] := by
  decide

/-- C8 (amended). Right after `ComputeAllStaticSlicesData` on a state with more
than one frame and `2 <= N < 2^31`, the static slice set is not stale, holds
exactly `N = m_numberOfStaticSlices` slices and its last slice is the one of the
last frame, index `Count()-1`.  `AddFrame`, `Record`, a clock tick, `Stop` and
`Clear` leave the stale flag and the cached slices as they are. -/
theorem C8_static_slices_after_recompute (s : USAcquisitionObject α)
    (hcount : 1 < s.GetNumberOfSlices) (hN : 2 ≤ s.m_numberOfStaticSlices)
    (hN31 : s.m_numberOfStaticSlices < 2 ^ 31) :
    (∃ s' last, s.ComputeAllStaticSlicesData = some s' ∧
      s'.m_staticSlicesDataNeedUpdate = false ∧
      (s'.m_staticSlicesData.length : Int) = s'.m_numberOfStaticSlices ∧
      s'.m_staticSlicesData.getLast? = some last ∧
      s'.staticSliceAt (s'.GetNumberOfSlices - 1) = some last ∧
      s'.m_videoBuffer = s.m_videoBuffer ∧
      s'.m_numberOfStaticSlices = s.m_numberOfStaticSlices) ∧
    (∀ image mat timestamp,
      (s.AddFrame image mat timestamp).1.m_staticSlicesDataNeedUpdate =
          s.m_staticSlicesDataNeedUpdate ∧
        (s.AddFrame image mat timestamp).1.m_staticSlicesData = s.m_staticSlicesData) ∧
    (∀ probe s', s.Record probe = some s' →
      s'.m_staticSlicesDataNeedUpdate = s.m_staticSlicesDataNeedUpdate ∧
        s'.m_staticSlicesData = s.m_staticSlicesData) ∧
    (∀ probe s', s.Updated probe = some s' →
      s'.m_staticSlicesDataNeedUpdate = s.m_staticSlicesDataNeedUpdate ∧
        s'.m_staticSlicesData = s.m_staticSlicesData) ∧
    (s.Stop.m_staticSlicesDataNeedUpdate = s.m_staticSlicesDataNeedUpdate ∧
      s.Stop.m_staticSlicesData = s.m_staticSlicesData) ∧
    (s.Clear.m_staticSlicesDataNeedUpdate = s.m_staticSlicesDataNeedUpdate ∧
      s.Clear.m_staticSlicesData = s.m_staticSlicesData) := by
  refine ⟨?_, ?_, ?_, ?_, ?_, ?_⟩
  · obtain ⟨slices, last, h1, h2, h3⟩ := ComputeAllStaticSlicesData_spec s hcount hN31
    refine ⟨_, last, h1, rfl, ?_, ?_, h2, rfl, rfl⟩
    · have hlen : slices.length = (s.m_numberOfStaticSlices - 1).toNat := by
        have := congrArg List.length h3
        simpa using this
      simp only [List.length_append, List.length_singleton, hlen]
      push_cast
      omega
    · simp
  · intro image mat timestamp
    unfold USAcquisitionObject.AddFrame
    by_cases hr : s.m_isRecording = true
    · simp [hr]
    · by_cases hn : s.m_videoBuffer.GetNumberOfFrames = 0
      · simp [hr, hn, USAcquisitionObject.SetFrameAndMaskSize]
      · by_cases hd : image.dimensions.1 ≠ s.m_defaultImageSize.1 ∨
            image.dimensions.2.1 ≠ s.m_defaultImageSize.2
        · simp [hr, hn, hd]
        · simp [hr, hn, hd]
  · intro probe s' h
    unfold USAcquisitionObject.Record at h
    split_ifs at h
    cases probe with
    | none => simp at h
    | some p =>
      simp only [Option.some.injEq] at h
      subst h
      unfold USAcquisitionObject.SetEnableStaticSlices
      split_ifs <;> exact ⟨rfl, rfl⟩
  · intro probe s' h
    unfold USAcquisitionObject.Updated at h
    split_ifs at h
    · cases probe with
      | none => simp at h
      | some p =>
        simp only at h
        split_ifs at h <;>
        · simp only [Option.some.injEq] at h
          subst h
          exact ⟨rfl, rfl⟩
    · simp only [Option.some.injEq] at h
      subst h
      exact ⟨rfl, rfl⟩
  · unfold USAcquisitionObject.Stop
    split_ifs <;> exact ⟨rfl, rfl⟩
  · exact ⟨rfl, rfl⟩

theorem C8_witness :
    1 < sampleTwoFrames.GetNumberOfSlices ∧ 2 ≤ sampleTwoFrames.m_numberOfStaticSlices ∧
    sampleTwoFrames.m_numberOfStaticSlices < 2 ^ 31 ∧
    ∃ s' last, sampleTwoFrames.ComputeAllStaticSlicesData = some s' ∧
      s'.m_staticSlicesDataNeedUpdate = false ∧
      (s'.m_staticSlicesData.length : Int) = s'.m_numberOfStaticSlices ∧
      s'.m_staticSlicesData.getLast? = some last ∧
      s'.staticSliceAt (s'.GetNumberOfSlices - 1) = some last ∧
      s'.m_videoBuffer = sampleTwoFrames.m_videoBuffer ∧
      s'.m_numberOfStaticSlices = sampleTwoFrames.m_numberOfStaticSlices :=
  ⟨by decide, by decide, by decide,
    (C8_static_slices_after_recompute sampleTwoFrames (by decide) (by decide) (by decide)).1⟩

end StaticSliceCache

/-! ## Stop, Record and the flags of the static slices -/

section ControllerFlags

variable {α : Type}

theorem Ticks_idle (probes : List (Option (UsProbeObject α))) (s : USAcquisitionObject α)
    (hidle : s.m_isRecording = false) : s.Ticks probes = some s := by
  induction probes with
  | nil => rfl
  | cons p ps ih =>
    have h : s.Updated p = some s := by simp [USAcquisitionObject.Updated, hidle]
    simp only [USAcquisitionObject.Ticks, h, Option.some_bind]
    exact ih

theorem Stop_m_isRecording (s : USAcquisitionObject α) : s.Stop.m_isRecording = false := by
  unfold USAcquisitionObject.Stop
  by_cases h : s.m_isRecording = true
  · simp [h]
  · simp [h]

/-- C11. `Stop()` in the idle state returns the state it was given; in the
recording state it only clears `m_isRecording`, so the count, every stored frame,
the current index and the calibration are unchanged; and after `Stop()` any
sequence of clock ticks leaves the state as it is. -/
theorem C11_Stop_keeps_everything_but_recording (s : USAcquisitionObject α)
    (probes : List (Option (UsProbeObject α))) :
    (s.m_isRecording = false → s.Stop = s) ∧
    (s.m_isRecording = true → s.Stop = { s with m_isRecording := false }) ∧
    s.Stop.m_isRecording = false ∧
    s.Stop.GetNumberOfSlices = s.GetNumberOfSlices ∧
    s.Stop.m_videoBuffer.m_frames = s.m_videoBuffer.m_frames ∧
    s.Stop.GetCurrentSlice = s.GetCurrentSlice ∧
    s.Stop.m_calibrationTransform = s.m_calibrationTransform ∧
    s.Stop.Ticks probes = some s.Stop := by
  refine ⟨?_, ?_, Stop_m_isRecording s, ?_, ?_, ?_, ?_, Ticks_idle probes _ (Stop_m_isRecording s)⟩
  · intro h
    simp [USAcquisitionObject.Stop, h]
  · intro h
    simp [USAcquisitionObject.Stop, h]
  all_goals
    unfold USAcquisitionObject.Stop
    by_cases h : s.m_isRecording = true
    · simp [h, USAcquisitionObject.GetNumberOfSlices, USAcquisitionObject.GetCurrentSlice]
    · simp [h]

theorem Record_eq_RecordNoDebug (s : USAcquisitionObject α) (probe : Option (UsProbeObject α)) :
    s.Record probe = if s.m_isRecording then none else s.RecordNoDebug probe := by
  unfold USAcquisitionObject.Record USAcquisitionObject.RecordNoDebug
  split_ifs <;> rfl

theorem RecordNoDebug_ready (s : USAcquisitionObject α) (p : UsProbeObject α)
    (hok : p.isOk = true) :
    ∃ s', s.RecordNoDebug (some p) = some s' ∧
      s'.m_videoBuffer.m_frames = s.m_videoBuffer.m_frames ++ [p.toFrame] ∧
      s'.m_defaultImageSize = (p.videoOutput.dimensions.1, p.videoOutput.dimensions.2.1) ∧
      s'.m_mask.m_maskSize = (p.videoOutput.dimensions.1, p.videoOutput.dimensions.2.1) ∧
      s'.m_isRecording = true ∧ s'.m_staticSlicesEnabled = false := by
  unfold USAcquisitionObject.RecordNoDebug
  simp only [hok, if_true]
  refine ⟨_, rfl, ?_⟩
  by_cases he : s.m_staticSlicesEnabled = false
  · simp [USAcquisitionObject.SetEnableStaticSlices, USAcquisitionObject.SetFrameAndMaskSize, he,
      TrackedVideoBuffer.AddFrame, UsProbeObject.toFrame]
  · simp [USAcquisitionObject.SetEnableStaticSlices, USAcquisitionObject.SetFrameAndMaskSize, he,
      TrackedVideoBuffer.AddFrame, UsProbeObject.toFrame]

/-- C12. `Record()` on an object that is already recording.  With assertions
compiled in, the call stops at `Q_ASSERT( !m_isRecording )`, its first statement,
whatever the probe.  With `QT_NO_DEBUG` the assertion is no code and the body runs:
for a ready probe the call returns a state in which the frame of the probe is
appended after the stored frames (one frame more), the frame size and the mask
size are the dimensions of the image of the probe, static slices are disabled and
the object is still recording. -/
theorem C12_Record_while_recording_appends_without_assertions (s : USAcquisitionObject α)
    (p : UsProbeObject α) (hrec : s.m_isRecording = true) (hok : p.isOk = true) :
    (∀ probe, s.Record probe = none) ∧
    ∃ s', s.RecordNoDebug (some p) = some s' ∧
      s'.m_videoBuffer.m_frames = s.m_videoBuffer.m_frames ++ [p.toFrame] ∧
      s'.GetNumberOfSlices = s.GetNumberOfSlices + 1 ∧
      s'.m_defaultImageSize = (p.videoOutput.dimensions.1, p.videoOutput.dimensions.2.1) ∧
      s'.m_mask.m_maskSize = (p.videoOutput.dimensions.1, p.videoOutput.dimensions.2.1) ∧
      s'.m_isRecording = true ∧ s'.m_staticSlicesEnabled = false := by
  refine ⟨fun probe => by rw [Record_eq_RecordNoDebug, hrec]; rfl, ?_⟩
  obtain ⟨s', h, hf, hrest⟩ := RecordNoDebug_ready s p hok
  refine ⟨s', h, hf, ?_, hrest⟩
  simp [USAcquisitionObject.GetNumberOfSlices, TrackedVideoBuffer.GetNumberOfFrames, hf]

theorem C12_witness :
    sampleRecordingTwoFrames.m_isRecording = true ∧ (sampleProbe 3 3 0).isOk = true ∧
    sampleRecordingTwoFrames.GetNumberOfSlices = 2 ∧
    sampleRecordingTwoFrames.m_defaultImageSize = (2, 2) ∧
    sampleRecordingTwoFrames.Record (some (sampleProbe 3 3 0)) = none ∧
    ∃ s', sampleRecordingTwoFrames.RecordNoDebug (some (sampleProbe 3 3 0)) = some s' ∧
      s'.GetNumberOfSlices = 3 ∧ s'.m_defaultImageSize = (3, 3) ∧ s'.m_isRecording = true := by
  obtain ⟨h1, s', h, _, hn, hs, _, hr, _⟩ :=
    C12_Record_while_recording_appends_without_assertions sampleRecordingTwoFrames
      (sampleProbe 3 3 0) rfl rfl
  exact ⟨rfl, rfl, by decide, by decide, h1 _, s', h, by rw [hn]; decide, by rw [hs]; decide, hr⟩

theorem SetEnableStaticSlices_flag (s : USAcquisitionObject α) (enable : Bool) :
    s.SetEnableStaticSlices enable = { s with m_staticSlicesEnabled := enable } := by
  unfold USAcquisitionObject.SetEnableStaticSlices
  by_cases h : s.m_staticSlicesEnabled = enable
  · simp only [h, if_true]
    subst h
    rfl
  · simp [h]

/-- C13. From every idle state, with static slice display enabled or not,
`Record()` with the probe of the scene returns a state that is recording and has
`m_staticSlicesEnabled` false (without a probe the assertion on it fails). -/
theorem C13_Record_disables_static_slices (s : USAcquisitionObject α)
    (hidle : s.m_isRecording = false) :
    (∀ p : UsProbeObject α, ∃ s', s.Record (some p) = some s' ∧
      s'.m_isRecording = true ∧ s'.m_staticSlicesEnabled = false) ∧
    s.Record none = none := by
  constructor
  · intro p
    unfold USAcquisitionObject.Record
    simp only [hidle, Bool.false_eq_true, if_false]
    refine ⟨_, rfl, ?_, ?_⟩
    · rw [SetEnableStaticSlices_flag]
      by_cases hok : p.isOk = true
      · simp [hok, USAcquisitionObject.SetFrameAndMaskSize]
      · simp [hok]
    · rw [SetEnableStaticSlices_flag]
  · simp [USAcquisitionObject.Record, hidle]

theorem C13_witness :
    (USAcquisitionObject.SetEnableStaticSlices sampleObject true).m_isRecording = false ∧
    (USAcquisitionObject.SetEnableStaticSlices sampleObject true).m_staticSlicesEnabled = true ∧
    ∃ s', (USAcquisitionObject.SetEnableStaticSlices sampleObject true).Record
        (some (sampleProbe 2 2 0)) = some s' ∧
      s'.m_isRecording = true ∧ s'.m_staticSlicesEnabled = false :=
  ⟨by decide, by decide,
    (C13_Record_disables_static_slices (USAcquisitionObject.SetEnableStaticSlices sampleObject true)
      (by decide)).1 (sampleProbe 2 2 0)⟩

/-- A recording object accepts `SetEnableStaticSlices( true )`: after `Record()`
on a new object the call leaves a state that is recording and has static slices
enabled. -/
theorem C14_counterexample_enable_while_recording :
    (sampleRecording.SetEnableStaticSlices true).m_isRecording = true ∧
    (sampleRecording.SetEnableStaticSlices true).m_staticSlicesEnabled = true ∧
    ((sampleObject.Record (some (sampleProbe 2 2 0))).map
        (fun s => ((s.SetEnableStaticSlices true).m_isRecording,
          (s.SetEnableStaticSlices true).m_staticSlicesEnabled))
      = some (true, true)) := by
  decide

/-- C14 (amended). `SetEnableStaticSlices( enable )` does not look at the
recording state: in every state, recording or not, it stores `enable` in
`m_staticSlicesEnabled` and leaves the recording flag, the frames, the frame size
and the static slice cache and its flag as they are. -/
theorem C14_SetEnableStaticSlices_ignores_recording (s : USAcquisitionObject α) (enable : Bool) :
    (s.SetEnableStaticSlices enable).m_staticSlicesEnabled = enable ∧
    (s.SetEnableStaticSlices enable).m_isRecording = s.m_isRecording ∧
    (s.SetEnableStaticSlices enable).m_videoBuffer = s.m_videoBuffer ∧
    (s.SetEnableStaticSlices enable).m_defaultImageSize = s.m_defaultImageSize ∧
    (s.SetEnableStaticSlices enable).m_staticSlicesDataNeedUpdate =
      s.m_staticSlicesDataNeedUpdate ∧
    (s.SetEnableStaticSlices enable).m_staticSlicesData = s.m_staticSlicesData := by
  rw [SetEnableStaticSlices_flag]
  exact ⟨rfl, rfl, rfl, rfl, rfl, rfl⟩

theorem AddFrame_static_flag (s : USAcquisitionObject α) (image : vtkImageData α)
    (mat : Mat4 α) (timestamp : α) :
    (s.AddFrame image mat timestamp).1.m_staticSlicesDataNeedUpdate =
        s.m_staticSlicesDataNeedUpdate ∧
      (s.AddFrame image mat timestamp).1.m_staticSlicesData = s.m_staticSlicesData := by
  unfold USAcquisitionObject.AddFrame
  by_cases hr : s.m_isRecording = true
  · simp [hr]
  · by_cases hn : s.m_videoBuffer.GetNumberOfFrames = 0
    · simp [hr, hn, USAcquisitionObject.SetFrameAndMaskSize]
    · by_cases hd : image.dimensions.1 ≠ s.m_defaultImageSize.1 ∨
          image.dimensions.2.1 ≠ s.m_defaultImageSize.2
      · simp [hr, hn, hd]
      · simp [hr, hn, hd]

theorem Record_static_flag (s s' : USAcquisitionObject α) (probe : Option (UsProbeObject α))
    (h : s.Record probe = some s') :
    s'.m_staticSlicesDataNeedUpdate = s.m_staticSlicesDataNeedUpdate ∧
      s'.m_staticSlicesData = s.m_staticSlicesData := by
  unfold USAcquisitionObject.Record at h
  split_ifs at h
  cases probe with
  | none => simp at h
  | some p =>
    simp only [Option.some.injEq] at h
    subst h
    rw [SetEnableStaticSlices_flag]
    by_cases hok : p.isOk = true
    · simp [hok, USAcquisitionObject.SetFrameAndMaskSize]
    · simp [hok]

theorem Updated_static_flag (s s' : USAcquisitionObject α) (probe : Option (UsProbeObject α))
    (h : s.Updated probe = some s') :
    s'.m_staticSlicesDataNeedUpdate = s.m_staticSlicesDataNeedUpdate ∧
      s'.m_staticSlicesData = s.m_staticSlicesData := by
  unfold USAcquisitionObject.Updated at h
  split_ifs at h
  · cases probe with
    | none => simp at h
    | some p =>
      simp only at h
      split_ifs at h <;>
      · simp only [Option.some.injEq] at h
        subst h
        exact ⟨rfl, rfl⟩
  · simp only [Option.some.injEq] at h
    subst h
    exact ⟨rfl, rfl⟩

/-- After the static slices of two frames were computed, an accepted `AddFrame`,
and likewise `Record()` and the recording tick that follows it, append a frame
and leave `m_staticSlicesDataNeedUpdate` false. -/
theorem C15_counterexample_append_keeps_clean :
    (sampleTwoFrames.SetupAllStaticSlices.map
        (fun sc => (sc.m_staticSlicesDataNeedUpdate,
          (sc.AddFrame (sampleImage 2 2 [3]) 1 12).2,
          (sc.AddFrame (sampleImage 2 2 [3]) 1 12).1.GetNumberOfSlices,
          (sc.AddFrame (sampleImage 2 2 [3]) 1 12).1.m_staticSlicesDataNeedUpdate))
      = some (false, true, 3, false)) ∧
    ((sampleTwoFrames.SetupAllStaticSlices.bind
        (fun sc => sc.Record (some (sampleProbe 2 2 12)))).map
        (fun s => (s.GetNumberOfSlices, s.m_staticSlicesDataNeedUpdate))
      = some (3, false)) ∧
    (((sampleTwoFrames.SetupAllStaticSlices.bind
        (fun sc => sc.Record (some (sampleProbe 2 2 12)))).bind
        (fun s => s.Updated (some (sampleProbe 2 2 13)))).map
        (fun s => (s.GetNumberOfSlices, s.m_staticSlicesDataNeedUpdate))
      = some (4, false)) := by
  decide

/-- C15 (amended). No operation that appends a frame writes
`m_staticSlicesDataNeedUpdate` or the cached slices: an `AddFrame`, a `Record()`
and a clock tick each leave the flag as it was before, stale if it was stale and
not stale if it was not, and the cache unchanged. -/
theorem C15_appends_keep_the_stale_flag (s : USAcquisitionObject α) :
    (∀ image mat timestamp,
      (s.AddFrame image mat timestamp).1.m_staticSlicesDataNeedUpdate =
          s.m_staticSlicesDataNeedUpdate ∧
        (s.AddFrame image mat timestamp).1.m_staticSlicesData = s.m_staticSlicesData) ∧
    (∀ probe s', s.Record probe = some s' →
      s'.m_staticSlicesDataNeedUpdate = s.m_staticSlicesDataNeedUpdate ∧
        s'.m_staticSlicesData = s.m_staticSlicesData) ∧
    (∀ probe s', s.Updated probe = some s' →
      s'.m_staticSlicesDataNeedUpdate = s.m_staticSlicesDataNeedUpdate ∧
        s'.m_staticSlicesData = s.m_staticSlicesData) :=
  ⟨fun image mat timestamp => AddFrame_static_flag s image mat timestamp,
    fun probe s' h => Record_static_flag s s' probe h,
    fun probe s' h => Updated_static_flag s s' probe h⟩

variable [CommRing α]

/-- After the static slices of two frames were computed, `SetCalibrationMatrix`
leaves `m_staticSlicesDataNeedUpdate` false. -/
theorem C16_counterexample_calibration_keeps_clean :
    sampleTwoFrames.SetupAllStaticSlices.map
        (fun sc => (sc.m_staticSlicesDataNeedUpdate,
          (sc.SetCalibrationMatrix 1).m_staticSlicesDataNeedUpdate))
      = some (false, false) := by
  decide

/-- C16 (amended). `SetCalibrationMatrix( mat )` makes `mat` the calibration matrix
and writes nothing else: the stored frames, the count, the current index, the
recording state, the cached static slices and `m_staticSlicesDataNeedUpdate` are
unchanged (the set is not marked stale).  The slice transform and the transform of
every cached static slice, which concatenate `m_calibrationTransform` by
reference, are from then on world x tracked x `mat`. -/
theorem C16_SetCalibrationMatrix_effect (s : USAcquisitionObject α) (mat : Mat4 α) :
    (s.SetCalibrationMatrix mat).m_calibrationTransform = mat ∧
    (s.SetCalibrationMatrix mat).m_videoBuffer.m_frames = s.m_videoBuffer.m_frames ∧
    (s.SetCalibrationMatrix mat).GetNumberOfSlices = s.GetNumberOfSlices ∧
    (s.SetCalibrationMatrix mat).GetCurrentSlice = s.GetCurrentSlice ∧
    (s.SetCalibrationMatrix mat).m_isRecording = s.m_isRecording ∧
    (s.SetCalibrationMatrix mat).m_staticSlicesData = s.m_staticSlicesData ∧
    (s.SetCalibrationMatrix mat).m_staticSlicesDataNeedUpdate =
      s.m_staticSlicesDataNeedUpdate ∧
    (s.SetCalibrationMatrix mat).m_sliceTransform =
      s.worldTransform * s.m_currentImageTransform * mat ∧
    ∀ pss ∈ (s.SetCalibrationMatrix mat).m_staticSlicesData,
      (s.SetCalibrationMatrix mat).staticSliceTransform pss =
        s.worldTransform * pss.sliceUncalibratedMatrix * mat := by
  refine ⟨rfl, rfl, rfl, rfl, rfl, rfl, rfl, ?_, ?_⟩
  · simp [USAcquisitionObject.m_sliceTransform, USAcquisitionObject.SetCalibrationMatrix,
      vtkConcatenate]
  · intro pss _
    simp [USAcquisitionObject.staticSliceTransform, USAcquisitionObject.SetCalibrationMatrix,
      vtkConcatenate]

end ControllerFlags

/-! ## Reads of the static slice set -/

section StaticSliceReads

variable {α : Type} [CommRing α]

theorem SetupAllStaticSlices_clean (s : USAcquisitionObject α)
    (h : s.m_staticSlicesDataNeedUpdate = false) : s.SetupAllStaticSlices = some s := by
  simp [USAcquisitionObject.SetupAllStaticSlices, h]

theorem SetupAllStaticSlices_few_frames (s : USAcquisitionObject α)
    (h : s.m_staticSlicesDataNeedUpdate = true) (hc : s.GetNumberOfSlices ≤ 1) :
    s.SetupAllStaticSlices = some s.ClearStaticSlicesData := by
  have hc' : ¬ (USAcquisitionObject.ClearStaticSlicesData s).GetNumberOfSlices > 1 := by
    show ¬ s.GetNumberOfSlices > 1
    omega
  unfold USAcquisitionObject.SetupAllStaticSlices
  rw [if_pos h]
  unfold USAcquisitionObject.ComputeAllStaticSlicesData
  simp only [hc', if_false]

theorem SetupAllStaticSlices_stale (s : USAcquisitionObject α)
    (h : s.m_staticSlicesDataNeedUpdate = true) (hc : 1 < s.GetNumberOfSlices)
    (hN1 : 1 ≤ s.m_numberOfStaticSlices) (hN31 : s.m_numberOfStaticSlices < 2 ^ 31) :
    ∃ cache, s.SetupAllStaticSlices =
        some { s with m_staticSlicesData := cache, m_staticSlicesDataNeedUpdate := false } ∧
      (cache.length : Int) = s.m_numberOfStaticSlices ∧
      cache.map some =
        (staticSliceIndices s.GetNumberOfSlices s.m_numberOfStaticSlices).map s.staticSliceAt := by
  obtain ⟨slices, last, h1, h2, h3⟩ := ComputeAllStaticSlicesData_spec s hc hN31
  refine ⟨slices ++ [last], ?_, ?_, ?_⟩
  · unfold USAcquisitionObject.SetupAllStaticSlices
    rw [if_pos h]
    exact h1
  · have hlen : slices.length = (s.m_numberOfStaticSlices - 1).toNat := by
      have := congrArg List.length h3
      simpa using this
    simp only [List.length_append, List.length_singleton, hlen]
    push_cast
    omega
  · simp [staticSliceIndices, hc, h2, h3]

theorem sameButCache_refl (s : USAcquisitionObject α) : sameButCache s s := by
  unfold sameButCache
  cases s
  rfl

theorem sameButCache_trans (s t u : USAcquisitionObject α) (h1 : sameButCache s t)
    (h2 : sameButCache t u) : sameButCache s u := by
  unfold sameButCache at *
  rw [h2, h1]

theorem SetupAllStaticSlices_total (s : USAcquisitionObject α)
    (hN31 : s.m_numberOfStaticSlices < 2 ^ 31) :
    ∃ t, s.SetupAllStaticSlices = some t ∧ sameButCache s t ∧
      (s.m_staticSlicesDataNeedUpdate = false → t = s) ∧
      (s.m_staticSlicesDataNeedUpdate = true → s.GetNumberOfSlices ≤ 1 →
        t.m_staticSlicesDataNeedUpdate = true) ∧
      (s.m_staticSlicesDataNeedUpdate = true → 1 < s.GetNumberOfSlices →
        1 ≤ s.m_numberOfStaticSlices →
        t.m_staticSlicesDataNeedUpdate = false ∧
          (t.m_staticSlicesData.length : Int) = s.m_numberOfStaticSlices) := by
  by_cases h : s.m_staticSlicesDataNeedUpdate = true
  · by_cases hc : 1 < s.GetNumberOfSlices
    · obtain ⟨slices, last, h1, _, h3⟩ := ComputeAllStaticSlicesData_spec s hc hN31
      refine ⟨{ s with m_staticSlicesData := slices ++ [last]
                       m_staticSlicesDataNeedUpdate := false }, ?_, ?_, ?_, ?_, ?_⟩
      · unfold USAcquisitionObject.SetupAllStaticSlices
        rw [if_pos h]
        exact h1
      · unfold sameButCache
        rfl
      · intro hf
        rw [h] at hf
        exact absurd hf (by decide)
      · intro _ hle
        omega
      · intro _ _ hN1
        refine ⟨rfl, ?_⟩
        have hlen : slices.length = (s.m_numberOfStaticSlices - 1).toNat := by
          have := congrArg List.length h3
          simpa using this
        simp only [List.length_append, List.length_singleton, hlen]
        push_cast
        omega
    · refine ⟨_, SetupAllStaticSlices_few_frames s h (by omega), ?_, ?_, ?_, ?_⟩
      · unfold sameButCache USAcquisitionObject.ClearStaticSlicesData
        rfl
      · intro hf
        rw [h] at hf
        exact absurd hf (by decide)
      · intro _ _
        exact h
      · intro _ hc' _
        exact absurd hc' hc
  · have h' : s.m_staticSlicesDataNeedUpdate = false := by simpa using h
    refine ⟨s, SetupAllStaticSlices_clean s h', sameButCache_refl s, fun _ => rfl, ?_, ?_⟩
    · intro hf
      exact absurd hf h
    · intro hf
      exact absurd hf h

theorem sameButCache_fields (s t : USAcquisitionObject α) (h : sameButCache s t) :
    t.m_numberOfStaticSlices = s.m_numberOfStaticSlices ∧
    t.GetNumberOfSlices = s.GetNumberOfSlices ∧
    t.m_perViews = s.m_perViews ∧
    t.m_isMaskOn = s.m_isMaskOn := by
  unfold sameButCache at h
  rw [h]
  exact ⟨rfl, rfl, rfl, rfl⟩

theorem setupViews_total (views : List (View × PerViewElements)) :
    ∀ s : USAcquisitionObject α, s.m_numberOfStaticSlices < 2 ^ 31 →
      ∃ r, s.setupViews views = some r ∧ sameButCache s r.1 ∧
        (s.m_staticSlicesDataNeedUpdate = false → r.1 = s) ∧
        (views = [] → r.1 = s) ∧
        (s.m_staticSlicesDataNeedUpdate = true → s.GetNumberOfSlices ≤ 1 →
          r.1.m_staticSlicesDataNeedUpdate = true) ∧
        (views ≠ [] → s.m_staticSlicesDataNeedUpdate = true → 1 < s.GetNumberOfSlices →
          1 ≤ s.m_numberOfStaticSlices →
          r.1.m_staticSlicesDataNeedUpdate = false ∧
            (r.1.m_staticSlicesData.length : Int) = s.m_numberOfStaticSlices) := by
  induction views with
  | nil =>
    intro s _
    exact ⟨(s, []), rfl, sameButCache_refl s, fun _ => rfl, fun _ => rfl, fun h _ => h,
      fun h => absurd rfl h⟩
  | cons pv rest ih =>
    intro s hN31
    obtain ⟨t1, h1, hs1, hclean1, hfew1, hstale1⟩ := SetupAllStaticSlices_total s hN31
    obtain ⟨hN, hcnt, _, _⟩ := sameButCache_fields s t1 hs1
    obtain ⟨r2, h2, hs2, hclean2, _, hfew2, hstale2⟩ := ih t1 (by rw [hN]; exact hN31)
    simp only [USAcquisitionObject.setupViews, USAcquisitionObject.SetupAllStaticSlicesInView,
      h1, Option.map_some', Option.some_bind, h2]
    refine ⟨_, rfl, sameButCache_trans s t1 r2.1 hs1 hs2, ?_, ?_, ?_, ?_⟩
    · intro hf
      have e1 := hclean1 hf
      rw [e1] at hclean2
      exact hclean2 hf
    · intro hnil
      exact absurd hnil (List.cons_ne_nil pv rest)
    · intro hst hle
      have hf1 := hfew1 hst hle
      exact hfew2 hf1 (by rw [hcnt]; exact hle)
    · intro _ hst hc hN1
      obtain ⟨hf1, hl1⟩ := hstale1 hst hc hN1
      have e2 : r2.1 = t1 := hclean2 hf1
      show r2.1.m_staticSlicesDataNeedUpdate = false ∧ _
      rw [e2]
      exact ⟨hf1, hl1⟩

/-- C17. A read of the static slice set, `SetupAllStaticSlices`, on a set that is
not stale returns the acquisition state unchanged, cached slices included; on a
stale set with more than one frame (and `1 <= N < 2^31`) it replaces the cache by
the slices of the `N` sampled frames, whatever the cache held, and clears the
stale flag; `SetNumberOfStaticSlices( nb )` with `nb >= 2` stores `nb` and marks
the set stale before it reads the set for the registered views, so that `N` is
`nb` afterwards, the set is still stale when no view is registered, and holds
exactly `nb` fresh slices when a view is registered and there is more than one
frame. -/
theorem C17_static_slice_read_and_resize (s : USAcquisitionObject α) :
    (s.m_staticSlicesDataNeedUpdate = false →
      s.SetupAllStaticSlices = some s ∧
      ∀ perView, ∃ perView', s.SetupAllStaticSlicesInView perView = some (s, perView')) ∧
    (s.m_staticSlicesDataNeedUpdate = true → 1 < s.GetNumberOfSlices →
      1 ≤ s.m_numberOfStaticSlices → s.m_numberOfStaticSlices < 2 ^ 31 →
      ∃ cache, s.SetupAllStaticSlices =
          some { s with m_staticSlicesData := cache, m_staticSlicesDataNeedUpdate := false } ∧
        (cache.length : Int) = s.m_numberOfStaticSlices ∧
        cache.map some =
          (staticSliceIndices s.GetNumberOfSlices s.m_numberOfStaticSlices).map
            s.staticSliceAt) ∧
    (∀ nb : Int, 2 ≤ nb → nb < 2 ^ 31 →
      (s.numberOfStaticSlicesStored nb).m_numberOfStaticSlices = nb ∧
      (s.numberOfStaticSlicesStored nb).m_staticSlicesDataNeedUpdate = true ∧
      s.SetNumberOfStaticSlices nb =
        (s.numberOfStaticSlicesStored nb).SetupAllStaticSlicesInAllViews ∧
      ∃ s', s.SetNumberOfStaticSlices nb = some s' ∧
        s'.m_numberOfStaticSlices = nb ∧
        (s.m_perViews = [] → s'.m_staticSlicesDataNeedUpdate = true) ∧
        (s.m_perViews ≠ [] → 1 < s.GetNumberOfSlices →
          s'.m_staticSlicesDataNeedUpdate = false ∧
            (s'.m_staticSlicesData.length : Int) = nb)) := by
  refine ⟨?_, ?_, ?_⟩
  · intro h
    refine ⟨SetupAllStaticSlices_clean s h, ?_⟩
    intro perView
    simp only [USAcquisitionObject.SetupAllStaticSlicesInView, SetupAllStaticSlices_clean s h,
      Option.map_some']
    exact ⟨_, rfl⟩
  · intro h hc hN1 hN31
    exact SetupAllStaticSlices_stale s h hc hN1 hN31
  · intro nb h2 h31
    have hdef : s.SetNumberOfStaticSlices nb =
        (s.numberOfStaticSlicesStored nb).SetupAllStaticSlicesInAllViews := by
      simp [USAcquisitionObject.SetNumberOfStaticSlices, h2]
    refine ⟨rfl, rfl, hdef, ?_⟩
    obtain ⟨r, hr, hs, _, hnil, _, hstale⟩ :=
      setupViews_total (s.numberOfStaticSlicesStored nb).m_perViews
        (s.numberOfStaticSlicesStored nb) h31
    obtain ⟨hN, _, _, _⟩ := sameButCache_fields _ _ hs
    rw [hdef]
    simp only [USAcquisitionObject.SetupAllStaticSlicesInAllViews, hr, Option.map_some']
    refine ⟨_, rfl, hN, ?_, ?_⟩
    · intro hv
      have hv' : (s.numberOfStaticSlicesStored nb).m_perViews = [] := by
        simp [USAcquisitionObject.numberOfStaticSlicesStored,
          USAcquisitionObject.ReleaseAllStaticSlicesInAllViews, hv]
      show r.1.m_staticSlicesDataNeedUpdate = true
      rw [hnil hv']
      rfl
    · intro hv hc
      have hv' : (s.numberOfStaticSlicesStored nb).m_perViews ≠ [] := by
        simp [USAcquisitionObject.numberOfStaticSlicesStored,
          USAcquisitionObject.ReleaseAllStaticSlicesInAllViews, hv]
      exact hstale hv' rfl hc (by show (1 : Int) ≤ nb; omega)

end StaticSliceReads

/-! ## The rendering pipeline selector -/

section PipelineWiring

variable {α : Type}

theorem UpdatePipeline_of_inCache (s : USAcquisitionObject α) (h : s.staticActorsInCache = true) :
    s.UpdatePipeline = some s.pipelineRewired := by
  simp [USAcquisitionObject.UpdatePipeline, h]

theorem rewirePerView_imageSlice (s : USAcquisitionObject α) (perView : PerViewElements) :
    (s.rewirePerView perView).imageSlice = specChain s.m_isMaskOn s.m_isDopplerOn := by
  unfold USAcquisitionObject.rewirePerView specChain
  cases s.m_isMaskOn <;> cases s.m_isDopplerOn <;> simp

theorem pipelineRewired_fields (s : USAcquisitionObject α) :
    s.pipelineRewired.m_isMaskOn = s.m_isMaskOn ∧
    s.pipelineRewired.m_isDopplerOn = s.m_isDopplerOn ∧
    s.pipelineRewired.m_maskedImageOutput = specChain true s.m_isDopplerOn ∧
    s.pipelineRewired.m_unmaskedImageOutput = specChain false s.m_isDopplerOn ∧
    s.pipelineRewired.m_staticSlicesData = s.m_staticSlicesData := by
  unfold USAcquisitionObject.pipelineRewired specChain
  cases h : s.m_isDopplerOn <;> simp [h]

theorem pipelineRewired_perViews (s : USAcquisitionObject α) :
    s.pipelineRewired.m_perViews =
      s.m_perViews.map (fun pv => (pv.1,
        ({ imageSlice := specChain s.m_isMaskOn s.m_isDopplerOn
           staticSlices := (List.range pv.2.staticSlices.length).map
             (fun (i : Nat) => { index := i, imageStencil := s.m_isMaskOn }) } :
          PerViewElements))) := by
  unfold USAcquisitionObject.pipelineRewired
  cases hd : s.m_isDopplerOn <;> cases hm : s.m_isMaskOn <;>
    simp [USAcquisitionObject.rewirePerView, specChain, hd, hm]


theorem pipelineRewired_inCache (s : USAcquisitionObject α) :
    s.pipelineRewired.staticActorsInCache = s.staticActorsInCache := by
  unfold USAcquisitionObject.staticActorsInCache
  rw [pipelineRewired_perViews, (pipelineRewired_fields s).2.2.2.2, List.all_map]
  congr 1
  funext pv
  simp

theorem pipelineRewired_twice (s : USAcquisitionObject α) (b : Bool) :
    USAcquisitionObject.pipelineRewired { s.pipelineRewired with m_isMaskOn := b } =
      USAcquisitionObject.pipelineRewired { s with m_isMaskOn := b } := by
  unfold USAcquisitionObject.pipelineRewired
  cases hd : s.m_isDopplerOn <;>
    simp [hd, USAcquisitionObject.rewirePerView, List.map_map, Function.comp_def]

theorem SetUseMask_of_inCache (s : USAcquisitionObject α) (useMask : Bool)
    (h : s.staticActorsInCache = true) :
    s.SetUseMask useMask =
      some (USAcquisitionObject.pipelineRewired { s with m_isMaskOn := useMask }) := by
  have h' : USAcquisitionObject.staticActorsInCache { s with m_isMaskOn := useMask } = true := h
  unfold USAcquisitionObject.SetUseMask
  exact UpdatePipeline_of_inCache _ h'

theorem SetUseDoppler_of_inCache (s : USAcquisitionObject α) (useDoppler : Bool)
    (h : s.staticActorsInCache = true) :
    s.SetUseDoppler useDoppler =
      some (USAcquisitionObject.pipelineRewired { s with m_isDopplerOn := useDoppler }) := by
  have h' : USAcquisitionObject.staticActorsInCache { s with m_isDopplerOn := useDoppler } = true :=
    h
  unfold USAcquisitionObject.SetUseDoppler
  exact UpdatePipeline_of_inCache _ h'

theorem SetUseMask_twice (s : USAcquisitionObject α) (b1 b2 : Bool)
    (h : s.staticActorsInCache = true) :
    (s.SetUseMask b1).bind (fun t => t.SetUseMask b2) = s.SetUseMask b2 := by
  have h1 : (USAcquisitionObject.pipelineRewired
      { s with m_isMaskOn := b1 }).staticActorsInCache = true := by
    rw [pipelineRewired_inCache]
    exact h
  rw [SetUseMask_of_inCache s b1 h, Option.some_bind, SetUseMask_of_inCache _ b2 h1,
    SetUseMask_of_inCache s b2 h]
  have := pipelineRewired_twice { s with m_isMaskOn := b1 } b2
  exact congrArg some this

theorem SetUseMask_wiring (s : USAcquisitionObject α) (useMask : Bool)
    (hin : s.staticActorsInCache = true) :
    ∃ s', s.SetUseMask useMask = some s' ∧
      s'.m_isMaskOn = useMask ∧ s'.m_isDopplerOn = s.m_isDopplerOn ∧
      s'.m_perViews.map Prod.fst = s.m_perViews.map Prod.fst ∧
      (∀ pv ∈ s'.m_perViews, pv.2.imageSlice = specChain useMask s.m_isDopplerOn) ∧
      s'.m_maskedImageOutput = specChain true s.m_isDopplerOn ∧
      s'.m_unmaskedImageOutput = specChain false s.m_isDopplerOn := by
  refine ⟨_, SetUseMask_of_inCache s useMask hin, ?_⟩
  obtain ⟨h1, h2, h3, h4, _⟩ := pipelineRewired_fields { s with m_isMaskOn := useMask }
  refine ⟨h1, h2, ?_, ?_, h3, h4⟩
  · rw [pipelineRewired_perViews]
    simp [List.map_map, Function.comp_def]
  · intro pv hpv
    rw [pipelineRewired_perViews] at hpv
    simp only [List.mem_map] at hpv
    obtain ⟨pv0, _, rfl⟩ := hpv
    rfl

theorem SetUseDoppler_wiring (s : USAcquisitionObject α) (useDoppler : Bool)
    (hin : s.staticActorsInCache = true) :
    ∃ s', s.SetUseDoppler useDoppler = some s' ∧
      s'.m_isDopplerOn = useDoppler ∧ s'.m_isMaskOn = s.m_isMaskOn ∧
      s'.m_perViews.map Prod.fst = s.m_perViews.map Prod.fst ∧
      (∀ pv ∈ s'.m_perViews, pv.2.imageSlice = specChain s.m_isMaskOn useDoppler) ∧
      s'.m_maskedImageOutput = specChain true useDoppler ∧
      s'.m_unmaskedImageOutput = specChain false useDoppler := by
  refine ⟨_, SetUseDoppler_of_inCache s useDoppler hin, ?_⟩
  obtain ⟨h1, h2, h3, h4, _⟩ := pipelineRewired_fields { s with m_isDopplerOn := useDoppler }
  refine ⟨h2, h1, ?_, ?_, h3, h4⟩
  · rw [pipelineRewired_perViews]
    simp [List.map_map, Function.comp_def]
  · intro pv hpv
    rw [pipelineRewired_perViews] at hpv
    simp only [List.mem_map] at hpv
    obtain ⟨pv0, _, rfl⟩ := hpv
    rfl

/-- C18. In a state whose static actors all have their slice in the cache (every
state the operations lead to from a new object, `Reachable_staticActorsInCache`),
both `SetUseMask` and `SetUseDoppler` return, store the flag, and leave every
registered view with its current slice connected to the port of the specification
table for the resulting (mask, modality) pair, and the published masked and
unmasked outputs connected to the stencilled and the unstencilled chain of the
resulting modality. -/
theorem C18_pipeline_follows_the_table (s : USAcquisitionObject α) (useMask useDoppler : Bool)
    (hin : s.staticActorsInCache = true) :
    (∃ s', s.SetUseMask useMask = some s' ∧
      s'.m_isMaskOn = useMask ∧ s'.m_isDopplerOn = s.m_isDopplerOn ∧
      s'.m_perViews.map Prod.fst = s.m_perViews.map Prod.fst ∧
      (∀ pv ∈ s'.m_perViews, pv.2.imageSlice = specChain useMask s.m_isDopplerOn) ∧
      s'.m_maskedImageOutput = specChain true s.m_isDopplerOn ∧
      s'.m_unmaskedImageOutput = specChain false s.m_isDopplerOn) ∧
    (∃ s', s.SetUseDoppler useDoppler = some s' ∧
      s'.m_isDopplerOn = useDoppler ∧ s'.m_isMaskOn = s.m_isMaskOn ∧
      s'.m_perViews.map Prod.fst = s.m_perViews.map Prod.fst ∧
      (∀ pv ∈ s'.m_perViews, pv.2.imageSlice = specChain s.m_isMaskOn useDoppler) ∧
      s'.m_maskedImageOutput = specChain true useDoppler ∧
      s'.m_unmaskedImageOutput = specChain false useDoppler) :=
  ⟨SetUseMask_wiring s useMask hin, SetUseDoppler_wiring s useDoppler hin⟩

theorem pipelineRewired_of_wired (s : USAcquisitionObject α) (h : s.wiredByConfiguration) :
    s.pipelineRewired = s := by
  obtain ⟨h1, h2, h3⟩ := h
  have hv : s.pipelineRewired.m_perViews = s.m_perViews := by
    rw [pipelineRewired_perViews]
    conv_rhs => rw [← List.map_id s.m_perViews]
    apply List.map_congr_left
    intro pv hpv
    obtain ⟨e1, e2⟩ := h3 pv hpv
    simp only [id]
    rw [← e1, ← e2]
  obtain ⟨f1, f2, f3, f4, f5⟩ := pipelineRewired_fields s
  have key : s.pipelineRewired =
      { s with m_maskedImageOutput := s.pipelineRewired.m_maskedImageOutput
               m_unmaskedImageOutput := s.pipelineRewired.m_unmaskedImageOutput
               m_perViews := s.pipelineRewired.m_perViews } := by
    unfold USAcquisitionObject.pipelineRewired
    cases hd : s.m_isDopplerOn <;> simp [hd]
  rw [key, hv, f3, f4, ← h1, ← h2]


theorem C18_witness :
    sampleWithView.staticActorsInCache = true ∧
    ∃ s', sampleWithView.SetUseDoppler true = some s' ∧
      s'.m_isDopplerOn = true ∧ s'.m_isMaskOn = sampleWithView.m_isMaskOn ∧
      s'.m_perViews.map Prod.fst = sampleWithView.m_perViews.map Prod.fst ∧
      (∀ pv ∈ s'.m_perViews, pv.2.imageSlice = specChain sampleWithView.m_isMaskOn true) ∧
      s'.m_maskedImageOutput = specChain true true ∧
      s'.m_unmaskedImageOutput = specChain false true :=
  ⟨by decide, (C18_pipeline_follows_the_table sampleWithView false true (by decide)).2⟩

/-- C19. On a new object (mask on) switched to Doppler, `Setup` of a
three-dimensional view connects the current slice of the view to `m_sliceStencil`,
where the table has `m_sliceStencilDoppler` for mask on / alternate; with the mask
off as well it connects it to `m_mapToColors`, where the table has
`m_constantPad`. -/
theorem C19_Setup_ignores_the_modality :
    (((sampleObject.SetUseDoppler true).bind (fun s => s.Setup sampleView)).map
        (fun s => (s.m_isMaskOn, s.m_isDopplerOn, s.m_perViews.map (fun pv => pv.2.imageSlice)))
      = some (true, true, [OutputPort.m_sliceStencil])) ∧
    specChain true true = OutputPort.m_sliceStencilDoppler ∧
    ((((sampleObject.SetUseDoppler true).bind (fun s => s.SetUseMask false)).bind
        (fun s => s.Setup sampleView)).map
        (fun s => (s.m_isMaskOn, s.m_isDopplerOn, s.m_perViews.map (fun pv => pv.2.imageSlice)))
      = some (false, true, [OutputPort.m_mapToColors])) ∧
    specChain false true = OutputPort.m_constantPad := by
  decide

/-- On a new object (mask on) with one view set up, the current slice of the view
is connected to `m_sliceStencil`; after `SetUseMask` with true, false, true, false
it is connected to `m_mapToColors`, and the mask flag is off. -/
theorem C20_counterexample_mask_on_initially :
    ((sampleObject.Setup sampleView).map
        (fun s => (s.m_isMaskOn, s.m_perViews.map (fun pv => pv.2.imageSlice)))
      = some (true, [OutputPort.m_sliceStencil])) ∧
    ((((((sampleObject.Setup sampleView).bind (fun s => s.SetUseMask true)).bind
        (fun s => s.SetUseMask false)).bind (fun s => s.SetUseMask true)).bind
        (fun s => s.SetUseMask false)).map
        (fun s => (s.m_isMaskOn, s.m_perViews.map (fun pv => pv.2.imageSlice)))
      = some (false, [OutputPort.m_mapToColors])) := by
  decide

/-- C20 (amended). In a state whose static actors all have their slice in the
cache (every state the operations lead to from a new object),
`SetUseMask` with true, false, true, false leaves the state that a single
`SetUseMask( false )` leaves: the mask is off, the published masked and unmasked
outputs are on the stencilled and unstencilled chain of the modality, and the
current slice of every view is on the unmasked chain of the modality.  This is
the initial state when the initial state has the mask off and is wired as the
table prescribes for its configuration. -/
theorem C20_mask_toggles_end_unmasked (s : USAcquisitionObject α)
    (hin : s.staticActorsInCache = true) :
    ∃ s4, ((((s.SetUseMask true).bind (fun t => t.SetUseMask false)).bind
        (fun t => t.SetUseMask true)).bind (fun t => t.SetUseMask false)) = some s4 ∧
      s.SetUseMask false = some s4 ∧
      s4.m_isMaskOn = false ∧ s4.m_isDopplerOn = s.m_isDopplerOn ∧
      s4.m_maskedImageOutput = specChain true s.m_isDopplerOn ∧
      s4.m_unmaskedImageOutput = specChain false s.m_isDopplerOn ∧
      (∀ pv ∈ s4.m_perViews, pv.2.imageSlice = specChain false s.m_isDopplerOn) ∧
      (s.m_isMaskOn = false → s.wiredByConfiguration → s4 = s) := by
  have hchain : ((((s.SetUseMask true).bind (fun t => t.SetUseMask false)).bind
      (fun t => t.SetUseMask true)).bind (fun t => t.SetUseMask false)) =
      s.SetUseMask false := by
    rw [SetUseMask_twice s true false hin, SetUseMask_twice s false true hin,
      SetUseMask_twice s true false hin]
  obtain ⟨s4, h4, hm, hd, _, hv, ho1, ho2⟩ := SetUseMask_wiring s false hin
  refine ⟨s4, by rw [hchain]; exact h4, h4, hm, hd, ho1, ho2, hv, ?_⟩
  intro hmask hw
  have e : ({ s with m_isMaskOn := false } : USAcquisitionObject α) = s := by
    cases s
    simp_all
  have h4' := SetUseMask_of_inCache s false hin
  rw [e, pipelineRewired_of_wired s hw] at h4'
  rw [h4] at h4'
  exact Option.some.inj h4'

theorem C20_witness :
    sampleWithView.staticActorsInCache = true ∧
    ∃ s4, ((((sampleWithView.SetUseMask true).bind (fun t => t.SetUseMask false)).bind
        (fun t => t.SetUseMask true)).bind (fun t => t.SetUseMask false)) = some s4 ∧
      sampleWithView.SetUseMask false = some s4 ∧
      s4.m_isMaskOn = false :=
  ⟨by decide, by
    obtain ⟨s4, h1, h2, h3, _⟩ := C20_mask_toggles_end_unmasked sampleWithView (by decide)
    exact ⟨s4, h1, h2, h3⟩⟩

end PipelineWiring

/-! ## The static actors in the states the operations lead to -/

section ReachableStates

variable {α : Type} [CommRing α]

theorem staticActorsInCache_of_sound (s : USAcquisitionObject α) (h : s.staticActorsSound) :
    s.staticActorsInCache = true := by
  unfold USAcquisitionObject.staticActorsInCache
  rw [List.all_eq_true]
  intro pv hpv
  simpa using (h pv hpv).1

theorem ComputeOneStaticSliceData_same (s t : USAcquisitionObject α) (i : Int)
    (h : s.ComputeOneStaticSliceData i = some t) : sameButCache s t ∧
      t.m_staticSlicesDataNeedUpdate = s.m_staticSlicesDataNeedUpdate := by
  unfold USAcquisitionObject.ComputeOneStaticSliceData at h
  cases hp : s.staticSliceAt i with
  | none => simp [hp] at h
  | some pss =>
    simp only [hp, Option.map_some', Option.some.injEq] at h
    subst h
    exact ⟨by unfold sameButCache; rfl, rfl⟩

theorem foldlM_ComputeOne_same (f : Nat → Int) (l : List Nat) :
    ∀ s t : USAcquisitionObject α,
      l.foldlM (fun (st : USAcquisitionObject α) (i : Nat) =>
        st.ComputeOneStaticSliceData (f i)) s = some t →
      sameButCache s t ∧ t.m_staticSlicesDataNeedUpdate = s.m_staticSlicesDataNeedUpdate := by
  induction l with
  | nil =>
    intro s t h
    simp only [List.foldlM_nil] at h
    cases h
    exact ⟨sameButCache_refl s, rfl⟩
  | cons i rest ih =>
    intro s t h
    simp only [List.foldlM_cons] at h
    cases h1 : s.ComputeOneStaticSliceData (f i) with
    | none => simp [h1] at h
    | some s1 =>
      rw [h1] at h
      obtain ⟨a1, a2⟩ := ComputeOneStaticSliceData_same s s1 (f i) h1
      obtain ⟨b1, b2⟩ := ih s1 t h
      exact ⟨sameButCache_trans s s1 t a1 b1, by rw [b2, a2]⟩

theorem ComputeAllStaticSlicesData_some (s t : USAcquisitionObject α)
    (h : s.ComputeAllStaticSlicesData = some t) :
    sameButCache s t ∧
    (t.m_staticSlicesDataNeedUpdate = true →
      s.m_staticSlicesDataNeedUpdate = true ∧ t.m_staticSlicesData = []) := by
  have c0 : sameButCache s s.ClearStaticSlicesData := by
    unfold sameButCache USAcquisitionObject.ClearStaticSlicesData
    rfl
  unfold USAcquisitionObject.ComputeAllStaticSlicesData at h
  by_cases hc : s.ClearStaticSlicesData.GetNumberOfSlices > 1
  · rw [if_pos hc, Option.bind_eq_some] at h
    obtain ⟨s1, hfold, h⟩ := h
    rw [Option.map_eq_some'] at h
    obtain ⟨s2, hlast, h⟩ := h
    obtain ⟨a1, _⟩ := foldlM_ComputeOne_same _ _ _ _ hfold
    obtain ⟨b1, _⟩ := ComputeOneStaticSliceData_same _ _ _ hlast
    have c2 : sameButCache s s2 :=
      sameButCache_trans _ _ _ c0 (sameButCache_trans _ _ _ a1 b1)
    subst h
    refine ⟨?_, ?_⟩
    · unfold sameButCache at c2 ⊢
      unfold USAcquisitionObject.SetStaticSlicesLutIndex
      conv_lhs => rw [c2]
    · intro ht
      exact absurd ht (by simp)
  · rw [if_neg hc] at h
    simp only [Option.some.injEq] at h
    subst h
    exact ⟨c0, fun ht => ⟨ht, rfl⟩⟩

theorem SetupAllStaticSlices_some (s t : USAcquisitionObject α)
    (h : s.SetupAllStaticSlices = some t) :
    sameButCache s t ∧
    (s.m_staticSlicesDataNeedUpdate = false → t = s) ∧
    (t.m_staticSlicesDataNeedUpdate = true →
      s.m_staticSlicesDataNeedUpdate = true ∧ t.m_staticSlicesData = []) := by
  unfold USAcquisitionObject.SetupAllStaticSlices at h
  by_cases hf : s.m_staticSlicesDataNeedUpdate = true
  · rw [if_pos hf] at h
    obtain ⟨h1, h2⟩ := ComputeAllStaticSlicesData_some s t h
    refine ⟨h1, ?_, h2⟩
    intro hf2
    rw [hf] at hf2
    exact absurd hf2 (by decide)
  · rw [if_neg hf] at h
    simp only [Option.some.injEq] at h
    subst h
    refine ⟨sameButCache_refl s, fun _ => rfl, ?_⟩
    intro ht
    exact absurd ht hf

theorem SetupAllStaticSlicesInView_sound (s t : USAcquisitionObject α)
    (perView perView' : PerViewElements)
    (h : s.SetupAllStaticSlicesInView perView = some (t, perView'))
    (hs : s.staticActorsSound) (hp : perView.staticSlices = []) :
    t.staticActorsSound ∧ t.m_perViews = s.m_perViews ∧
      (s.m_staticSlicesDataNeedUpdate = false → t = s) ∧
      perView'.staticSlices.length ≤ t.m_staticSlicesData.length ∧
      (t.m_staticSlicesDataNeedUpdate = true → perView'.staticSlices = []) := by
  unfold USAcquisitionObject.SetupAllStaticSlicesInView at h
  rw [Option.map_eq_some'] at h
  obtain ⟨s1, h1, h⟩ := h
  simp only [Prod.mk.injEq] at h
  obtain ⟨e1, e2⟩ := h
  subst e1
  obtain ⟨hsame, hclean, hstale⟩ := SetupAllStaticSlices_some s s1 h1
  obtain ⟨_, _, hv, _⟩ := sameButCache_fields s s1 hsame
  refine ⟨?_, hv, hclean, ?_, ?_⟩
  · intro pv hpv
    rw [hv] at hpv
    by_cases hf : s.m_staticSlicesDataNeedUpdate = true
    · have he := (hs pv hpv).2 hf
      rw [he]
      exact ⟨Nat.zero_le _, fun _ => rfl⟩
    · have hf' : s.m_staticSlicesDataNeedUpdate = false := by simpa using hf
      rw [hclean hf']
      exact hs pv hpv
  · rw [← e2]
    simp [hp]
  · intro ht
    rw [← e2]
    simp [hp, (hstale ht).2]

theorem staticActorsSound_of_eq (s t : USAcquisitionObject α) (hs : s.staticActorsSound)
    (h1 : t.m_perViews = s.m_perViews) (h2 : t.m_staticSlicesData = s.m_staticSlicesData)
    (h3 : t.m_staticSlicesDataNeedUpdate = s.m_staticSlicesDataNeedUpdate) :
    t.staticActorsSound := by
  unfold USAcquisitionObject.staticActorsSound
  rw [h1, h2, h3]
  exact hs

theorem setupViews_sound (views : List (View × PerViewElements)) :
    ∀ (s : USAcquisitionObject α) (r : USAcquisitionObject α × List (View × PerViewElements)),
      s.setupViews views = some r → s.staticActorsSound →
      (∀ pv ∈ views, pv.2.staticSlices = []) →
      r.1.staticActorsSound ∧ (s.m_staticSlicesDataNeedUpdate = false → r.1 = s) ∧
        ∀ pv ∈ r.2, pv.2.staticSlices.length ≤ r.1.m_staticSlicesData.length ∧
          (r.1.m_staticSlicesDataNeedUpdate = true → pv.2.staticSlices = []) := by
  induction views with
  | nil =>
    intro s r h hs _
    simp only [USAcquisitionObject.setupViews, Option.some.injEq] at h
    subst h
    exact ⟨hs, fun _ => rfl, fun pv hpv => absurd hpv (List.not_mem_nil pv)⟩
  | cons pv rest ih =>
    intro s r h hs hempty
    simp only [USAcquisitionObject.setupViews] at h
    rw [Option.bind_eq_some] at h
    obtain ⟨r1, h1, h⟩ := h
    rw [Option.map_eq_some'] at h
    obtain ⟨r2, h2, h⟩ := h
    subst h
    obtain ⟨a1, _, a3, a4, a5⟩ := SetupAllStaticSlicesInView_sound s r1.1 pv.2 r1.2 h1 hs
      (hempty pv (List.mem_cons_self pv rest))
    obtain ⟨b1, b2, b3⟩ := ih r1.1 r2 h2 a1
      (fun q hq => hempty q (List.mem_cons_of_mem pv hq))
    refine ⟨b1, ?_, ?_⟩
    · intro hf
      have e1 := a3 hf
      show r2.1 = s
      rw [← e1]
      exact b2 (by rw [e1]; exact hf)
    · intro q hq
      rcases List.mem_cons.mp hq with hq | hq
      · subst hq
        show r1.2.staticSlices.length ≤ r2.1.m_staticSlicesData.length ∧
          (r2.1.m_staticSlicesDataNeedUpdate = true → r1.2.staticSlices = [])
        by_cases hf1 : r1.1.m_staticSlicesDataNeedUpdate = true
        · rw [a5 hf1]
          exact ⟨Nat.zero_le _, fun _ => rfl⟩
        · have hf1' : r1.1.m_staticSlicesDataNeedUpdate = false := by simpa using hf1
          rw [b2 hf1']
          exact ⟨a4, a5⟩
      · exact b3 q hq

theorem mem_perViewsInsert (m : List (View × PerViewElements)) (view : View)
    (elem : PerViewElements) (pv : View × PerViewElements)
    (h : pv ∈ perViewsInsert m view elem) : pv ∈ m ∨ pv = (view, elem) := by
  unfold perViewsInsert at h
  split_ifs at h
  · rw [List.mem_map] at h
    obtain ⟨q, hq, e⟩ := h
    split_ifs at e
    · exact Or.inr e.symm
    · exact Or.inl (e ▸ hq)
  · rcases List.mem_append.mp h with h | h
    · exact Or.inl h
    · exact Or.inr (List.mem_singleton.mp h)

theorem Setup_sound (s s' : USAcquisitionObject α) (view : View) (h : s.Setup view = some s')
    (hs : s.staticActorsSound) : s'.staticActorsSound := by
  unfold USAcquisitionObject.Setup at h
  by_cases hv : view.viewType = ViewType.THREED_VIEW_TYPE
  · rw [if_pos hv, Option.map_eq_some'] at h
    obtain ⟨r, h1, h⟩ := h
    subst h
    obtain ⟨a1, _, _, a4, a5⟩ := SetupAllStaticSlicesInView_sound s r.1 _ r.2 h1 hs rfl
    intro pv hpv
    rcases mem_perViewsInsert _ _ _ _ hpv with hpv | hpv
    · exact a1 pv hpv
    · subst hpv
      exact ⟨a4, a5⟩
  · rw [if_neg hv] at h
    simp only [Option.some.injEq] at h
    subst h
    exact hs

theorem SetNumberOfStaticSlices_sound (s s' : USAcquisitionObject α) (nb : Int)
    (h : s.SetNumberOfStaticSlices nb = some s') : s'.staticActorsSound := by
  unfold USAcquisitionObject.SetNumberOfStaticSlices at h
  split_ifs at h
  unfold USAcquisitionObject.SetupAllStaticSlicesInAllViews at h
  rw [Option.map_eq_some'] at h
  obtain ⟨r, h1, h⟩ := h
  subst h
  have hempty : ∀ pv ∈ (s.numberOfStaticSlicesStored nb).m_perViews, pv.2.staticSlices = [] := by
    intro pv hpv
    simp only [USAcquisitionObject.numberOfStaticSlicesStored,
      USAcquisitionObject.ReleaseAllStaticSlicesInAllViews, List.mem_map] at hpv
    obtain ⟨q, _, e⟩ := hpv
    rw [← e]
  have hs0 : (s.numberOfStaticSlicesStored nb).staticActorsSound := by
    intro pv hpv
    rw [hempty pv hpv]
    exact ⟨Nat.zero_le _, fun _ => rfl⟩
  obtain ⟨_, _, b3⟩ := setupViews_sound _ _ r h1 hs0 hempty
  exact b3

theorem pipelineRewired_sound (s : USAcquisitionObject α) (hs : s.staticActorsSound) :
    s.pipelineRewired.staticActorsSound := by
  obtain ⟨_, _, _, _, f5⟩ := pipelineRewired_fields s
  have ff : s.pipelineRewired.m_staticSlicesDataNeedUpdate = s.m_staticSlicesDataNeedUpdate := by
    unfold USAcquisitionObject.pipelineRewired
    cases hd : s.m_isDopplerOn <;> simp [hd]
  intro pv hpv
  rw [pipelineRewired_perViews, List.mem_map] at hpv
  obtain ⟨q, hq, e⟩ := hpv
  obtain ⟨c1, c2⟩ := hs q hq
  rw [f5, ff, ← e]
  refine ⟨by simpa using c1, ?_⟩
  intro hf
  simp [c2 hf]

theorem UpdatePipeline_sound (s s' : USAcquisitionObject α) (h : s.UpdatePipeline = some s')
    (hs : s.staticActorsSound) : s'.staticActorsSound := by
  unfold USAcquisitionObject.UpdatePipeline at h
  split_ifs at h
  simp only [Option.some.injEq] at h
  subst h
  exact pipelineRewired_sound s hs

theorem AddFrame_perViews (s : USAcquisitionObject α) (image : vtkImageData α)
    (mat : Mat4 α) (timestamp : α) :
    (s.AddFrame image mat timestamp).1.m_perViews = s.m_perViews := by
  unfold USAcquisitionObject.AddFrame
  by_cases hr : s.m_isRecording = true
  · simp [hr]
  · by_cases hn : s.m_videoBuffer.GetNumberOfFrames = 0
    · simp [hr, hn, USAcquisitionObject.SetFrameAndMaskSize]
    · by_cases hd : image.dimensions.1 ≠ s.m_defaultImageSize.1 ∨
          image.dimensions.2.1 ≠ s.m_defaultImageSize.2
      · simp [hr, hn, hd]
      · simp [hr, hn, hd]

theorem Record_perViews (s s' : USAcquisitionObject α) (probe : Option (UsProbeObject α))
    (h : s.Record probe = some s') : s'.m_perViews = s.m_perViews := by
  unfold USAcquisitionObject.Record at h
  split_ifs at h
  cases probe with
  | none => simp at h
  | some p =>
    simp only [Option.some.injEq] at h
    subst h
    rw [SetEnableStaticSlices_flag]
    by_cases hok : p.isOk = true
    · simp [hok, USAcquisitionObject.SetFrameAndMaskSize]
    · simp [hok]

theorem Updated_perViews (s s' : USAcquisitionObject α) (probe : Option (UsProbeObject α))
    (h : s.Updated probe = some s') : s'.m_perViews = s.m_perViews := by
  unfold USAcquisitionObject.Updated at h
  split_ifs at h
  · cases probe with
    | none => simp at h
    | some p =>
      simp only at h
      split_ifs at h <;>
      · simp only [Option.some.injEq] at h
        subst h
        rfl
  · simp only [Option.some.injEq] at h
    subst h
    rfl

/-- In every state the operations lead to from a new object, each static actor of
each view has its slice in `m_staticSlicesData`: the reads `m_staticSlicesData[i]`
of `UpdatePipeline` are all inside the vector. -/
theorem Reachable_staticActorsSound (s : USAcquisitionObject α) (h : Reachable s) :
    s.staticActorsSound := by
  induction h with
  | new world defaultMask =>
    intro pv hpv
    exact absurd hpv (List.not_mem_nil pv)
  | AddFrame s image mat timestamp _ ih =>
    obtain ⟨h1, h2⟩ := AddFrame_static_flag s image mat timestamp
    exact staticActorsSound_of_eq s _ ih (AddFrame_perViews s image mat timestamp) h2 h1
  | Record s s' probe _ hr ih =>
    obtain ⟨h1, h2⟩ := Record_static_flag s s' probe hr
    exact staticActorsSound_of_eq s _ ih (Record_perViews s s' probe hr) h2 h1
  | Updated s s' probe _ hr ih =>
    obtain ⟨h1, h2⟩ := Updated_static_flag s s' probe hr
    exact staticActorsSound_of_eq s _ ih (Updated_perViews s s' probe hr) h2 h1
  | Stop s _ ih =>
    unfold USAcquisitionObject.Stop
    split_ifs
    · exact staticActorsSound_of_eq s _ ih rfl rfl rfl
    · exact ih
  | Clear s _ ih => exact staticActorsSound_of_eq s _ ih rfl rfl rfl
  | SetCurrentFrame s frameIndex _ ih => exact staticActorsSound_of_eq s _ ih rfl rfl rfl
  | SetCalibrationMatrix s mat _ ih => exact staticActorsSound_of_eq s _ ih rfl rfl rfl
  | SetEnableStaticSlices s enable _ ih =>
    rw [SetEnableStaticSlices_flag]
    exact staticActorsSound_of_eq s _ ih rfl rfl rfl
  | SetNumberOfStaticSlices s s' nb _ hr _ => exact SetNumberOfStaticSlices_sound s s' nb hr
  | SetUseMask s s' useMask _ hr ih =>
    exact UpdatePipeline_sound _ s' hr (staticActorsSound_of_eq s _ ih rfl rfl rfl)
  | SetUseDoppler s s' useDoppler _ hr ih =>
    exact UpdatePipeline_sound _ s' hr (staticActorsSound_of_eq s _ ih rfl rfl rfl)
  | Setup s s' view _ hr ih => exact Setup_sound s s' view hr ih
  | Release s view _ _ =>
    intro pv hpv
    exact absurd hpv (List.not_mem_nil pv)

theorem Reachable_staticActorsInCache (s : USAcquisitionObject α) (h : Reachable s) :
    s.staticActorsInCache = true :=
  staticActorsInCache_of_sound s (Reachable_staticActorsSound s h)

end ReachableStates

/-! ## Clear, export and loading -/

section ExportAndLoad

variable {α : Type} [CommRing α]

theorem translate_scale_mulVec (o s p : α × α × α) :
    (vtkTranslate o * vtkScale s).mulVec (homogeneous p) =
      homogeneous (o.1 + s.1 * p.1, o.2.1 + s.2.1 * p.2.1, o.2.2 + s.2.2 * p.2.2) := by
  funext i
  fin_cases i <;>
    simp [vtkTranslate, vtkScale, homogeneous, Matrix.mulVec, Matrix.dotProduct, Matrix.mul_apply,
      Fin.sum_univ_four] <;> ring

theorem Multiply4x4_eq_mul (a b : Mat4 α) : vtkMatrix4x4.Multiply4x4 a b = a * b := by
  ext i j
  simp [vtkMatrix4x4.Multiply4x4, Matrix.mul_apply, Fin.sum_univ_four]

theorem MultiplyPoint_eq_mulVec (m : Mat4 α) (v : Fin 4 → α) :
    vtkMatrix4x4.MultiplyPoint m v = m.mulVec v := by
  funext i
  simp [vtkMatrix4x4.MultiplyPoint, Matrix.mulVec, Matrix.dotProduct, Fin.sum_univ_four]

theorem AdjustFrame_exact (frame : vtkImageData α) (M : Mat4 α) :
    (USAcquisitionObject.AdjustFrame frame M).2 =
      M * vtkTranslate frame.origin * vtkScale frame.spacing := by
  simp [USAcquisitionObject.AdjustFrame, Multiply4x4_eq_mul]

theorem AdjustFrame_placement_exact (frame : vtkImageData α) (M : Mat4 α) (p : α × α × α) :
    vtkMatrix4x4.MultiplyPoint (USAcquisitionObject.AdjustFrame frame M).2 (homogeneous p) =
      vtkMatrix4x4.MultiplyPoint M (homogeneous (frame.pixelPosition p)) := by
  rw [MultiplyPoint_eq_mulVec, MultiplyPoint_eq_mulVec, AdjustFrame_exact, Matrix.mul_assoc,
    ← Matrix.mulVec_mulVec, translate_scale_mulVec]
  rfl

theorem GetMatrix_of_valid (s : USAcquisitionObject α) (i : Int) (h0 : 0 ≤ i)
    (h1 : i < s.GetNumberOfSlices) : ∃ T, s.m_videoBuffer.GetMatrix i = some T := by
  obtain ⟨f, hf⟩ := GetFrame_isSome s.m_videoBuffer i h0 h1
  exact ⟨f.matrix, by simp [TrackedVideoBuffer.GetMatrix, hf]⟩

theorem GetItkRGBImage_eq (s : USAcquisitionObject α) (manager : SceneManager α)
    (frameNo : Int) (masked useCalibratedTransform : Bool) (relativeToObjectID : Int) :
    s.GetItkRGBImage manager frameNo masked useCalibratedTransform relativeToObjectID =
      s.GetItkImage manager frameNo masked useCalibratedTransform relativeToObjectID := rfl

theorem GetItkImage_no_reference (s : USAcquisitionObject α) (manager : SceneManager α)
    (i : Int) (T : Mat4 α) (hT : s.m_videoBuffer.GetMatrix i = some T) (masked : Bool) :
    s.GetItkImage manager i masked true manager.InvalidId = some (T * s.m_calibrationTransform) ∧
    s.GetItkImage manager i masked false manager.InvalidId = some T := by
  simp [USAcquisitionObject.GetItkImage, hT]

theorem GetItkImage_reference (s : USAcquisitionObject α) (manager : SceneManager α)
    (i : Int) (T : Mat4 α) (hT : s.m_videoBuffer.GetMatrix i = some T) (masked : Bool)
    (id : Int) (relativeTo : SceneObject α) (hid : id ≠ manager.InvalidId)
    (hobj : manager.GetObjectByID id = some relativeTo) :
    s.GetItkImage manager i masked true id =
      some (relativeTo.worldTransformLinearInverse * (T * s.m_calibrationTransform)) ∧
    s.GetItkImage manager i masked false id =
      some (relativeTo.worldTransformLinearInverse * T) := by
  simp [USAcquisitionObject.GetItkImage, hT, hid, hobj]

/-- On an acquisition object moved by one unit along x, with identity tracked
matrix and calibration, the matrix exported for frame 0 has 0 in row 0, column 3,
and the matrix that `GetFrameData( 0 )` returns has 1 there. -/
theorem C23_counterexample_moved_object :
    (sampleMoved.GetItkImage sampleManager 0 false true sampleManager.InvalidId).map
        (fun F => F 0 3) = some 0 ∧
    (sampleMoved.GetItkRGBImage sampleManager 0 false true sampleManager.InvalidId).map
        (fun F => F 0 3) = some 0 ∧
    (sampleMoved.GetFrameData 0).map (fun r => r.2.2 0 3) = some 1 := by
  have hT : sampleMoved.m_videoBuffer.GetMatrix 0 = some 1 := by decide
  have h0 : (0 : Int) ≤ 0 := by decide
  have h1 : (0 : Int) < sampleMoved.GetNumberOfSlices := by decide
  obtain ⟨f, hf⟩ := GetFrame_isSome sampleMoved.m_videoBuffer 0 h0 h1
  have hfm : f.matrix = 1 := by
    have : sampleMoved.m_videoBuffer.GetMatrix 0 = some f.matrix := by
      simp [TrackedVideoBuffer.GetMatrix, hf]
    rw [hT] at this
    exact (Option.some.inj this).symm
  have hc : sampleMoved.m_calibrationTransform = 1 := rfl
  have hw : sampleMoved.worldTransform = vtkTranslate (1, 0, 0) := rfl
  refine ⟨?_, ?_, ?_⟩
  · rw [(GetItkImage_no_reference sampleMoved sampleManager 0 1 hT false).1, hc]
    simp
  · rw [GetItkRGBImage_eq, (GetItkImage_no_reference sampleMoved sampleManager 0 1 hT false).1, hc]
    simp
  · rw [GetFrameData_of_frame sampleMoved 0 f h0 h1 hf, hfm, hc, hw]
    simp [vtkTranslate]

/-- C23 (amended). For every valid frame index `i` with tracked matrix `T`, the
matrix that `GetItkImage` and `GetItkRGBImage` attach to the exported frame, with
`useCalibratedTransform` true and no reference object, is `T * calibration`; the
matrix that `GetFrameData( i )` returns is the world transform of the acquisition
object times that matrix, so the two are equal when the world transform is the
identity. -/
theorem C23_export_pose_omits_world_transform (s : USAcquisitionObject α)
    (manager : SceneManager α) (i : Int) (masked : Bool)
    (h0 : 0 ≤ i) (h1 : i < s.GetNumberOfSlices) :
    ∃ T, s.m_videoBuffer.GetMatrix i = some T ∧
      s.GetItkImage manager i masked true manager.InvalidId =
        some (T * s.m_calibrationTransform) ∧
      s.GetItkRGBImage manager i masked true manager.InvalidId =
        some (T * s.m_calibrationTransform) ∧
      (∃ s' slice, s.GetFrameData i =
        some (s', slice, s.worldTransform * (T * s.m_calibrationTransform))) ∧
      (s.worldTransform = 1 → ∃ s' slice, s.GetFrameData i =
        some (s', slice, T * s.m_calibrationTransform)) := by
  obtain ⟨f, hf⟩ := GetFrame_isSome s.m_videoBuffer i h0 h1
  have hT : s.m_videoBuffer.GetMatrix i = some f.matrix := by
    simp [TrackedVideoBuffer.GetMatrix, hf]
  have hd := GetFrameData_of_frame s i f h0 h1 hf
  refine ⟨f.matrix, hT, (GetItkImage_no_reference s manager i _ hT masked).1, ?_, ?_, ?_⟩
  · rw [GetItkRGBImage_eq]
    exact (GetItkImage_no_reference s manager i _ hT masked).1
  · exact ⟨_, _, by rw [hd, Matrix.mul_assoc]⟩
  · intro hw
    exact ⟨_, _, by rw [hd, hw, Matrix.one_mul]⟩

theorem C23_witness :
    (0 : Int) ≤ 0 ∧ (0 : Int) < sampleMoved.GetNumberOfSlices ∧
    ∃ T, sampleMoved.m_videoBuffer.GetMatrix 0 = some T ∧
      sampleMoved.GetItkImage sampleManager 0 false true sampleManager.InvalidId =
        some (T * sampleMoved.m_calibrationTransform) ∧
      sampleMoved.GetItkRGBImage sampleManager 0 false true sampleManager.InvalidId =
        some (T * sampleMoved.m_calibrationTransform) ∧
      (∃ s' slice, sampleMoved.GetFrameData 0 =
        some (s', slice, sampleMoved.worldTransform * (T * sampleMoved.m_calibrationTransform))) ∧
      (sampleMoved.worldTransform = 1 → ∃ s' slice, sampleMoved.GetFrameData 0 =
        some (s', slice, T * sampleMoved.m_calibrationTransform)) :=
  ⟨by decide, by decide,
    C23_export_pose_omits_world_transform sampleMoved sampleManager 0 false (by decide)
      (by decide)⟩

/-- C22. After `Clear()` the count is 0.  On an object that is not recording, the
next `AddFrame` is accepted for an image of any width and height, leaves one frame
and makes the dimensions of that image `m_defaultImageSize`; an `AddFrame` after it
is accepted exactly when its image has that width and height. -/
theorem C22_Clear_resets_count_and_frame_size (s : USAcquisitionObject α)
    (image : vtkImageData α) (mat : Mat4 α) (timestamp : α) (hidle : s.m_isRecording = false) :
    s.Clear.GetNumberOfSlices = 0 ∧
    (s.Clear.AddFrame image mat timestamp).2 = true ∧
    (s.Clear.AddFrame image mat timestamp).1.GetNumberOfSlices = 1 ∧
    (s.Clear.AddFrame image mat timestamp).1.m_defaultImageSize =
      (image.dimensions.1, image.dimensions.2.1) ∧
    ∀ (image2 : vtkImageData α) (mat2 : Mat4 α) (timestamp2 : α),
      (((s.Clear.AddFrame image mat timestamp).1.AddFrame image2 mat2 timestamp2).2 = true ↔
        image2.dimensions.1 = image.dimensions.1 ∧
          image2.dimensions.2.1 = image.dimensions.2.1) := by
  have hc : s.Clear.m_videoBuffer.GetNumberOfFrames = 0 := rfl
  have hr : s.Clear.m_isRecording = false := hidle
  have hadd : s.Clear.AddFrame image mat timestamp =
      ({ s.Clear.SetFrameAndMaskSize image.dimensions.1 image.dimensions.2.1 with
          m_videoBuffer := s.Clear.m_videoBuffer.AddFrame image mat timestamp }, true) := by
    simp [USAcquisitionObject.AddFrame, hr, hc, USAcquisitionObject.SetFrameAndMaskSize]
  refine ⟨rfl, ?_, ?_, ?_, ?_⟩
  · rw [hadd]
  · rw [hadd]
    rfl
  · rw [hadd]
    rfl
  · intro image2 mat2 timestamp2
    rw [hadd]
    have hn : ¬ ((1 : Int) = 0) := by decide
    by_cases hd : image2.dimensions.1 = image.dimensions.1 ∧
        image2.dimensions.2.1 = image.dimensions.2.1
    · obtain ⟨hd1, hd2⟩ := hd
      simp [USAcquisitionObject.AddFrame, hidle, USAcquisitionObject.Clear,
        TrackedVideoBuffer.Clear, TrackedVideoBuffer.AddFrame,
        TrackedVideoBuffer.GetNumberOfFrames, USAcquisitionObject.SetFrameAndMaskSize, hd1, hd2]
    · have hd' : image2.dimensions.1 ≠ image.dimensions.1 ∨
          image2.dimensions.2.1 ≠ image.dimensions.2.1 := by
        by_contra hcon
        push_neg at hcon
        exact hd hcon
      simp [USAcquisitionObject.AddFrame, hidle, USAcquisitionObject.Clear,
        TrackedVideoBuffer.Clear, TrackedVideoBuffer.AddFrame,
        TrackedVideoBuffer.GetNumberOfFrames, USAcquisitionObject.SetFrameAndMaskSize, hd, hd']

theorem C22_witness :
    sampleTwoFrames.m_isRecording = false ∧
    sampleTwoFrames.Clear.GetNumberOfSlices = 0 ∧
    (sampleTwoFrames.Clear.AddFrame (sampleImage 5 7 []) 1 20).2 = true ∧
    (sampleTwoFrames.Clear.AddFrame (sampleImage 5 7 []) 1 20).1.m_defaultImageSize = (5, 7) :=
  ⟨by decide,
    (C22_Clear_resets_count_and_frame_size sampleTwoFrames (sampleImage 5 7 []) 1 20
      (by decide)).1,
    (C22_Clear_resets_count_and_frame_size sampleTwoFrames (sampleImage 5 7 []) 1 20
      (by decide)).2.1,
    (C22_Clear_resets_count_and_frame_size sampleTwoFrames (sampleImage 5 7 []) 1 20
      (by decide)).2.2.2.1⟩

theorem loadFrames_flag (stod : String → α) (frames : List (Option (ItkImage α))) :
    ∀ s : USAcquisitionObject α,
      (s.loadFrames stod frames).1.m_useCalibratedTransform = s.m_useCalibratedTransform := by
  induction frames with
  | nil => intro s; rfl
  | cons f rest ih =>
    intro s
    cases f with
    | none => rfl
    | some itkImage =>
      show (USAcquisitionObject.loadFrames (s.loadFrame stod itkImage) stod
        rest).1.m_useCalibratedTransform = _
      rw [ih]
      rfl

theorem LoadGrayFrames_flag (s : USAcquisitionObject α) (stod : String → α)
    (first : MincFile α) (rest : List (MincFile α)) (itkImage : ItkImage α)
    (h : first.grayFrame = some itkImage) :
    ∃ r, s.LoadGrayFrames stod (first :: rest) = some r ∧
      (r.1.m_useCalibratedTransform = true ↔
        (∃ calMatUsed, ExposeMetaData itkImage.metaData "acquisition:calibratioMatrixApplied" =
          some calMatUsed) ∧
        ExposeMetaData itkImage.metaData "acquisition:calibratioMatrix" = some "1") := by
  simp only [USAcquisitionObject.LoadGrayFrames, h]
  refine ⟨_, rfl, ?_⟩
  rw [loadFrames_flag]
  cases hu : ExposeMetaData itkImage.metaData "acquisition:calibratioMatrixApplied" with
  | none => simp
  | some u =>
    cases hm : ExposeMetaData itkImage.metaData "acquisition:calibratioMatrix" with
    | none => simp
    | some m =>
      by_cases h1 : m = "1"
      · simp [h1]
      · simp [h1]

theorem LoadRGBFrames_flag (s : USAcquisitionObject α) (stod : String → α)
    (first : MincFile α) (rest : List (MincFile α)) (itkImage : ItkImage α)
    (h : first.rgbFrame = some itkImage) :
    ∃ r, s.LoadRGBFrames stod (first :: rest) = some r ∧
      (r.1.m_useCalibratedTransform = true ↔
        (∃ calMatUsed, ExposeMetaData itkImage.metaData "acquisition:calibratioMatrixApplied" =
          some calMatUsed) ∧
        ExposeMetaData itkImage.metaData "acquisition:calibratioMatrix" = some "1") := by
  simp only [USAcquisitionObject.LoadRGBFrames, h]
  refine ⟨_, rfl, ?_⟩
  rw [loadFrames_flag]
  cases hu : ExposeMetaData itkImage.metaData "acquisition:calibratioMatrixApplied" with
  | none => simp
  | some u =>
    cases hm : ExposeMetaData itkImage.metaData "acquisition:calibratioMatrix" with
    | none => simp
    | some m =>
      by_cases h1 : m = "1"
      · simp [h1]
      · simp [h1]

theorem calibrationMatrixString_length (number : α → Char → String) (calMatrix : Mat4 α) :
    12 ≤ (calibrationMatrixString number calMatrix).length := by
  unfold calibrationMatrixString
  simp only
  generalize hS : ([0, 1, 2] : List (Fin 4)).foldl
    (fun (acc : String) i => ([0, 1, 2, 3] : List (Fin 4)).foldl
      (fun (acc : String) j => (acc ++ number (calMatrix i j) 'f') ++ " ") acc) "" = S
  have hlen : 12 ≤ S.length := by
    rw [← hS]
    have h1 : (" " : String).length = 1 := rfl
    simp only [List.foldl, String.length_append, h1]
    omega
  have h2 : (";" : String).data.length = 1 := rfl
  have h3 : S.data.length = S.length := rfl
  simp only [QString.replace, String.length_mk, List.length_append, List.length_take,
    List.length_drop, h2, h3]
  omega

theorem calibrationMatrixString_ne_one (number : α → Char → String) (calMatrix : Mat4 α) :
    calibrationMatrixString number calMatrix ≠ "1" := by
  intro h
  have := calibrationMatrixString_length number calMatrix
  rw [h] at this
  exact absurd this (by decide)

theorem exportFrame_some (s : USAcquisitionObject α) (manager : SceneManager α)
    (number : α → Char → String) (dictionary : MetaDataDictionary) (partFileName : String)
    (masked useCalibratedTransform : Bool) (relativeToID : Int) (gray : Bool) (i : Nat)
    (e : ExportedFrame α)
    (h : s.exportFrame manager number dictionary partFileName masked useCalibratedTransform
      relativeToID gray i = some e) :
    e.fileName = numberedFileName partFileName ((i : Int) + 1) ∧
    ExposeMetaData e.metaData "acquisition:frameID" = some (QString.number (i : Int)) ∧
    ExposeMetaData e.metaData "acquisition:calibratioMatrixApplied" =
      some (if useCalibratedTransform then "1" else "0") ∧
    ExposeMetaData e.metaData "acquisition:calibratioMatrix" =
      some (calibrationMatrixString number s.m_calibrationTransform) := by
  unfold USAcquisitionObject.exportFrame at h
  simp only at h
  split at h
  · simp only [Option.some.injEq] at h
    subst h
    refine ⟨rfl, ?_, ?_, ?_⟩
    · simp [ExposeMetaData, EncapsulateMetaData]
    · simp [ExposeMetaData, EncapsulateMetaData, List.lookup]
    · simp [ExposeMetaData, EncapsulateMetaData, List.lookup]
  · simp at h

/-- C28. `LoadGrayFrames` and `LoadRGBFrames` set `m_useCalibratedTransform` to
true exactly when the first frame has an `acquisition:calibratioMatrixApplied`
entry, whatever its value, and its `acquisition:calibratioMatrix` entry is the
text "1": the value compared is `calMat`, not `calMatUsed`.  A frame written by the
export loop carries "1" or "0" under `acquisition:calibratioMatrixApplied` and the
twelve matrix entries under `acquisition:calibratioMatrix`, so loading it leaves
the flag false also when it was exported with `useCalibratedTransform` true, as the
evaluation on the exported sample frame shows. -/
theorem C28_calibration_flag_is_read_from_the_matrix_string :
    (∀ (s : USAcquisitionObject α) (stod : String → α) (first : MincFile α)
        (rest : List (MincFile α)) (itkImage : ItkImage α),
      (first.grayFrame = some itkImage →
        ∃ r, s.LoadGrayFrames stod (first :: rest) = some r ∧
          (r.1.m_useCalibratedTransform = true ↔
            (∃ calMatUsed, ExposeMetaData itkImage.metaData
              "acquisition:calibratioMatrixApplied" = some calMatUsed) ∧
            ExposeMetaData itkImage.metaData "acquisition:calibratioMatrix" = some "1")) ∧
      (first.rgbFrame = some itkImage →
        ∃ r, s.LoadRGBFrames stod (first :: rest) = some r ∧
          (r.1.m_useCalibratedTransform = true ↔
            (∃ calMatUsed, ExposeMetaData itkImage.metaData
              "acquisition:calibratioMatrixApplied" = some calMatUsed) ∧
            ExposeMetaData itkImage.metaData "acquisition:calibratioMatrix" = some "1"))) ∧
    (∀ (s t : USAcquisitionObject α) (manager : SceneManager α) (number : α → Char → String)
        (dictionary : MetaDataDictionary) (partFileName : String)
        (masked useCalibratedTransform : Bool) (relativeToID : Int) (gray : Bool)
        (e : ExportedFrame α) (stod : String → α) (first : MincFile α)
        (rest : List (MincFile α)) (itkImage : ItkImage α),
      s.exportFrame manager number dictionary partFileName masked useCalibratedTransform
        relativeToID gray 0 = some e →
      itkImage.metaData = e.metaData →
      ExposeMetaData itkImage.metaData "acquisition:calibratioMatrixApplied" =
          some (if useCalibratedTransform then "1" else "0") ∧
        (first.grayFrame = some itkImage →
          ∃ r, t.LoadGrayFrames stod (first :: rest) = some r ∧
            r.1.m_useCalibratedTransform = false) ∧
        (first.rgbFrame = some itkImage →
          ∃ r, t.LoadRGBFrames stod (first :: rest) = some r ∧
            r.1.m_useCalibratedTransform = false)) ∧
    ((sampleExportedFrame true 0).map (fun e =>
        (ExposeMetaData e.metaData "acquisition:calibratioMatrixApplied",
          ExposeMetaData e.metaData "acquisition:calibratioMatrix",
          (sampleObject.LoadGrayFrames (fun _ => 0) [sampleMincFile e.metaData]).map
            (fun r => (r.1.m_useCalibratedTransform, r.1.GetNumberOfSlices, r.2)))) =
      some (some "1",
        some "1.000000 0.000000 0.000000 0.000000 0.000000 1.000000 0.000000 0.000000 0.000000 0.000000 1.000000 0.000000;",
        some (false, 1, true))) := by
  refine ⟨?_, ?_, by decide⟩
  · intro s stod first rest itkImage
    exact ⟨LoadGrayFrames_flag s stod first rest itkImage,
      LoadRGBFrames_flag s stod first rest itkImage⟩
  · intro s t manager number dictionary partFileName masked useCalibratedTransform relativeToID
      gray e stod first rest itkImage he hmeta
    obtain ⟨_, _, happlied, hmat⟩ := exportFrame_some s manager number dictionary partFileName
      masked useCalibratedTransform relativeToID gray 0 e he
    have hne := calibrationMatrixString_ne_one number s.m_calibrationTransform
    have hnot : ¬ ((∃ calMatUsed, ExposeMetaData itkImage.metaData
          "acquisition:calibratioMatrixApplied" = some calMatUsed) ∧
        ExposeMetaData itkImage.metaData "acquisition:calibratioMatrix" = some "1") := by
      rintro ⟨_, h1⟩
      rw [hmeta, hmat] at h1
      exact hne (Option.some.inj h1)
    refine ⟨by rw [hmeta]; exact happlied, ?_, ?_⟩
    · intro hg
      obtain ⟨r, hr, hiff⟩ := LoadGrayFrames_flag t stod first rest itkImage hg
      refine ⟨r, hr, ?_⟩
      cases hb : r.1.m_useCalibratedTransform with
      | false => rfl
      | true => exact absurd (hiff.mp hb) hnot
    · intro hg
      obtain ⟨r, hr, hiff⟩ := LoadRGBFrames_flag t stod first rest itkImage hg
      refine ⟨r, hr, ?_⟩
      cases hb : r.1.m_useCalibratedTransform with
      | false => rfl
      | true => exact absurd (hiff.mp hb) hnot

theorem decimalDigit_lt : ∀ d < 10, ∀ e < 10, d < e → decimalDigit d < decimalDigit e := by
  decide

theorem fixedDigits_lt (w : Nat) : ∀ a b : Nat, a < b → b < 10 ^ w →
    ∀ s t : List Char, List.lt (fixedDigits w a ++ s) (fixedDigits w b ++ t) := by
  induction w with
  | zero =>
    intro a b hab hb
    simp at hb
    omega
  | succ w ih =>
    intro a b hab hb s t
    have hp : 0 < 10 ^ w := by positivity
    have hb' : b / 10 ^ w < 10 := by
      rw [Nat.div_lt_iff_lt_mul hp]
      calc b < 10 ^ (w + 1) := hb
        _ = 10 * 10 ^ w := by ring
    have ha' : a / 10 ^ w < 10 := lt_of_le_of_lt (Nat.div_le_div_right hab.le) hb'
    have hle : a / 10 ^ w ≤ b / 10 ^ w := Nat.div_le_div_right hab.le
    simp only [fixedDigits, List.cons_append, Nat.mod_eq_of_lt ha', Nat.mod_eq_of_lt hb']
    rcases Nat.lt_or_eq_of_le hle with hlt | heq
    · exact List.lt.head _ _ (decimalDigit_lt _ ha' _ hb' hlt)
    · rw [heq]
      refine List.lt.tail (lt_irrefl _) (lt_irrefl _) ?_
      apply ih _ _ _ (Nat.mod_lt _ hp)
      have h1 := Nat.div_add_mod a (10 ^ w)
      have h2 := Nat.div_add_mod b (10 ^ w)
      rw [heq] at h1
      omega

theorem lt_append_left_of_lt (p x y : List Char) (h : List.lt x y) :
    List.lt (p ++ x) (p ++ y) := by
  induction p with
  | nil => exact h
  | cons c p ih => exact List.lt.tail (lt_irrefl _) (lt_irrefl _) ih

theorem fixedDigits_five (n : Nat) (h : n < 100000) :
    fixedDigits 5 n = [decimalDigit (n / 10000), decimalDigit (n / 1000 % 10),
      decimalDigit (n / 100 % 10), decimalDigit (n / 10 % 10), decimalDigit (n % 10)] := by
  have p4 : 10 ^ 4 = 10000 := by norm_num
  have p3 : 10 ^ 3 = 1000 := by norm_num
  have p2 : 10 ^ 2 = 100 := by norm_num
  have e1 : n / 10000 % 10 = n / 10000 := by omega
  have e2 : n % 10000 / 1000 % 10 = n / 1000 % 10 := by omega
  have e3 : n % 10000 % 1000 / 100 % 10 = n / 100 % 10 := by omega
  have e4 : n % 10000 % 1000 % 100 / 10 % 10 = n / 10 % 10 := by omega
  have e5 : n % 10000 % 1000 % 100 % 10 / 1 % 10 = n % 10 := by omega
  simp only [fixedDigits, p4, p3, p2, pow_one, pow_zero, e1, e2, e3, e4, e5]

theorem numberedFileName_data (partFileName : String) (n : Nat) (h : n < 100000) :
    (numberedFileName partFileName (n : Int)).data =
      partFileName.data ++ ('.' :: (fixedDigits 5 n ++ ['.', 'm', 'n', 'c'])) := by
  rw [fixedDigits_five n h]
  have hneg : ¬ ((n : Int) < 0) := by omega
  unfold numberedFileName QString.number
  simp only [hneg, if_false, Int.toNat_ofNat, String.length_mk, String.data_append]
  have hmnc : (".mnc" : String).data = ['.', 'm', 'n', 'c'] := rfl
  have hdot : ("." : String).data = ['.'] := rfl
  have hz : ("0" : String).data = ['0'] := rfl
  have h0 : decimalDigit 0 = '0' := rfl
  by_cases c1 : n < 10
  · have d1 : decimalDigits 10 n = [decimalDigit n] := by simp [decimalDigits, c1]
    have f1 : n / 10000 = 0 := by omega
    have f2 : n / 1000 % 10 = 0 := by omega
    have f3 : n / 100 % 10 = 0 := by omega
    have f4 : n / 10 % 10 = 0 := by omega
    have f5 : n % 10 = n := by omega
    rw [d1, f1, f2, f3, f4, f5, h0]
    simp [List.range, List.range.loop, List.foldl, hmnc, hdot, hz]
  · by_cases c2 : n < 100
    · have d1 : decimalDigits 10 n = [decimalDigit (n / 10), decimalDigit (n % 10)] := by
        have : n / 10 < 10 := by omega
        simp [decimalDigits, c1, this]
      have f1 : n / 10000 = 0 := by omega
      have f2 : n / 1000 % 10 = 0 := by omega
      have f3 : n / 100 % 10 = 0 := by omega
      have f4 : n / 10 % 10 = n / 10 := by omega
      rw [d1, f1, f2, f3, f4, h0]
      simp [List.range, List.range.loop, List.foldl, hmnc, hdot, hz]
    · by_cases c3 : n < 1000
      · have d1 : decimalDigits 10 n =
            [decimalDigit (n / 100), decimalDigit (n / 10 % 10), decimalDigit (n % 10)] := by
          have a1 : ¬ n / 10 < 10 := by omega
          have a2 : n / 100 < 10 := by omega
          simp [decimalDigits, c1, a1, a2, Nat.div_div_eq_div_mul]
        have f1 : n / 10000 = 0 := by omega
        have f2 : n / 1000 % 10 = 0 := by omega
        have f3 : n / 100 % 10 = n / 100 := by omega
        rw [d1, f1, f2, f3, h0]
        simp [List.range, List.range.loop, List.foldl, hmnc, hdot, hz]
      · by_cases c4 : n < 10000
        · have d1 : decimalDigits 10 n =
              [decimalDigit (n / 1000), decimalDigit (n / 100 % 10), decimalDigit (n / 10 % 10),
                decimalDigit (n % 10)] := by
            have a1 : ¬ n / 10 < 10 := by omega
            have a2 : ¬ n / 100 < 10 := by omega
            have a3 : n / 1000 < 10 := by omega
            simp [decimalDigits, c1, a1, a2, a3, Nat.div_div_eq_div_mul]
          have f1 : n / 10000 = 0 := by omega
          have f2 : n / 1000 % 10 = n / 1000 := by omega
          rw [d1, f1, f2, h0]
          simp [List.range, List.range.loop, List.foldl, hmnc, hdot, hz]
        · have d1 : decimalDigits 10 n =
              [decimalDigit (n / 10000), decimalDigit (n / 1000 % 10),
                decimalDigit (n / 100 % 10), decimalDigit (n / 10 % 10),
                decimalDigit (n % 10)] := by
            have a1 : ¬ n / 10 < 10 := by omega
            have a2 : ¬ n / 100 < 10 := by omega
            have a3 : ¬ n / 1000 < 10 := by omega
            have a4 : n / 10000 < 10 := by omega
            simp [decimalDigits, c1, a1, a2, a3, a4, Nat.div_div_eq_div_mul]
          rw [d1]
          simp [List.range, List.range.loop, List.foldl, hmnc, hdot, hz]

theorem numberedFileName_lt (partFileName : String) (a b : Nat) (hab : a < b)
    (hb : b < 100000) :
    QDir.Name (numberedFileName partFileName (a : Int))
      (numberedFileName partFileName (b : Int)) := by
  unfold QDir.Name
  rw [numberedFileName_data partFileName a (by omega), numberedFileName_data partFileName b hb]
  apply lt_append_left_of_lt
  exact List.lt.tail (lt_irrefl _) (lt_irrefl _) (fixedDigits_lt 5 a b hab (by norm_num; omega) _ _)


theorem QDir_Name_irrefl (a : String) : ¬ QDir.Name a a := by
  unfold QDir.Name
  generalize a.data = l
  induction l with
  | nil => intro h; cases h
  | cons c l ih =>
    intro h
    cases h with
    | head _ _ h1 => exact lt_irrefl _ h1
    | tail _ _ h3 => exact ih h3

/-- C24. For the frames `i < j < 99999`, whose sequence numbers have at most five
digits, the file of frame `i` sorts strictly before the file of frame `j` in the
order of `QDir::Name` and the two names differ; the file of frame `i` is named with
the sequence number `i + 1` and carries the frame id `i`.  Frame 99998 is written to
`acq/7.99999.mnc` and frame 99999 to `acq/7.100000.mnc`, which sorts before it. -/
theorem C24_file_names_sort_up_to_99999 :
    (∀ (partFileName : String) (i j : Nat), i < j → j < 99999 →
      QDir.Name (numberedFileName partFileName ((i : Int) + 1))
          (numberedFileName partFileName ((j : Int) + 1)) ∧
        numberedFileName partFileName ((i : Int) + 1) ≠
          numberedFileName partFileName ((j : Int) + 1)) ∧
    (∀ (s : USAcquisitionObject α) (manager : SceneManager α) (number : α → Char → String)
        (dictionary : MetaDataDictionary) (partFileName : String)
        (masked useCalibratedTransform : Bool) (relativeToID : Int) (gray : Bool) (i : Nat)
        (e : ExportedFrame α),
      s.exportFrame manager number dictionary partFileName masked useCalibratedTransform
        relativeToID gray i = some e →
      e.fileName = numberedFileName partFileName ((i : Int) + 1) ∧
        ExposeMetaData e.metaData "acquisition:frameID" = some (QString.number (i : Int))) ∧
    numberedFileName "acq/7" ((99998 : Nat) + 1 : Int) = "acq/7.99999.mnc" ∧
    numberedFileName "acq/7" ((99999 : Nat) + 1 : Int) = "acq/7.100000.mnc" ∧
    QDir.Name (numberedFileName "acq/7" ((99999 : Nat) + 1 : Int))
      (numberedFileName "acq/7" ((99998 : Nat) + 1 : Int)) ∧
    ¬ QDir.Name (numberedFileName "acq/7" ((99998 : Nat) + 1 : Int))
      (numberedFileName "acq/7" ((99999 : Nat) + 1 : Int)) := by
  refine ⟨?_, ?_, by decide, by decide, by decide, by decide⟩
  · intro partFileName i j hij hj
    have h := numberedFileName_lt partFileName (i + 1) (j + 1) (by omega) (by omega)
    have e1 : ((i + 1 : Nat) : Int) = (i : Int) + 1 := by push_cast; rfl
    have e2 : ((j + 1 : Nat) : Int) = (j : Int) + 1 := by push_cast; rfl
    rw [e1, e2] at h
    refine ⟨h, ?_⟩
    intro heq
    rw [heq] at h
    exact QDir_Name_irrefl _ h
  · intro s manager number dictionary partFileName masked useCalibratedTransform relativeToID
      gray i e he
    obtain ⟨h1, h2, _, _⟩ := exportFrame_some s manager number dictionary partFileName masked
      useCalibratedTransform relativeToID gray i e he
    exact ⟨h1, h2⟩

end ExportAndLoad

/-! ## The selection of a `PointsObject` -/

section PointsSelection

variable {α : Type}

theorem samePoints_refl (p : PointsObject α) : p.samePoints p :=
  ⟨rfl, rfl, rfl, rfl, rfl⟩

theorem samePoints_trans (p q r : PointsObject α) (h1 : p.samePoints q) (h2 : q.samePoints r) :
    p.samePoints r := by
  obtain ⟨a1, a2, a3, a4, a5⟩ := h1
  obtain ⟨b1, b2, b3, b4, b5⟩ := h2
  exact ⟨b1.trans a1, b2.trans a2, b3.trans a3, b4.trans a4, b5.trans a5⟩

theorem listsAligned_of_samePoints (p q : PointsObject α) (h : p.samePoints q)
    (ha : p.listsAligned) : q.listsAligned := by
  obtain ⟨a1, a2, a3, _, a5⟩ := h
  obtain ⟨b1, b2, b3⟩ := ha
  unfold PointsObject.listsAligned
  rw [a1, a2, a3, a5]
  exact ⟨b1, b2, b3⟩

theorem UpdatePointProperties_samePoints (p q : PointsObject α) (index : Int)
    (h : p.UpdatePointProperties index = some q) : p.samePoints q := by
  unfold PointsObject.UpdatePointProperties at h
  split_ifs at h
  split at h
  · simp only [Option.some.injEq] at h
    subst h
    exact ⟨rfl, rfl, rfl, rfl, by simp⟩
  · simp at h

theorem UpdatePointProperties_total (p : PointsObject α) (i : Nat) (ha : p.listsAligned)
    (hi : i < p.m_pointCoordinates.length) :
    ∃ q, p.UpdatePointProperties (i : Int) = some q := by
  obtain ⟨b1, b2, b3⟩ := ha
  have h1 : i < p.m_pointList.length := by omega
  have h2 : i < p.m_pointNames.length := by omega
  unfold PointsObject.UpdatePointProperties
  have hc : (0 : Int) ≤ (i : Int) ∧ (i : Int) < (p.m_pointList.length : Int) := by
    constructor
    · omega
    · exact_mod_cast h1
  rw [if_pos hc]
  simp only [Int.toNat_ofNat, List.getElem?_eq_getElem h1, List.getElem?_eq_getElem h2,
    List.getElem?_eq_getElem hi]
  exact ⟨_, rfl⟩

theorem foldlM_UpdatePointProperties (l : List Nat) :
    ∀ p : PointsObject α, p.listsAligned → (∀ i ∈ l, i < p.m_pointCoordinates.length) →
      ∃ q, l.foldlM (fun (q : PointsObject α) (i : Nat) => q.UpdatePointProperties (i : Int)) p =
        some q ∧ p.samePoints q := by
  induction l with
  | nil =>
    intro p _ _
    exact ⟨p, rfl, samePoints_refl p⟩
  | cons i rest ih =>
    intro p ha hl
    obtain ⟨q1, hq1⟩ := UpdatePointProperties_total p i ha (hl i (List.mem_cons_self i rest))
    have hs1 := UpdatePointProperties_samePoints p q1 _ hq1
    have ha1 := listsAligned_of_samePoints p q1 hs1 ha
    obtain ⟨q, hq, hs⟩ := ih q1 ha1 (by
      intro j hj
      rw [hs1.1]
      exact hl j (List.mem_cons_of_mem i hj))
    refine ⟨q, ?_, samePoints_trans p q1 q hs1 hs⟩
    simp only [List.foldlM_cons, hq1]
    exact hq

theorem UpdatePoints_total (p : PointsObject α) (ha : p.listsAligned) :
    ∃ q, p.UpdatePoints = some q ∧ p.samePoints q := by
  unfold PointsObject.UpdatePoints
  apply foldlM_UpdatePointProperties _ p ha
  intro i hi
  rw [List.mem_range] at hi
  rw [← ha.2.2]
  exact hi

theorem AddPointLocal_total (p : PointsObject α) (coords : α × α × α)
    (name timestamp now : String) (ha : p.listsAligned) :
    ∃ q, p.AddPointLocal coords name timestamp now = some q ∧ q.listsAligned ∧
      q.m_pointCoordinates = p.m_pointCoordinates ++ [coords] ∧
      q.m_selectedPointIndex = p.m_selectedPointIndex := by
  obtain ⟨b1, b2, b3⟩ := ha
  unfold PointsObject.AddPointLocal
  simp only
  generalize (if name.isEmpty = true then QString.number (p.GetNumberOfPoints + 1) else name) = nm
  generalize (if timestamp.isEmpty = true then now else timestamp) = ts
  have hal : PointsObject.listsAligned
      ({ p with m_pointNames := p.m_pointNames ++ [nm]
                m_pointCoordinates := p.m_pointCoordinates ++ [coords]
                m_timeStamps := p.m_timeStamps ++ [ts]
                m_pointList := p.m_pointList ++
                  [{ name := nm, pointIndex := (p.m_pointList.length : Int), position := coords
                     label := nm, active := true, propertyColor := none }] } :
        PointsObject α) := by
    unfold PointsObject.listsAligned
    simp only [List.length_append, List.length_singleton]
    omega
  obtain ⟨q, hq⟩ := UpdatePointProperties_total _ p.m_pointList.length hal (by
    simp only [List.length_append, List.length_singleton]
    omega)
  have hs := UpdatePointProperties_samePoints _ q _ hq
  exact ⟨q, hq, listsAligned_of_samePoints _ q hs hal, hs.1, hs.2.2.2.1⟩

theorem SetSelectedPoint_total (p : PointsObject α) (index : Int) (ha : p.listsAligned) :
    ∃ q, p.SetSelectedPoint index = some q ∧ q.listsAligned ∧
      q.m_pointCoordinates = p.m_pointCoordinates ∧
      q.m_selectedPointIndex =
        (if index ≠ -1 ∧ index < p.m_pointCoordinates.length then index
          else p.m_selectedPointIndex) := by
  unfold PointsObject.SetSelectedPoint PointsObject.InvalidPointIndex
  by_cases hc : index ≠ -1 ∧ index < p.m_pointCoordinates.length
  · rw [if_pos hc, if_pos hc]
    obtain ⟨q, hq, hs⟩ := UpdatePoints_total { p with m_selectedPointIndex := index } ha
    exact ⟨q, hq, listsAligned_of_samePoints _ q hs ha, hs.1, hs.2.2.2.1⟩
  · rw [if_neg hc, if_neg hc]
    exact ⟨p, rfl, ha, rfl, rfl⟩

theorem UnselectAllPoints_total (p : PointsObject α) (ha : p.listsAligned) :
    ∃ q, p.UnselectAllPoints = some q ∧ q.listsAligned ∧
      q.m_pointCoordinates = p.m_pointCoordinates ∧ q.m_selectedPointIndex = -1 := by
  unfold PointsObject.UnselectAllPoints
  obtain ⟨q, hq, hs⟩ := UpdatePoints_total
    { p with m_selectedPointIndex := PointsObject.InvalidPointIndex } ha
  exact ⟨q, hq, listsAligned_of_samePoints _ q hs ha, hs.1, hs.2.2.2.1⟩

theorem RemovePoint_total (p : PointsObject α) (index : Int) (ha : p.listsAligned)
    (h0 : 0 ≤ index) (h1 : index < p.m_pointCoordinates.length) :
    ∃ q, p.RemovePoint index = some q ∧ q.listsAligned ∧
      q.m_pointCoordinates = p.m_pointCoordinates.eraseIdx index.toNat ∧
      (q.m_pointCoordinates.length : Int) = p.m_pointCoordinates.length - 1 ∧
      q.m_selectedPointIndex =
        (if p.m_selectedPointIndex ≥ (p.m_pointCoordinates.length : Int) - 1 then
          (if (p.m_pointCoordinates.length : Int) - 1 > 0 then
            (p.m_pointCoordinates.length : Int) - 1 - 1 else -1)
          else p.m_selectedPointIndex) := by
  obtain ⟨b1, b2, b3⟩ := ha
  have hi : index.toNat < p.m_pointCoordinates.length := by omega
  have hlen : (p.m_pointCoordinates.eraseIdx index.toNat).length =
      p.m_pointCoordinates.length - 1 := List.length_eraseIdx_of_lt hi
  have hlenI : ((p.m_pointCoordinates.eraseIdx index.toNat).length : Int) =
      (p.m_pointCoordinates.length : Int) - 1 := by
    rw [hlen]
    omega
  unfold PointsObject.RemovePoint
  rw [if_pos ⟨h0, h1⟩]
  simp only [PointsObject.GetNumberOfPoints, PointsObject.InvalidPointIndex, hlenI]
  have hal : ∀ sel : Int, PointsObject.listsAligned
      ({ p with m_pointCoordinates := p.m_pointCoordinates.eraseIdx index.toNat
                m_pointNames := p.m_pointNames.eraseIdx index.toNat
                m_timeStamps := p.m_timeStamps.eraseIdx index.toNat
                m_pointList := (List.range (p.m_pointList.eraseIdx index.toNat).length).zipWith
                  (fun (i : Nat) (pt : PointRepresentation α) =>
                    { pt with pointIndex := (i : Int) }) (p.m_pointList.eraseIdx index.toNat)
                m_selectedPointIndex := sel } : PointsObject α) := by
    intro sel
    unfold PointsObject.listsAligned
    simp only [List.length_zipWith, List.length_range, min_self]
    rw [List.length_eraseIdx_of_lt (by omega : index.toNat < p.m_pointNames.length),
      List.length_eraseIdx_of_lt (by omega : index.toNat < p.m_timeStamps.length),
      List.length_eraseIdx_of_lt (by omega : index.toNat < p.m_pointList.length), hlen]
    omega
  by_cases c1 : p.m_selectedPointIndex ≥ (p.m_pointCoordinates.length : Int) - 1
  · by_cases c2 : (p.m_pointCoordinates.length : Int) - 1 > 0
    · simp only [c1, c2, if_true]
      obtain ⟨q, hq, hs⟩ :=
        UpdatePoints_total _ (hal ((p.m_pointCoordinates.length : Int) - 1 - 1))
      exact ⟨q, hq, listsAligned_of_samePoints _ q hs (hal _), hs.1,
        by rw [hs.1]; exact hlenI, hs.2.2.2.1⟩
    · simp only [c1, c2, if_true, if_false]
      obtain ⟨q, hq, hs⟩ := UpdatePoints_total _ (hal (-1))
      exact ⟨q, hq, listsAligned_of_samePoints _ q hs (hal _), hs.1,
        by rw [hs.1]; exact hlenI, hs.2.2.2.1⟩
  · simp only [c1, if_false]
    obtain ⟨q, hq, hs⟩ := UpdatePoints_total _ (hal p.m_selectedPointIndex)
    exact ⟨q, hq, listsAligned_of_samePoints _ q hs (hal _), hs.1,
      by rw [hs.1]; exact hlenI, hs.2.2.2.1⟩

theorem Reachable_points_invariant (allowed : Int → Prop) (p : PointsObject α)
    (h : PointsObject.Reachable allowed p) :
    p.listsAligned ∧ p.m_selectedPointIndex < p.m_pointCoordinates.length ∧
      ((∀ i, allowed i → -1 ≤ i) → -1 ≤ p.m_selectedPointIndex) := by
  induction h with
  | new =>
    refine ⟨⟨rfl, rfl, rfl⟩, ?_, fun _ => ?_⟩
    · show (-1 : Int) < ((0 : Nat) : Int)
      decide
    · show (-1 : Int) ≤ -1
      decide
  | AddPointLocal p p' coords name timestamp now _ hr ih =>
    obtain ⟨ha, hsel, hlow⟩ := ih
    obtain ⟨q, hq, hqa, hqc, hqs⟩ := AddPointLocal_total p coords name timestamp now ha
    rw [hr] at hq
    cases hq
    refine ⟨hqa, ?_, fun hall => ?_⟩
    · rw [hqs, hqc, List.length_append, List.length_singleton]
      push_cast
      omega
    · rw [hqs]
      exact hlow hall
  | RemovePoint p p' index _ hr ih =>
    obtain ⟨ha, hsel, hlow⟩ := ih
    by_cases hc : 0 ≤ index ∧ index < p.m_pointCoordinates.length
    · obtain ⟨q, hq, hqa, _, hql, hqs⟩ := RemovePoint_total p index ha hc.1 hc.2
      rw [hr] at hq
      cases hq
      refine ⟨hqa, ?_, fun hall => ?_⟩
      · rw [hqs, hql]
        split_ifs <;> omega
      · have := hlow hall
        rw [hqs]
        split_ifs <;> omega
    · simp [PointsObject.RemovePoint, hc] at hr
  | SetSelectedPoint p p' index _ hallowed hr ih =>
    obtain ⟨ha, hsel, hlow⟩ := ih
    obtain ⟨q, hq, hqa, hqc, hqs⟩ := SetSelectedPoint_total p index ha
    rw [hr] at hq
    cases hq
    refine ⟨hqa, ?_, fun hall => ?_⟩
    · rw [hqs, hqc]
      split_ifs with hc
      · exact hc.2
      · exact hsel
    · have h1 := hlow hall
      have h2 := hall index hallowed
      rw [hqs]
      split_ifs <;> omega
  | UnselectAllPoints p p' _ hr ih =>
    obtain ⟨ha, hsel, hlow⟩ := ih
    obtain ⟨q, hq, hqa, hqc, hqs⟩ := UnselectAllPoints_total p ha
    rw [hr] at hq
    cases hq
    refine ⟨hqa, ?_, fun _ => ?_⟩
    · rw [hqs, hqc]
      omega
    · rw [hqs]

/-- C29. In every state that `AddPointLocal`, `RemovePoint`, `SetSelectedPoint`
(with any integer) and `UnselectAllPoints` lead to from a new `PointsObject`, the
name, timestamp and representation lists have the length of the coordinate list,
the selected index is below the number of points, and each of the four operations
returns (`RemovePoint` for an index of a point).  When `SetSelectedPoint` is only
given integers from -1 on, the selected index is `InvalidPointIndex` or the index
of a point.  `SetSelectedPoint( -2 )` on a new object, and `SetSelectedPoint( -7 )`
on an object with two points, store -2 and -7 as the selected index. -/
theorem C29_SetSelectedPoint_accepts_negative_indices :
    (∀ p : PointsObject α, PointsObject.Reachable (fun _ => True) p →
      p.listsAligned ∧ p.m_selectedPointIndex < p.GetNumberOfPoints ∧
      (∀ coords name timestamp now, ∃ q, p.AddPointLocal coords name timestamp now = some q) ∧
      (∀ index, ∃ q, p.SetSelectedPoint index = some q) ∧
      (∃ q, p.UnselectAllPoints = some q) ∧
      (∀ index, 0 ≤ index → index < p.GetNumberOfPoints → ∃ q, p.RemovePoint index = some q)) ∧
    (∀ p : PointsObject α, PointsObject.Reachable (fun index => -1 ≤ index) p →
      p.m_selectedPointIndex = PointsObject.InvalidPointIndex ∨
        (0 ≤ p.m_selectedPointIndex ∧ p.m_selectedPointIndex < p.GetNumberOfPoints)) ∧
    ((PointsObject.new : PointsObject ℤ).SetSelectedPoint (-2)).map
        (fun q => (q.m_selectedPointIndex, q.GetNumberOfPoints)) = some (-2, 0) ∧
    ((((PointsObject.new : PointsObject ℤ).AddPointLocal (1, 2, 3) "" "" "now").bind
        (fun q => q.AddPointLocal (4, 5, 6) "" "" "now")).bind
        (fun q => q.SetSelectedPoint (-7))).map
        (fun q => (q.m_selectedPointIndex, q.GetNumberOfPoints, q.m_pointNames)) =
      some (-7, 2, ["1", "2"]) := by
  refine ⟨?_, ?_, by decide, by decide⟩
  · intro p hp
    obtain ⟨ha, hsel, _⟩ := Reachable_points_invariant _ p hp
    refine ⟨ha, hsel, ?_, ?_, ?_, ?_⟩
    · intro coords name timestamp now
      obtain ⟨q, hq, _⟩ := AddPointLocal_total p coords name timestamp now ha
      exact ⟨q, hq⟩
    · intro index
      obtain ⟨q, hq, _⟩ := SetSelectedPoint_total p index ha
      exact ⟨q, hq⟩
    · obtain ⟨q, hq, _⟩ := UnselectAllPoints_total p ha
      exact ⟨q, hq⟩
    · intro index h0 h1
      obtain ⟨q, hq, _⟩ := RemovePoint_total p index ha h0 h1
      exact ⟨q, hq⟩
  · intro p hp
    obtain ⟨ha, hsel, hlow⟩ := Reachable_points_invariant _ p hp
    have h1 := hlow (fun i hi => hi)
    unfold PointsObject.InvalidPointIndex PointsObject.GetNumberOfPoints
    omega

end PointsSelection

/-! ## Rounding to a double and the order of the sampled indices -/

section SampledIndexOrder

theorem roundToDouble_binade (a b : Nat) (ha : a ≠ 0) (hb : 0 < b) :
    ∃ m k j : Nat, roundToDouble a b = (m * 2 ^ j, 2 ^ k) ∧
      (b * 2 ^ j) * 2 ^ 52 ≤ a * 2 ^ k ∧ a * 2 ^ k < (b * 2 ^ j) * 2 ^ 53 ∧
      2 * (m * (b * 2 ^ j)) ≤ 2 * (a * 2 ^ k) + b * 2 ^ j ∧
      2 * (a * 2 ^ k) ≤ 2 * (m * (b * 2 ^ j)) + b * 2 ^ j := by
  have hup : b * 2 ^ 52 ≤ a * 2 ^ scaleUp (b + 52) a b := by
    apply scaleUp_spec
    have h1 : b < 2 ^ b := Nat.lt_two_pow b
    have h2 : 1 ≤ a := Nat.one_le_iff_ne_zero.mpr ha
    rw [pow_add]
    nlinarith [Nat.mul_le_mul h2 (Nat.mul_le_mul_right (2 ^ 52) h1.le)]
  generalize hk : scaleUp (b + 52) a b = k at hup
  have hdown := scaleDown_spec (a * 2 ^ k) (a * 2 ^ k) b hup
  have hfuel : a * 2 ^ k < b * 2 ^ (a * 2 ^ k) * 2 ^ 53 := by
    have h1 : a * 2 ^ k < 2 ^ (a * 2 ^ k) := Nat.lt_two_pow _
    have h2 : 2 ^ (a * 2 ^ k) ≤ b * 2 ^ (a * 2 ^ k) * 2 ^ 53 := by
      have : 1 ≤ b * 2 ^ 53 := Nat.mul_pos hb (by positivity)
      calc 2 ^ (a * 2 ^ k) = 1 * 2 ^ (a * 2 ^ k) := by ring
        _ ≤ (b * 2 ^ 53) * 2 ^ (a * 2 ^ k) := Nat.mul_le_mul_right _ this
        _ = b * 2 ^ (a * 2 ^ k) * 2 ^ 53 := by ring
    omega
  have hlt := scaleDown_lt (a * 2 ^ k) (a * 2 ^ k) b hfuel
  generalize hj : scaleDown (a * 2 ^ k) (a * 2 ^ k) b = j at hdown hlt
  have hB : 0 < b * 2 ^ j := Nat.mul_pos hb (by positivity)
  refine ⟨roundHalfEven (a * 2 ^ k) (b * 2 ^ j), k, j, ?_, hdown, hlt,
    roundHalfEven_le (a * 2 ^ k) (b * 2 ^ j) hB, roundHalfEven_ge (a * 2 ^ k) (b * 2 ^ j) hB⟩
  simp [roundToDouble, ha, hk, hj]

/-- The value of a rounded quotient and its unit in the last place, for a
quotient below `2 ^ 53`: the result is `m / 2 ^ e`, a multiple of the unit
`1 / 2 ^ e` of the binade of `a / b`, within half a unit of `a / b`. -/
theorem roundToDouble_unit (a b : Nat) (ha : a ≠ 0) (hb : 0 < b) (hlt : a < b * 2 ^ 53) :
    ∃ m e : Nat,
      ((roundToDouble a b).1 : ℚ) / ((roundToDouble a b).2 : ℚ) = (m : ℚ) / 2 ^ e ∧
      (2 : ℚ) ^ 52 / 2 ^ e ≤ (a : ℚ) / b ∧ (a : ℚ) / b < 2 ^ 53 / 2 ^ e ∧
      (m : ℚ) / 2 ^ e ≤ (a : ℚ) / b + 1 / 2 ^ e / 2 ∧
      (a : ℚ) / b ≤ (m : ℚ) / 2 ^ e + 1 / 2 ^ e / 2 := by
  obtain ⟨m, k, j, hr, h52, h53, hle, hge⟩ := roundToDouble_binade a b ha hb
  have hjk : j ≤ k := by
    by_contra hcon
    have hkj : k + 1 ≤ j := by omega
    have h1 : 2 ^ (k + 1) ≤ 2 ^ j := Nat.pow_le_pow_right (by norm_num) hkj
    have h2 : b * 2 ^ (k + 1) * 2 ^ 52 ≤ b * 2 ^ j * 2 ^ 52 :=
      Nat.mul_le_mul_right _ (Nat.mul_le_mul_left _ h1)
    have h3 : a * 2 ^ k < b * 2 ^ 53 * 2 ^ k := Nat.mul_lt_mul_of_pos_right hlt (by positivity)
    have e : b * 2 ^ (k + 1) * 2 ^ 52 = b * 2 ^ 53 * 2 ^ k := by ring
    omega
  obtain ⟨e, rfl⟩ : ∃ e, k = j + e := ⟨k - j, by omega⟩
  have hbq : (0 : ℚ) < b := by exact_mod_cast hb
  have h2j : (0 : ℚ) < 2 ^ j := by positivity
  have h2e : (0 : ℚ) < 2 ^ e := by positivity
  have c52 : ((b : ℚ) * 2 ^ j) * 2 ^ 52 ≤ (a : ℚ) * 2 ^ (j + e) := by exact_mod_cast h52
  have c53 : (a : ℚ) * 2 ^ (j + e) < ((b : ℚ) * 2 ^ j) * 2 ^ 53 := by exact_mod_cast h53
  have cle : 2 * ((m : ℚ) * ((b : ℚ) * 2 ^ j)) ≤ 2 * ((a : ℚ) * 2 ^ (j + e)) + (b : ℚ) * 2 ^ j := by
    exact_mod_cast hle
  have cge : 2 * ((a : ℚ) * 2 ^ (j + e)) ≤ 2 * ((m : ℚ) * ((b : ℚ) * 2 ^ j)) + (b : ℚ) * 2 ^ j := by
    exact_mod_cast hge
  rw [pow_add] at c52 c53 cle cge
  generalize hE : (2 : ℚ) ^ e = E at *
  generalize hP : (2 : ℚ) ^ j = P at *
  have d52 : (b : ℚ) * 2 ^ 52 ≤ (a : ℚ) * E := by
    have : P * ((b : ℚ) * 2 ^ 52) ≤ P * ((a : ℚ) * E) := by nlinarith
    exact le_of_mul_le_mul_left this h2j
  have d53 : (a : ℚ) * E < (b : ℚ) * 2 ^ 53 := by
    have : P * ((a : ℚ) * E) < P * ((b : ℚ) * 2 ^ 53) := by nlinarith
    exact lt_of_mul_lt_mul_left this h2j.le
  have dle : 2 * ((m : ℚ) * b) ≤ 2 * ((a : ℚ) * E) + b := by
    have : P * (2 * ((m : ℚ) * b)) ≤ P * (2 * ((a : ℚ) * E) + b) := by nlinarith
    exact le_of_mul_le_mul_left this h2j
  have dge : 2 * ((a : ℚ) * E) ≤ 2 * ((m : ℚ) * b) + b := by
    have : P * (2 * ((a : ℚ) * E)) ≤ P * (2 * ((m : ℚ) * b) + b) := by nlinarith
    exact le_of_mul_le_mul_left this h2j
  have hden : (0 : ℚ) < 2 * b * E := by positivity
  refine ⟨m, e, ?_, ?_, ?_, ?_, ?_⟩
  · rw [hr]
    push_cast
    rw [pow_add, hE, hP]
    field_simp
    ring
  · rw [hE, ← sub_nonneg]
    have e1 : (a : ℚ) / b - 2 ^ 52 / E = ((a : ℚ) * E - b * 2 ^ 52) / (b * E) := by
      field_simp
    rw [e1]
    exact div_nonneg (by linarith) (by positivity)
  · rw [hE, ← sub_pos]
    have e1 : (2 : ℚ) ^ 53 / E - (a : ℚ) / b = ((b : ℚ) * 2 ^ 53 - a * E) / (b * E) := by
      field_simp
      ring
    rw [e1]
    exact div_pos (by linarith) (by positivity)
  · rw [hE, ← sub_nonneg]
    have e1 : (a : ℚ) / b + 1 / E / 2 - (m : ℚ) / E =
        (2 * ((a : ℚ) * E) + b - 2 * ((m : ℚ) * b)) / (2 * b * E) := by
      field_simp
      ring
    rw [e1]
    exact div_nonneg (by linarith) hden.le
  · rw [hE, ← sub_nonneg]
    have e1 : (m : ℚ) / E + 1 / E / 2 - (a : ℚ) / b =
        (2 * ((m : ℚ) * b) + b - 2 * ((a : ℚ) * E)) / (2 * b * E) := by
      field_simp
      ring
    rw [e1]
    exact div_nonneg (by linarith) hden.le

theorem roundToDouble_zero (b : Nat) : roundToDouble 0 b = (0, 1) := by
  simp [roundToDouble]

theorem roundToDouble_ge_nat (a b M : Nat) (hb : 0 < b) (hlt : a < b * 2 ^ 53)
    (hM : (M : ℚ) ≤ (a : ℚ) / b) :
    (M : ℚ) ≤ ((roundToDouble a b).1 : ℚ) / ((roundToDouble a b).2 : ℚ) := by
  by_cases ha : a = 0
  · subst ha
    rw [roundToDouble_zero]
    simpa using hM
  · obtain ⟨m, e, hv, _, _, _, hge⟩ := roundToDouble_unit a b ha hb hlt
    rw [hv]
    have hE : (0 : ℚ) < 2 ^ e := by positivity
    by_contra hcon
    push_neg at hcon
    rw [div_lt_iff₀ hE] at hcon
    have h1 : m < M * 2 ^ e := by exact_mod_cast hcon
    have h2 : ((m + 1 : ℕ) : ℚ) ≤ ((M * 2 ^ e : ℕ) : ℚ) := by exact_mod_cast h1
    push_cast at h2
    have h3 : ((m : ℚ) + 1) / 2 ^ e ≤ M := by
      rw [div_le_iff₀ hE]
      exact h2
    have h4 : ((m : ℚ) + 1) / 2 ^ e = (m : ℚ) / 2 ^ e + 1 / 2 ^ e := by ring
    have h5 : (0 : ℚ) < 1 / 2 ^ e := by positivity
    linarith

theorem roundToDouble_le_nat (a b M : Nat) (hb : 0 < b) (hlt : a < b * 2 ^ 53)
    (hM : (a : ℚ) / b ≤ (M : ℚ)) :
    ((roundToDouble a b).1 : ℚ) / ((roundToDouble a b).2 : ℚ) ≤ (M : ℚ) := by
  by_cases ha : a = 0
  · subst ha
    rw [roundToDouble_zero]
    simp
  · obtain ⟨m, e, hv, _, _, hle, _⟩ := roundToDouble_unit a b ha hb hlt
    rw [hv]
    have hE : (0 : ℚ) < 2 ^ e := by positivity
    by_contra hcon
    push_neg at hcon
    rw [lt_div_iff₀ hE] at hcon
    have h1 : M * 2 ^ e < m := by exact_mod_cast hcon
    have h2 : ((M * 2 ^ e + 1 : ℕ) : ℚ) ≤ (m : ℚ) := by exact_mod_cast h1
    push_cast at h2
    have h3 : (M : ℚ) + 1 / 2 ^ e ≤ (m : ℚ) / 2 ^ e := by
      rw [le_div_iff₀ hE]
      have : ((M : ℚ) + 1 / 2 ^ e) * 2 ^ e = (M : ℚ) * 2 ^ e + 1 := by
        field_simp
      rw [this]
      exact h2
    have h5 : (0 : ℚ) < 1 / 2 ^ e := by positivity
    linarith

/-- Two quotients over the same denominator whose roundings do not step over the
integer `M + 1`, the smaller rounding being at least `M`, are at most 1 apart. -/
theorem roundToDouble_gap (a a' b M : Nat) (ha : a ≠ 0) (hb : 0 < b)
    (hlt : a' < b * 2 ^ 53) (haa : a ≤ a')
    (h1 : (M : ℚ) ≤ ((roundToDouble a b).1 : ℚ) / ((roundToDouble a b).2 : ℚ))
    (h2 : ((roundToDouble a' b).1 : ℚ) / ((roundToDouble a' b).2 : ℚ) < (M : ℚ) + 1) :
    (a' : ℚ) / b - (a : ℚ) / b ≤ 1 := by
  have hbq : (0 : ℚ) < b := by exact_mod_cast hb
  have hXX : (a : ℚ) / b ≤ (a' : ℚ) / b :=
    div_le_div_of_nonneg_right (by exact_mod_cast haa) hbq.le
  have ha' : a' ≠ 0 := by omega
  have hX' : (a' : ℚ) / b < (M : ℚ) + 1 := by
    by_contra hcon
    push_neg at hcon
    have := roundToDouble_ge_nat a' b (M + 1) hb hlt (by push_cast; exact hcon)
    push_cast at this
    linarith
  by_cases hXM : (M : ℚ) ≤ (a : ℚ) / b
  · linarith
  · push_neg at hXM
    obtain ⟨m, e, hv, hlo, _, hle, _⟩ := roundToDouble_unit a b ha hb (by omega)
    obtain ⟨m', e', hv', _, hhi', _, hge'⟩ := roundToDouble_unit a' b ha' hb hlt
    rw [hv] at h1
    rw [hv'] at h2
    have hE : (0 : ℚ) < 2 ^ e := by positivity
    have hE' : (0 : ℚ) < 2 ^ e' := by positivity
    have hee : e' ≤ e := by
      have k1 : (2 : ℚ) ^ 52 / 2 ^ e < 2 ^ 53 / 2 ^ e' := by linarith
      rw [div_lt_div_iff₀ hE hE'] at k1
      have k2 : (2 : ℚ) ^ e' < 2 ^ (e + 1) := by
        rw [pow_succ]
        have : (2 : ℚ) ^ 53 = 2 ^ 52 * 2 := by norm_num
        rw [this] at k1
        have p52 : (0 : ℚ) < 2 ^ 52 := by positivity
        nlinarith
      have k3 : e' < e + 1 := (pow_lt_pow_iff_right₀ (by norm_num : (1 : ℚ) < 2)).mp k2
      omega
    have hEE : (2 : ℚ) ^ e' ≤ 2 ^ e := pow_le_pow_right₀ (by norm_num) hee
    have hu : (1 : ℚ) / 2 ^ e ≤ 1 / 2 ^ e' := one_div_le_one_div_of_le hE' hEE
    have h3 : (m' : ℚ) / 2 ^ e' + 1 / 2 ^ e' ≤ (M : ℚ) + 1 := by
      rw [div_lt_iff₀ hE'] at h2
      have k1 : m' < (M + 1) * 2 ^ e' := by exact_mod_cast h2
      have k2 : ((m' + 1 : ℕ) : ℚ) ≤ (((M + 1) * 2 ^ e' : ℕ) : ℚ) := by exact_mod_cast k1
      push_cast at k2
      have k3 : (m' : ℚ) / 2 ^ e' + 1 / 2 ^ e' = ((m' : ℚ) + 1) / 2 ^ e' := by ring
      rw [k3, div_le_iff₀ hE']
      exact k2
    linarith

/-- The product `interval * i` stays below `2 ^ 53` for 32-bit operands. -/
theorem interval_mul_lt (c N i : Nat) (hN : 0 < N) (hc : c < 2 ^ 31) (hi : i ≤ N) :
    (roundToDouble c N).1 * i < (roundToDouble c N).2 * 2 ^ 53 := by
  have e1 := roundToDouble_le c N hN
  have hd1 := roundToDouble_den_pos c N
  generalize (roundToDouble c N).1 = n1 at *
  generalize (roundToDouble c N).2 = d1 at *
  have h1 : n1 * i * (N * 2 ^ 53) ≤ c * d1 * (2 ^ 53 + 1) * N := by
    calc n1 * i * (N * 2 ^ 53) = n1 * N * 2 ^ 53 * i := by ring
      _ ≤ c * d1 * (2 ^ 53 + 1) * i := Nat.mul_le_mul_right _ e1
      _ ≤ c * d1 * (2 ^ 53 + 1) * N := Nat.mul_le_mul_left _ hi
  have h2 : N * (n1 * i * 2 ^ 53) ≤ N * (c * d1 * (2 ^ 53 + 1)) := by
    calc N * (n1 * i * 2 ^ 53) = n1 * i * (N * 2 ^ 53) := by ring
      _ ≤ c * d1 * (2 ^ 53 + 1) * N := h1
      _ = N * (c * d1 * (2 ^ 53 + 1)) := by ring
  have h3 := Nat.le_of_mul_le_mul_left h2 hN
  have h4 : c * d1 * (2 ^ 53 + 1) < d1 * 2 ^ 53 * 2 ^ 53 := by
    have : c * (2 ^ 53 + 1) < 2 ^ 53 * 2 ^ 53 := by
      norm_num
      norm_num at hc
      omega
    calc c * d1 * (2 ^ 53 + 1) = d1 * (c * (2 ^ 53 + 1)) := by ring
      _ < d1 * (2 ^ 53 * 2 ^ 53) := Nat.mul_lt_mul_of_pos_left this hd1
      _ = d1 * 2 ^ 53 * 2 ^ 53 := by ring
  have h5 : n1 * i * 2 ^ 53 < d1 * 2 ^ 53 * 2 ^ 53 := lt_of_le_of_lt h3 h4
  exact Nat.lt_of_mul_lt_mul_right h5

/-- The rounded interval `double( c ) / N` is at least 1 when `N <= c`, and above
1 when `N < c`. -/
theorem interval_ge_one (c N : Nat) (hN : 0 < N) (hc : c < 2 ^ 31) (hNc : N ≤ c) :
    (1 : ℚ) ≤ ((roundToDouble c N).1 : ℚ) / ((roundToDouble c N).2 : ℚ) ∧
    (N < c → (1 : ℚ) < ((roundToDouble c N).1 : ℚ) / ((roundToDouble c N).2 : ℚ)) ∧
    (N = c → ((roundToDouble c N).1 : ℚ) / ((roundToDouble c N).2 : ℚ) = 1) := by
  have hNq : (0 : ℚ) < N := by exact_mod_cast hN
  have hlt : c < N * 2 ^ 53 := by
    have : c < 1 * 2 ^ 53 := by norm_num; norm_num at hc; omega
    exact lt_of_lt_of_le this (Nat.mul_le_mul_right _ hN)
  have hX : (1 : ℚ) ≤ (c : ℚ) / N := by
    rw [le_div_iff₀ hNq, one_mul]
    exact_mod_cast hNc
  have h1 := roundToDouble_ge_nat c N 1 hN hlt (by simpa using hX)
  refine ⟨by simpa using h1, ?_, ?_⟩
  · intro hstrict
    have hc0 : c ≠ 0 := by omega
    obtain ⟨m, e, hv, hlo, _, _, hge⟩ := roundToDouble_unit c N hc0 hN hlt
    rw [hv]
    have hE : (0 : ℚ) < 2 ^ e := by positivity
    have hX1 : (N : ℚ) + 1 ≤ c := by exact_mod_cast hstrict
    have hXN : ((N : ℚ) + 1) / N ≤ (c : ℚ) / N := div_le_div_of_nonneg_right hX1 hNq.le
    have hu : (1 : ℚ) / 2 ^ e / 2 ≤ (c : ℚ) / N / 2 ^ 53 := by
      have : (1 : ℚ) / 2 ^ e / 2 = 2 ^ 52 / 2 ^ e / 2 ^ 53 := by
        field_simp
        ring
      rw [this]
      exact div_le_div_of_nonneg_right hlo (by positivity)
    have hN52 : (N : ℚ) ≤ 2 ^ 52 := by
      have : N ≤ 2 ^ 52 := by norm_num; norm_num at hc; omega
      exact_mod_cast this
    have hinv : (1 : ℚ) / 2 ^ 52 ≤ 1 / N := one_div_le_one_div_of_le hNq hN52
    have hsplit : ((N : ℚ) + 1) / N = 1 + 1 / N := by
      field_simp
    generalize (c : ℚ) / N = X at *
    generalize (m : ℚ) / 2 ^ e = Z at *
    generalize (1 : ℚ) / 2 ^ e / 2 = h at *
    have hX2 : 1 + (1 : ℚ) / 2 ^ 52 ≤ X := by linarith
    norm_num at hu hX2 ⊢
    linarith
  · intro heq
    subst heq
    have hX' : (N : ℚ) / N ≤ ((1 : ℕ) : ℚ) := by
      rw [div_self hNq.ne']
      simp
    have h2 := roundToDouble_le_nat N N 1 hN hlt hX'
    simp only [Nat.cast_one] at h1 h2
    exact le_antisymm h2 h1

theorem natDiv_lt_of_le (r1 r2 M : Nat) (h2 : 0 < r2) (h : r1 / r2 ≤ M) :
    (r1 : ℚ) / r2 < (M : ℚ) + 1 := by
  have h1 : r1 < (M + 1) * r2 := (Nat.div_lt_iff_lt_mul h2).mp (by omega)
  have h2q : (0 : ℚ) < r2 := by exact_mod_cast h2
  rw [div_lt_iff₀ h2q]
  exact_mod_cast h1

theorem le_natDiv_of_le (r1 r2 M : Nat) (h2 : 0 < r2) (h : (M : ℚ) ≤ (r1 : ℚ) / r2) :
    M ≤ r1 / r2 := by
  have h2q : (0 : ℚ) < r2 := by exact_mod_cast h2
  rw [le_div_iff₀ h2q] at h
  have h1 : M * r2 ≤ r1 := by exact_mod_cast h
  exact (Nat.le_div_iff_mul_le h2).mpr h1

theorem natDiv_eq_of_eq (r1 r2 M : Nat) (h2 : 0 < r2) (h : (r1 : ℚ) / r2 = (M : ℚ)) :
    r1 / r2 = M := by
  have h2q : (0 : ℚ) < r2 := by exact_mod_cast h2
  rw [div_eq_iff h2q.ne'] at h
  have h1 : r1 = M * r2 := by exact_mod_cast h
  rw [h1]
  exact Nat.mul_div_cancel M h2

/-- With `N <= c` the sampled index grows from `i` to `i + 1`. -/
theorem sliceIndex_strict (c N i : Nat) (hN : 0 < N) (hc : c < 2 ^ 31) (hNc : N ≤ c)
    (hi : i + 1 ≤ N) :
    (roundToDouble ((roundToDouble c N).1 * i) (roundToDouble c N).2).1 /
        (roundToDouble ((roundToDouble c N).1 * i) (roundToDouble c N).2).2 <
      (roundToDouble ((roundToDouble c N).1 * (i + 1)) (roundToDouble c N).2).1 /
        (roundToDouble ((roundToDouble c N).1 * (i + 1)) (roundToDouble c N).2).2 := by
  obtain ⟨hq1, hqgt, hqeq⟩ := interval_ge_one c N hN hc hNc
  have hlt1 := interval_mul_lt c N (i + 1) hN hc hi
  have hlt0 := interval_mul_lt c N i hN hc (by omega)
  have hd1 := roundToDouble_den_pos c N
  generalize (roundToDouble c N).1 = n1 at *
  generalize (roundToDouble c N).2 = d1 at *
  have hd1q : (0 : ℚ) < d1 := by exact_mod_cast hd1
  have hXi : ((n1 * i : ℕ) : ℚ) / d1 = (n1 : ℚ) / d1 * i := by
    push_cast
    ring
  have hXi1 : ((n1 * (i + 1) : ℕ) : ℚ) / d1 = (n1 : ℚ) / d1 * i + (n1 : ℚ) / d1 := by
    push_cast
    ring
  have hden0 := roundToDouble_den_pos (n1 * i) d1
  have hden1 := roundToDouble_den_pos (n1 * (i + 1)) d1
  rcases Nat.lt_or_eq_of_le hNc with hlt | heq
  · have hq := hqgt hlt
    have hn1 : n1 ≠ 0 := by
      intro h0
      rw [h0] at hq
      simp at hq
      linarith
    by_contra hcon
    push_neg at hcon
    by_cases hi0 : i = 0
    · subst hi0
      have h1 := roundToDouble_ge_nat (n1 * (0 + 1)) d1 1 hd1 hlt1 (by
        rw [hXi1]
        simp only [Nat.cast_one, Nat.cast_zero, mul_zero, zero_add]
        exact hq1)
      have h2 := le_natDiv_of_le _ _ 1 hden1 h1
      simp only [Nat.mul_zero, roundToDouble_zero] at hcon
      omega
    · have ha : n1 * i ≠ 0 := Nat.mul_ne_zero hn1 hi0
      have h1 : (((roundToDouble (n1 * i) d1).1 / (roundToDouble (n1 * i) d1).2 : ℕ) : ℚ) ≤
          ((roundToDouble (n1 * i) d1).1 : ℚ) / ((roundToDouble (n1 * i) d1).2 : ℚ) :=
        Nat.cast_div_le
      have h2 := natDiv_lt_of_le _ _ _ hden1 hcon
      have hgap := roundToDouble_gap (n1 * i) (n1 * (i + 1)) d1 _ ha hd1 hlt1
        (Nat.mul_le_mul_left _ (by omega)) h1 h2
      rw [hXi, hXi1] at hgap
      linarith
  · have hq := hqeq heq
    have e0 : ((roundToDouble (n1 * i) d1).1 : ℚ) / ((roundToDouble (n1 * i) d1).2 : ℚ) =
        (i : ℚ) := by
      have hX : ((n1 * i : ℕ) : ℚ) / d1 = (i : ℚ) := by rw [hXi, hq, one_mul]
      exact le_antisymm (roundToDouble_le_nat _ _ i hd1 hlt0 hX.le)
        (roundToDouble_ge_nat _ _ i hd1 hlt0 hX.ge)
    have e1 : ((roundToDouble (n1 * (i + 1)) d1).1 : ℚ) /
        ((roundToDouble (n1 * (i + 1)) d1).2 : ℚ) = ((i + 1 : ℕ) : ℚ) := by
      have hX : ((n1 * (i + 1) : ℕ) : ℚ) / d1 = ((i + 1 : ℕ) : ℚ) := by
        rw [hXi1, hq]
        push_cast
        ring
      exact le_antisymm (roundToDouble_le_nat _ _ (i + 1) hd1 hlt1 hX.le)
        (roundToDouble_ge_nat _ _ (i + 1) hd1 hlt1 hX.ge)
    rw [natDiv_eq_of_eq _ _ i hden0 e0, natDiv_eq_of_eq _ _ (i + 1) hden1 e1]
    omega

/-- The sampled index does not decrease from `i` to `i + 1`. -/
theorem sliceIndex_mono (c N i : Nat) (hN : 0 < N) (hc : c < 2 ^ 31) (hN31 : N < 2 ^ 31)
    (hi : i + 1 ≤ N) :
    (roundToDouble ((roundToDouble c N).1 * i) (roundToDouble c N).2).1 /
        (roundToDouble ((roundToDouble c N).1 * i) (roundToDouble c N).2).2 ≤
      (roundToDouble ((roundToDouble c N).1 * (i + 1)) (roundToDouble c N).2).1 /
        (roundToDouble ((roundToDouble c N).1 * (i + 1)) (roundToDouble c N).2).2 := by
  have hlt1 := interval_mul_lt c N (i + 1) hN hc hi
  have hlt0 := interval_mul_lt c N i hN hc (by omega)
  have hd1 := roundToDouble_den_pos c N
  generalize (roundToDouble c N).1 = n1 at *
  generalize (roundToDouble c N).2 = d1 at *
  have hd1q : (0 : ℚ) < d1 := by exact_mod_cast hd1
  have hq0 : (0 : ℚ) ≤ (n1 : ℚ) / d1 := by positivity
  have hXi : ((n1 * i : ℕ) : ℚ) / d1 = (n1 : ℚ) / d1 * i := by
    push_cast
    ring
  have hXi1 : ((n1 * (i + 1) : ℕ) : ℚ) / d1 = (n1 : ℚ) / d1 * i + (n1 : ℚ) / d1 := by
    push_cast
    ring
  have hden1 := roundToDouble_den_pos (n1 * (i + 1)) d1
  by_cases ha : n1 * i = 0
  · rw [ha, roundToDouble_zero]
    simp
  · apply le_natDiv_of_le _ _ _ hden1
    apply roundToDouble_ge_nat _ _ _ hd1 hlt1
    have h1 : (((roundToDouble (n1 * i) d1).1 / (roundToDouble (n1 * i) d1).2 : ℕ) : ℚ) ≤
        ((roundToDouble (n1 * i) d1).1 : ℚ) / ((roundToDouble (n1 * i) d1).2 : ℚ) :=
      Nat.cast_div_le
    obtain ⟨m, e, hv, hlo, _, hle, _⟩ := roundToDouble_unit (n1 * i) d1 ha hd1 hlt0
    rw [hv] at h1
    have hu : (1 : ℚ) / 2 ^ e / 2 ≤ ((n1 * i : ℕ) : ℚ) / d1 / 2 ^ 53 := by
      have : (1 : ℚ) / 2 ^ e / 2 = 2 ^ 52 / 2 ^ e / 2 ^ 53 := by
        field_simp
        ring
      rw [this]
      exact div_le_div_of_nonneg_right hlo (by positivity)
    have hi53 : (i : ℚ) ≤ 2 ^ 53 := by
      have : i ≤ 2 ^ 53 := by norm_num; norm_num at hN31; omega
      exact_mod_cast this
    have hq : (n1 : ℚ) / d1 * i / 2 ^ 53 ≤ (n1 : ℚ) / d1 := by
      rw [div_le_iff₀ (by positivity)]
      exact mul_le_mul_of_nonneg_left hi53 hq0
    rw [hXi] at hu hle
    rw [hXi1]
    linarith

/-- The sampled index of `i <= N - 1` is below `c`. -/
theorem sliceIndex_lt_count_incl (c N i : Nat) (hc : 0 < c) (hN : N < 2 ^ 31) (hi : i + 1 ≤ N) :
    (roundToDouble ((roundToDouble c N).1 * i) (roundToDouble c N).2).1 /
      (roundToDouble ((roundToDouble c N).1 * i) (roundToDouble c N).2).2 < c := by
  have hU := twoRoundings_le c N i (by omega)
  have hd2 := roundToDouble_den_pos ((roundToDouble c N).1 * i) (roundToDouble c N).2
  generalize (roundToDouble ((roundToDouble c N).1 * i) (roundToDouble c N).2).1 = n2 at *
  generalize (roundToDouble ((roundToDouble c N).1 * i) (roundToDouble c N).2).2 = d2 at *
  rw [Nat.div_lt_iff_lt_mul hd2]
  by_contra hcon
  have hle : c * d2 ≤ n2 := Nat.le_of_not_lt hcon
  have hcd : 0 < c * d2 := Nat.mul_pos hc hd2
  have h1 : c * d2 * (N * (2 ^ 53 * 2 ^ 53)) ≤ c * d2 * (i * ((2 ^ 53 + 1) * (2 ^ 53 + 1))) := by
    calc c * d2 * (N * (2 ^ 53 * 2 ^ 53)) ≤ n2 * (N * (2 ^ 53 * 2 ^ 53)) :=
          Nat.mul_le_mul_right _ hle
      _ = n2 * N * (2 ^ 53 * 2 ^ 53) := by ring
      _ ≤ c * i * d2 * ((2 ^ 53 + 1) * (2 ^ 53 + 1)) := hU
      _ = c * d2 * (i * ((2 ^ 53 + 1) * (2 ^ 53 + 1))) := by ring
  have h2 := Nat.le_of_mul_le_mul_left h1 hcd
  norm_num at h2 hN
  omega

theorem sliceIndex_strict_lt (c N : Nat) (hN : 0 < N) (hc : c < 2 ^ 31) (hNc : N ≤ c)
    (i j : Nat) (hij : i < j) (hj : j ≤ N) :
    staticSliceIndex (c : Int) (N : Int) (i : Int) < staticSliceIndex (c : Int) (N : Int) (j : Int) := by
  induction j, hij using Nat.le_induction with
  | base =>
    rw [staticSliceIndex_natCast, staticSliceIndex_natCast]
    exact_mod_cast sliceIndex_strict c N i hN hc hNc hj
  | succ k hk ih =>
    have h1 := ih (by omega)
    have h2 : staticSliceIndex (c : Int) (N : Int) (k : Int) <
        staticSliceIndex (c : Int) (N : Int) ((k + 1 : ℕ) : Int) := by
      rw [staticSliceIndex_natCast, staticSliceIndex_natCast]
      exact_mod_cast sliceIndex_strict c N k hN hc hNc hj
    exact lt_trans h1 h2

theorem sliceIndex_mono_le (c N : Nat) (hN : 0 < N) (hc : c < 2 ^ 31) (hN31 : N < 2 ^ 31)
    (i j : Nat) (hij : i ≤ j) (hj : j ≤ N) :
    staticSliceIndex (c : Int) (N : Int) (i : Int) ≤ staticSliceIndex (c : Int) (N : Int) (j : Int) := by
  induction j, hij using Nat.le_induction with
  | base => exact le_refl _
  | succ k hk ih =>
    have h1 := ih (by omega)
    have h2 : staticSliceIndex (c : Int) (N : Int) (k : Int) ≤
        staticSliceIndex (c : Int) (N : Int) ((k + 1 : ℕ) : Int) := by
      rw [staticSliceIndex_natCast, staticSliceIndex_natCast]
      exact_mod_cast sliceIndex_mono c N k hN hc hN31 hj
    exact le_trans h1 h2

theorem staticSliceIndex_zero (c N : Nat) : staticSliceIndex (c : Int) (N : Int) ((0 : ℕ) : Int) = 0 := by
  rw [staticSliceIndex_natCast]
  simp [roundToDouble_zero]

theorem staticSliceIndices_eq (c N : Nat) (hc : 1 < c) :
    staticSliceIndices (c : Int) (N : Int) =
      (List.range (N - 1)).map (fun (i : Nat) => staticSliceIndex (c : Int) (N : Int) (i : Int))
        ++ [(c : Int) - 1] := by
  have h1 : (c : Int) > 1 := by exact_mod_cast hc
  have h2 : ((N : Int) - 1).toNat = N - 1 := by omega
  simp [staticSliceIndices, h1, h2]

theorem staticSliceIndices_mem_range (c N : Nat) (hc : 1 < c) (hN31 : N < 2 ^ 31) :
    ∀ x ∈ staticSliceIndices (c : Int) (N : Int), 0 ≤ x ∧ x < (c : Int) := by
  rw [staticSliceIndices_eq c N hc]
  intro x hx
  rcases List.mem_append.mp hx with h | h
  · rw [List.mem_map] at h
    obtain ⟨i, hi, rfl⟩ := h
    rw [List.mem_range] at hi
    rw [staticSliceIndex_natCast]
    have := sliceIndex_lt_count_incl c N i (by omega) hN31 (by omega)
    exact ⟨Int.natCast_nonneg _, by exact_mod_cast this⟩
  · rw [List.mem_singleton] at h
    subst h
    omega

theorem staticSliceIndices_sorted_lt (c N : Nat) (hN : 2 ≤ N) (hc : c < 2 ^ 31) (hNc : N ≤ c) :
    (staticSliceIndices (c : Int) (N : Int)).Sorted (· < ·) := by
  have hN31 : N < 2 ^ 31 := lt_of_le_of_lt hNc hc
  rw [staticSliceIndices_eq c N (by omega)]
  unfold List.Sorted
  rw [List.pairwise_append]
  refine ⟨?_, List.pairwise_singleton _ _, ?_⟩
  · rw [List.pairwise_map]
    refine List.Pairwise.imp_of_mem ?_ (List.pairwise_lt_range (N - 1))
    intro i j _ hj hij
    rw [List.mem_range] at hj
    exact sliceIndex_strict_lt c N (by omega) hc hNc i j hij (by omega)
  · intro x hx y hy
    rw [List.mem_singleton] at hy
    subst hy
    rw [List.mem_map] at hx
    obtain ⟨i, hi, rfl⟩ := hx
    rw [List.mem_range] at hi
    have h1 := sliceIndex_strict_lt c N (by omega) hc hNc i (N - 1) (by omega) (by omega)
    have h2 : staticSliceIndex (c : Int) (N : Int) ((N - 1 : ℕ) : Int) < (c : Int) := by
      rw [staticSliceIndex_natCast]
      exact_mod_cast sliceIndex_lt_count_incl c N (N - 1) (by omega) hN31 (by omega)
    omega

theorem staticSliceIndices_sorted_le (c N : Nat) (hc1 : 1 < c) (hN : 2 ≤ N) (hc : c < 2 ^ 31)
    (hN31 : N < 2 ^ 31) :
    (staticSliceIndices (c : Int) (N : Int)).Sorted (· ≤ ·) := by
  rw [staticSliceIndices_eq c N hc1]
  unfold List.Sorted
  rw [List.pairwise_append]
  refine ⟨?_, List.pairwise_singleton _ _, ?_⟩
  · rw [List.pairwise_map]
    refine List.Pairwise.imp_of_mem ?_ (List.pairwise_lt_range (N - 1))
    intro i j _ hj hij
    rw [List.mem_range] at hj
    exact sliceIndex_mono_le c N (by omega) hc hN31 i j hij.le (by omega)
  · intro x hx y hy
    rw [List.mem_singleton] at hy
    subst hy
    rw [List.mem_map] at hx
    obtain ⟨i, hi, rfl⟩ := hx
    rw [List.mem_range] at hi
    rw [staticSliceIndex_natCast]
    have := sliceIndex_lt_count_incl c N i (by omega) hN31 (by omega)
    have h2 : (((roundToDouble ((roundToDouble c N).1 * i) (roundToDouble c N).2).1 /
        (roundToDouble ((roundToDouble c N).1 * i) (roundToDouble c N).2).2 : ℕ) : Int) <
        (c : Int) := by exact_mod_cast this
    omega

theorem staticSliceIndices_length (c N : Nat) (hc : 1 < c) (hN : 2 ≤ N) :
    (staticSliceIndices (c : Int) (N : Int)).length = N := by
  rw [staticSliceIndices_eq c N hc]
  simp
  omega

theorem nodup_length_le (l : List Int) (c : Nat) (hl : ∀ x ∈ l, 0 ≤ x ∧ x < (c : Int))
    (hn : l.Nodup) : l.length ≤ c := by
  have hinj : ∀ x ∈ l, ∀ y ∈ l, Int.toNat x = Int.toNat y → x = y := by
    intro x hx y hy h
    have := (hl x hx).1
    have := (hl y hy).1
    omega
  have hn' : (l.map Int.toNat).Nodup := List.Nodup.map_on hinj hn
  have hsub : (l.map Int.toNat).toFinset ⊆ Finset.range c := by
    intro x hx
    rw [List.mem_toFinset, List.mem_map] at hx
    obtain ⟨y, hy, rfl⟩ := hx
    rw [Finset.mem_range]
    have := hl y hy
    omega
  have hcard := Finset.card_le_card hsub
  rw [List.toFinset_card_of_nodup hn', List.length_map, Finset.card_range] at hcard
  exact hcard

end SampledIndexOrder

/-! ## The frames sampled for the static slices -/

section SampledIndices

variable {α : Type} [CommRing α]

theorem ComputeAllStaticSlicesData_indices (s : USAcquisitionObject α)
    (hcount : 1 < s.GetNumberOfSlices) (hN31 : s.m_numberOfStaticSlices < 2 ^ 31) :
    ∃ s', s.ComputeAllStaticSlicesData = some s' ∧
      s'.m_staticSlicesData.map some =
        (staticSliceIndices s.GetNumberOfSlices s.m_numberOfStaticSlices).map s.staticSliceAt := by
  obtain ⟨slices, last, h1, h2, h3⟩ := ComputeAllStaticSlicesData_spec s hcount hN31
  refine ⟨_, h1, ?_⟩
  simp [staticSliceIndices, hcount, h2, h3]

theorem staticSliceIndices_facts (count N : Int) (hc : 1 < count) (hN : 2 ≤ N)
    (hc31 : count < 2 ^ 31) (hN31 : N < 2 ^ 31) :
    (∀ x ∈ staticSliceIndices count N, 0 ≤ x ∧ x < count) ∧
    (staticSliceIndices count N).head? = some 0 ∧
    (staticSliceIndices count N).length = N.toNat ∧
    (staticSliceIndices count N).Sorted (· ≤ ·) ∧
    (N ≤ count → (staticSliceIndices count N).Sorted (· < ·)) ∧
    (count < N → ¬ (staticSliceIndices count N).Nodup) := by
  obtain ⟨c, rfl⟩ := Int.eq_ofNat_of_zero_le (by omega : 0 ≤ count)
  obtain ⟨n, rfl⟩ := Int.eq_ofNat_of_zero_le (by omega : 0 ≤ N)
  have hc1 : 1 < c := by exact_mod_cast hc
  have hn2 : 2 ≤ n := by exact_mod_cast hN
  have hcb : c < 2 ^ 31 := by exact_mod_cast hc31
  have hnb : n < 2 ^ 31 := by exact_mod_cast hN31
  have hrange := staticSliceIndices_mem_range c n hc1 hnb
  have hlen := staticSliceIndices_length c n hc1 hn2
  refine ⟨hrange, ?_, by simpa using hlen, staticSliceIndices_sorted_le c n hc1 hn2 hcb hnb,
    ?_, ?_⟩
  · rw [staticSliceIndices_eq c n hc1]
    obtain ⟨k, rfl⟩ : ∃ k, n = k + 2 := ⟨n - 2, by omega⟩
    have e : k + 2 - 1 = k + 1 := by omega
    rw [e, List.range_succ_eq_map]
    simp only [List.map_cons, List.cons_append, List.head?_cons]
    rw [staticSliceIndex_zero]
  · intro hle
    exact staticSliceIndices_sorted_lt c n hn2 hcb (by exact_mod_cast hle)
  · intro hlt hnodup
    have := nodup_length_le _ c hrange hnodup
    rw [hlen] at this
    have : c < n := by exact_mod_cast hlt
    omega

/-- C25. For every frame count above 1 and every `N >= 2` (both `int`s, below
`2^31`), `ComputeAllStaticSlicesData` returns and caches the slices of the frames
at the indices `staticSliceIndices`; this list of `N` indices has a duplicate
exactly when the count is below `N`, and is strictly increasing when the count is
at least `N`.  Count 2 with `N = 4` samples 0, 0, 1, 1. -/
theorem C25_duplicate_indices_exactly_below_N (s : USAcquisitionObject α)
    (hcount : 1 < s.GetNumberOfSlices) (hN : 2 ≤ s.m_numberOfStaticSlices)
    (hc31 : s.GetNumberOfSlices < 2 ^ 31) (hN31 : s.m_numberOfStaticSlices < 2 ^ 31) :
    (∃ s', s.ComputeAllStaticSlicesData = some s' ∧
      s'.m_staticSlicesData.map some =
        (staticSliceIndices s.GetNumberOfSlices s.m_numberOfStaticSlices).map s.staticSliceAt) ∧
    (¬ (staticSliceIndices s.GetNumberOfSlices s.m_numberOfStaticSlices).Nodup ↔
      s.GetNumberOfSlices < s.m_numberOfStaticSlices) ∧
    (s.m_numberOfStaticSlices ≤ s.GetNumberOfSlices →
      (staticSliceIndices s.GetNumberOfSlices s.m_numberOfStaticSlices).Sorted (· < ·)) ∧
    staticSliceIndices 2 4 = [0, 0, 1, 1] := by
  obtain ⟨_, _, _, _, hsorted, hdup⟩ :=
    staticSliceIndices_facts s.GetNumberOfSlices s.m_numberOfStaticSlices hcount hN hc31 hN31
  refine ⟨ComputeAllStaticSlicesData_indices s hcount hN31, ⟨?_, hdup⟩, hsorted, by decide⟩
  intro hnd
  by_contra hcon
  exact hnd (hsorted (by omega)).nodup

theorem C25_witness :
    1 < (sampleWithFrames 2 4).GetNumberOfSlices ∧
    2 ≤ (sampleWithFrames 2 4).m_numberOfStaticSlices ∧
    (sampleWithFrames 2 4).GetNumberOfSlices < 2 ^ 31 ∧
    (sampleWithFrames 2 4).m_numberOfStaticSlices < 2 ^ 31 ∧
    (¬ (staticSliceIndices (sampleWithFrames 2 4).GetNumberOfSlices
        (sampleWithFrames 2 4).m_numberOfStaticSlices).Nodup ↔
      (sampleWithFrames 2 4).GetNumberOfSlices < (sampleWithFrames 2 4).m_numberOfStaticSlices) :=
  ⟨by decide, by decide, by decide, by decide,
    (C25_duplicate_indices_exactly_below_N (sampleWithFrames 2 4) (by decide) (by decide)
      (by decide) (by decide)).2.1⟩

/-- C27. For every frame count above 1 and every `N >= 2` (both `int`s, below
`2^31`), `ComputeAllStaticSlicesData` returns; every index it passes to
`ComputeOneStaticSliceData` lies in `[0, count)`, the first one is 0, and the
sequence of the `N` indices is non-decreasing; `GetImage` and `GetMatrix` have a
frame at every one of them. -/
theorem C27_sampled_indices_in_range_and_ordered (s : USAcquisitionObject α)
    (hcount : 1 < s.GetNumberOfSlices) (hN : 2 ≤ s.m_numberOfStaticSlices)
    (hc31 : s.GetNumberOfSlices < 2 ^ 31) (hN31 : s.m_numberOfStaticSlices < 2 ^ 31) :
    (∃ s', s.ComputeAllStaticSlicesData = some s' ∧
      s'.m_staticSlicesData.map some =
        (staticSliceIndices s.GetNumberOfSlices s.m_numberOfStaticSlices).map s.staticSliceAt) ∧
    (∀ x ∈ staticSliceIndices s.GetNumberOfSlices s.m_numberOfStaticSlices,
      0 ≤ x ∧ x < s.GetNumberOfSlices) ∧
    (staticSliceIndices s.GetNumberOfSlices s.m_numberOfStaticSlices).head? = some 0 ∧
    (staticSliceIndices s.GetNumberOfSlices s.m_numberOfStaticSlices).length =
      s.m_numberOfStaticSlices.toNat ∧
    (staticSliceIndices s.GetNumberOfSlices s.m_numberOfStaticSlices).Sorted (· ≤ ·) ∧
    (∀ x ∈ staticSliceIndices s.GetNumberOfSlices s.m_numberOfStaticSlices,
      ∃ slice sliceUncalibratedMatrix, s.m_videoBuffer.GetImage x = some slice ∧
        s.m_videoBuffer.GetMatrix x = some sliceUncalibratedMatrix) := by
  obtain ⟨hrange, hhead, hlen, hsorted, _, _⟩ :=
    staticSliceIndices_facts s.GetNumberOfSlices s.m_numberOfStaticSlices hcount hN hc31 hN31
  refine ⟨ComputeAllStaticSlicesData_indices s hcount hN31, hrange, hhead, hlen, hsorted, ?_⟩
  intro x hx
  obtain ⟨h0, h1⟩ := hrange x hx
  obtain ⟨f, hf⟩ := GetFrame_isSome s.m_videoBuffer x h0 h1
  exact ⟨f.image, f.matrix, by simp [TrackedVideoBuffer.GetImage, hf],
    by simp [TrackedVideoBuffer.GetMatrix, hf]⟩

theorem C27_witness :
    1 < (sampleWithFrames 10 4).GetNumberOfSlices ∧
    2 ≤ (sampleWithFrames 10 4).m_numberOfStaticSlices ∧
    (sampleWithFrames 10 4).GetNumberOfSlices < 2 ^ 31 ∧
    (sampleWithFrames 10 4).m_numberOfStaticSlices < 2 ^ 31 ∧
    (∀ x ∈ staticSliceIndices (sampleWithFrames 10 4).GetNumberOfSlices
        (sampleWithFrames 10 4).m_numberOfStaticSlices,
      0 ≤ x ∧ x < (sampleWithFrames 10 4).GetNumberOfSlices) ∧
    (staticSliceIndices (sampleWithFrames 10 4).GetNumberOfSlices
      (sampleWithFrames 10 4).m_numberOfStaticSlices).head? = some 0 :=
  ⟨by decide, by decide, by decide, by decide,
    (C27_sampled_indices_in_range_and_ordered (sampleWithFrames 10 4) (by decide) (by decide)
      (by decide) (by decide)).2.1,
    (C27_sampled_indices_in_range_and_ordered (sampleWithFrames 10 4) (by decide) (by decide)
      (by decide) (by decide)).2.2.1⟩

end SampledIndices

/-! ## Rounding to a `double`: dependence on the value, idempotence, error -/

section DoubleArithmetic

theorem roundHalfEven_mul_right (a b c : Nat) (hc : 0 < c) :
    roundHalfEven (a * c) (b * c) = roundHalfEven a b := by
  unfold roundHalfEven
  simp only [Nat.mul_div_mul_right a b hc, Nat.mul_mod_mul_right]
  have e1 : 2 * (a % b * c) < b * c ↔ 2 * (a % b) < b := by
    rw [← mul_assoc]
    exact Nat.mul_lt_mul_right hc
  have e2 : b * c < 2 * (a % b * c) ↔ b < 2 * (a % b) := by
    rw [← mul_assoc]
    exact Nat.mul_lt_mul_right hc
  simp only [e1, e2]

theorem roundHalfEven_one (m : Nat) : roundHalfEven m 1 = m := by
  simp [roundHalfEven, Nat.mod_one]

/-- The exponents `k` and `j` of a binade are determined up to their difference. -/
theorem scale_unique (a b k j k' j' : Nat)
    (h1 : (b * 2 ^ j) * 2 ^ 52 ≤ a * 2 ^ k) (h2 : a * 2 ^ k < (b * 2 ^ j) * 2 ^ 53)
    (h1' : (b * 2 ^ j') * 2 ^ 52 ≤ a * 2 ^ k') (h2' : a * 2 ^ k' < (b * 2 ^ j') * 2 ^ 53) :
    k + j' = k' + j := by
  by_contra hne
  rcases Nat.lt_or_gt_of_ne hne with hlt | hgt
  · have hpow : 2 ^ (k + j' + 1) ≤ 2 ^ (k' + j) := Nat.pow_le_pow_right (by norm_num) hlt
    have A1 : a * 2 ^ k' * 2 ^ j < b * 2 ^ j' * 2 ^ 53 * 2 ^ j :=
      Nat.mul_lt_mul_of_pos_right h2' (by positivity)
    have A2 : b * 2 ^ j * 2 ^ 52 * 2 ^ (j' + 1) ≤ a * 2 ^ k * 2 ^ (j' + 1) :=
      Nat.mul_le_mul_right _ h1
    have A3 : a * 2 ^ k * 2 ^ (j' + 1) ≤ a * 2 ^ k' * 2 ^ j := by
      have : a * 2 ^ (k + j' + 1) ≤ a * 2 ^ (k' + j) := Nat.mul_le_mul_left _ hpow
      calc a * 2 ^ k * 2 ^ (j' + 1) = a * 2 ^ (k + j' + 1) := by ring
        _ ≤ a * 2 ^ (k' + j) := this
        _ = a * 2 ^ k' * 2 ^ j := by ring
    have A4 : b * 2 ^ j * 2 ^ 52 * 2 ^ (j' + 1) = b * 2 ^ j' * 2 ^ 53 * 2 ^ j := by ring
    omega
  · have hpow : 2 ^ (k' + j + 1) ≤ 2 ^ (k + j') := Nat.pow_le_pow_right (by norm_num) hgt
    have A1 : a * 2 ^ k * 2 ^ j' < b * 2 ^ j * 2 ^ 53 * 2 ^ j' :=
      Nat.mul_lt_mul_of_pos_right h2 (by positivity)
    have A2 : b * 2 ^ j' * 2 ^ 52 * 2 ^ (j + 1) ≤ a * 2 ^ k' * 2 ^ (j + 1) :=
      Nat.mul_le_mul_right _ h1'
    have A3 : a * 2 ^ k' * 2 ^ (j + 1) ≤ a * 2 ^ k * 2 ^ j' := by
      have : a * 2 ^ (k' + j + 1) ≤ a * 2 ^ (k + j') := Nat.mul_le_mul_left _ hpow
      calc a * 2 ^ k' * 2 ^ (j + 1) = a * 2 ^ (k' + j + 1) := by ring
        _ ≤ a * 2 ^ (k + j') := this
        _ = a * 2 ^ k * 2 ^ j' := by ring
    have A4 : b * 2 ^ j' * 2 ^ 52 * 2 ^ (j + 1) = b * 2 ^ j * 2 ^ 53 * 2 ^ j' := by ring
    omega

theorem scaleDown_zero_of_lt (f a b : Nat) (h : a < b * 2 ^ 53) : scaleDown f a b = 0 := by
  cases f with
  | zero => rfl
  | succ f =>
    unfold scaleDown
    rw [if_neg (by omega)]

/-- The result of `roundToDouble` through its two exponents: `k` doublings of the
numerator or `j` doublings of the denominator (never both) bring the quotient into
`[2 ^ 52, 2 ^ 53)`, where it is rounded to the integer mantissa. -/
theorem roundToDouble_exponents (a b : Nat) (ha : a ≠ 0) (hb : 0 < b) :
    ∃ k j : Nat, roundToDouble a b = (roundHalfEven (a * 2 ^ k) (b * 2 ^ j) * 2 ^ j, 2 ^ k) ∧
      (b * 2 ^ j) * 2 ^ 52 ≤ a * 2 ^ k ∧ a * 2 ^ k < (b * 2 ^ j) * 2 ^ 53 ∧
      (k = 0 ∨ j = 0) := by
  have hup : b * 2 ^ 52 ≤ a * 2 ^ scaleUp (b + 52) a b := by
    apply scaleUp_spec
    have h1 : b < 2 ^ b := Nat.lt_two_pow b
    have h2 : 1 ≤ a := Nat.one_le_iff_ne_zero.mpr ha
    rw [pow_add]
    nlinarith [Nat.mul_le_mul h2 (Nat.mul_le_mul_right (2 ^ 52) h1.le)]
  have hk0 := scaleUp_lt (b + 52) a b
  generalize hk : scaleUp (b + 52) a b = k at hup hk0
  have hdown := scaleDown_spec (a * 2 ^ k) (a * 2 ^ k) b hup
  have hfuel : a * 2 ^ k < b * 2 ^ (a * 2 ^ k) * 2 ^ 53 := by
    have h1 : a * 2 ^ k < 2 ^ (a * 2 ^ k) := Nat.lt_two_pow _
    have h2 : 2 ^ (a * 2 ^ k) ≤ b * 2 ^ (a * 2 ^ k) * 2 ^ 53 := by
      have : 1 ≤ b * 2 ^ 53 := Nat.mul_pos hb (by positivity)
      calc 2 ^ (a * 2 ^ k) = 1 * 2 ^ (a * 2 ^ k) := by ring
        _ ≤ (b * 2 ^ 53) * 2 ^ (a * 2 ^ k) := Nat.mul_le_mul_right _ this
        _ = b * 2 ^ (a * 2 ^ k) * 2 ^ 53 := by ring
    omega
  have hlt := scaleDown_lt (a * 2 ^ k) (a * 2 ^ k) b hfuel
  have hj0 : k = 0 ∨ scaleDown (a * 2 ^ k) (a * 2 ^ k) b = 0 := by
    rcases hk0 with h | h
    · exact Or.inl h
    · exact Or.inr (scaleDown_zero_of_lt _ _ _ h)
  generalize hj : scaleDown (a * 2 ^ k) (a * 2 ^ k) b = j at hdown hlt hj0
  refine ⟨k, j, ?_, hdown, hlt, hj0⟩
  simp [roundToDouble, ha, hk, hj]

/-- The rounding depends on the quotient only: a common factor of numerator and
denominator changes nothing. -/
theorem roundToDouble_mul_right (a b c : Nat) (hb : 0 < b) (hc : 0 < c) :
    roundToDouble (a * c) (b * c) = roundToDouble a b := by
  by_cases ha : a = 0
  · subst ha
    simp [roundToDouble]
  have hac : a * c ≠ 0 := Nat.mul_ne_zero ha hc.ne'
  obtain ⟨k, j, hr, h1, h2, h0⟩ := roundToDouble_exponents a b ha hb
  obtain ⟨k', j', hr', h1', h2', h0'⟩ :=
    roundToDouble_exponents (a * c) (b * c) hac (Nat.mul_pos hb hc)
  have g1 : (b * 2 ^ j') * 2 ^ 52 ≤ a * 2 ^ k' := by
    have e1 : b * c * 2 ^ j' * 2 ^ 52 = (b * 2 ^ j' * 2 ^ 52) * c := by ring
    have e2 : a * c * 2 ^ k' = (a * 2 ^ k') * c := by ring
    rw [e1, e2] at h1'
    exact Nat.le_of_mul_le_mul_right h1' hc
  have g2 : a * 2 ^ k' < (b * 2 ^ j') * 2 ^ 53 := by
    have e1 : b * c * 2 ^ j' * 2 ^ 53 = (b * 2 ^ j' * 2 ^ 53) * c := by ring
    have e2 : a * c * 2 ^ k' = (a * 2 ^ k') * c := by ring
    rw [e1, e2] at h2'
    exact Nat.lt_of_mul_lt_mul_right h2'
  have hu := scale_unique a b k j k' j' h1 h2 g1 g2
  have hkk : k' = k := by omega
  have hjj : j' = j := by omega
  subst hkk hjj
  rw [hr, hr']
  have e3 : a * c * 2 ^ k' = (a * 2 ^ k') * c := by ring
  have e4 : b * c * 2 ^ j' = (b * 2 ^ j') * c := by ring
  rw [e3, e4, roundHalfEven_mul_right _ _ _ hc]

theorem Binary64.round_natCast_div (a b : Nat) (hb : 0 < b) :
    Binary64.round ((a : ℚ) / b) =
      ((roundToDouble a b).1 : ℚ) / ((roundToDouble a b).2 : ℚ) := by
  have hbz : (b : ℤ) ≠ 0 := by exact_mod_cast hb.ne'
  obtain ⟨c, hn, hd⟩ := Rat.exists_eq_mul_div_num_and_eq_mul_div_den (a : ℤ) hbz
  have hq : (((a : ℤ) : ℚ) / ((b : ℤ) : ℚ)) = (a : ℚ) / b := by push_cast; rfl
  rw [hq] at hn hd
  set q : ℚ := (a : ℚ) / b with hqdef
  have hq0 : 0 ≤ q := by positivity
  have hden : (0 : ℤ) < q.den := by exact_mod_cast q.pos
  have hc : 0 < c := by
    by_contra hcon
    have hc0 : c ≤ 0 := not_lt.mp hcon
    have : (b : ℤ) ≤ 0 := by rw [hd]; exact mul_nonpos_of_nonpos_of_nonneg hc0 hden.le
    have hb' : (0 : ℤ) < b := by exact_mod_cast hb
    omega
  have hnum : 0 ≤ q.num := Rat.num_nonneg.mpr hq0
  have ea : a = q.num.natAbs * c.natAbs := by
    have h := congrArg Int.natAbs hn
    rw [Int.natAbs_mul, Int.natAbs_ofNat] at h
    rw [h, mul_comm]
  have eb : b = q.den * c.natAbs := by
    have h := congrArg Int.natAbs hd
    rw [Int.natAbs_mul, Int.natAbs_ofNat, Int.natAbs_ofNat] at h
    rw [h, mul_comm]
  have hcn : 0 < c.natAbs := Int.natAbs_pos.mpr hc.ne'
  have key : roundToDouble a b = roundToDouble q.num.natAbs q.den := by
    conv_lhs => rw [ea, eb]
    exact roundToDouble_mul_right _ _ _ q.pos hcn
  unfold Binary64.round
  simp only [not_lt.mpr hq0, if_false]
  rw [key]

theorem Binary64.round_neg (q : ℚ) : Binary64.round (-q) = -Binary64.round q := by
  unfold Binary64.round
  simp only [Rat.neg_num, Rat.neg_den, Int.natAbs_neg]
  rcases lt_trichotomy q 0 with h | h | h
  · have h' : ¬ (-q < 0) := by linarith
    simp [h, h']
  · subst h
    simp [roundToDouble]
  · have h' : -q < 0 := by linarith
    have h'' : ¬ q < 0 := by linarith
    simp [h', h'']

theorem Binary64.round_zero : Binary64.round 0 = 0 := by
  simp [Binary64.round, roundToDouble]

/-- Rounding a rounded value changes nothing. -/
theorem roundToDouble_idem (a b : Nat) (hb : 0 < b) :
    (roundToDouble (roundToDouble a b).1 (roundToDouble a b).2).1 * (roundToDouble a b).2 =
      (roundToDouble a b).1 * (roundToDouble (roundToDouble a b).1 (roundToDouble a b).2).2 := by
  by_cases ha : a = 0
  · subst ha
    simp [roundToDouble]
  obtain ⟨m, k, j, hr, hm52, hm53, _, _⟩ := roundToDouble_mantissa a b ha hb
  rw [hr]
  simp only
  have hm0 : m * 2 ^ j ≠ 0 := by
    have : 0 < m := lt_of_lt_of_le (by positivity) hm52
    positivity
  obtain ⟨k', j', hr', h1, h2, _⟩ :=
    roundToDouble_exponents (m * 2 ^ j) (2 ^ k) hm0 (by positivity)
  rw [hr']
  simp only
  have h1' : (1 * 2 ^ (k + j')) * 2 ^ 52 ≤ m * 2 ^ (j + k') := by
    calc (1 * 2 ^ (k + j')) * 2 ^ 52 = 2 ^ k * 2 ^ j' * 2 ^ 52 := by ring
      _ ≤ m * 2 ^ j * 2 ^ k' := h1
      _ = m * 2 ^ (j + k') := by ring
  have h2' : m * 2 ^ (j + k') < (1 * 2 ^ (k + j')) * 2 ^ 53 := by
    calc m * 2 ^ (j + k') = m * 2 ^ j * 2 ^ k' := by ring
      _ < 2 ^ k * 2 ^ j' * 2 ^ 53 := h2
      _ = (1 * 2 ^ (k + j')) * 2 ^ 53 := by ring
  have en : m * 2 ^ j * 2 ^ k' = m * 2 ^ (j + k') := by ring
  have ed : 2 ^ k * 2 ^ j' = 1 * 2 ^ (k + j') := by ring
  rw [en, ed]
  rcases Nat.lt_or_ge m (2 ^ 53) with hlt | hge
  · have hu := scale_unique m 1 0 0 (j + k') (k + j') (by simpa using hm52) (by simpa using hlt)
      h1' h2'
    have hw : k + j' = j + k' := by omega
    rw [hw, roundHalfEven_mul_right _ _ _ (by positivity), roundHalfEven_one]
    calc m * 2 ^ j' * 2 ^ k = m * 2 ^ (k + j') := by ring
      _ = m * 2 ^ (j + k') := by rw [hw]
  · have hm : m = 2 ^ 53 := le_antisymm hm53 hge
    subst hm
    have hu := scale_unique (2 ^ 53) 1 0 1 (j + k') (k + j') (by norm_num) (by norm_num) h1' h2'
    have hw : k + j' = j + k' + 1 := by omega
    have e5 : 2 ^ 53 * 2 ^ (j + k') = 2 ^ 52 * 2 ^ (j + k' + 1) := by ring
    rw [hw, e5, roundHalfEven_mul_right _ _ _ (by positivity), roundHalfEven_one]
    calc 2 ^ 52 * 2 ^ j' * 2 ^ k = 2 ^ 52 * 2 ^ (k + j') := by ring
      _ = 2 ^ 52 * 2 ^ (j + k' + 1) := by rw [hw]

theorem Binary64.round_round (q : ℚ) : Binary64.round (Binary64.round q) = Binary64.round q := by
  have hpos : ∀ x : ℚ, 0 ≤ x → Binary64.round (Binary64.round x) = Binary64.round x := by
    intro x hx
    have hx' : Binary64.round x = ((roundToDouble x.num.natAbs x.den).1 : ℚ) /
        ((roundToDouble x.num.natAbs x.den).2 : ℚ) := by
      unfold Binary64.round
      simp only [not_lt.mpr hx, if_false]
    rw [hx']
    have hd := roundToDouble_den_pos x.num.natAbs x.den
    rw [Binary64.round_natCast_div _ _ hd]
    have hd2 := roundToDouble_den_pos (roundToDouble x.num.natAbs x.den).1
      (roundToDouble x.num.natAbs x.den).2
    rw [div_eq_div_iff (by exact_mod_cast hd2.ne') (by exact_mod_cast hd.ne')]
    exact_mod_cast roundToDouble_idem x.num.natAbs x.den x.pos
  rcases le_total 0 q with h | h
  · exact hpos q h
  · have h' : 0 ≤ -q := by linarith
    have := hpos (-q) h'
    rw [Binary64.round_neg, Binary64.round_neg] at this
    exact neg_injective this

theorem Binary64.round_eval (a b n d : Nat) (hb : 0 < b) (hd : 0 < d)
    (h : (roundToDouble a b).1 * d = n * (roundToDouble a b).2) :
    Binary64.round ((a : ℚ) / b) = (n : ℚ) / d := by
  rw [Binary64.round_natCast_div a b hb]
  have h2 := roundToDouble_den_pos a b
  rw [div_eq_div_iff (by exact_mod_cast h2.ne') (by exact_mod_cast hd.ne')]
  exact_mod_cast h

theorem Binary64.round_natCast (n : Nat) (h : n < 2 ^ 53) : Binary64.round n = n := by
  by_cases hn : n = 0
  · subst hn
    simpa using Binary64.round_zero
  have e : ((n : ℕ) : ℚ) = ((n : ℕ) : ℚ) / ((1 : ℕ) : ℚ) := by simp
  rw [e, Binary64.round_natCast_div n 1 (by norm_num)]
  obtain ⟨m, e', hv, h52, h53, hle, hge⟩ := roundToDouble_unit n 1 hn (by norm_num) (by simpa using h)
  rw [hv]
  simp only [Nat.cast_one, div_one] at h52 h53 hle hge ⊢
  -- n is a multiple of the unit, so the nearest multiple is n itself
  have hE : (0 : ℚ) < 2 ^ e' := by positivity
  have h1 : (m : ℚ) ≤ n * 2 ^ e' + 1 / 2 := by
    have := mul_le_mul_of_nonneg_right hle hE.le
    rw [div_mul_cancel₀ _ hE.ne'] at this
    have e2 : ((n : ℚ) + 1 / 2 ^ e' / 2) * 2 ^ e' = n * 2 ^ e' + 1 / 2 := by
      field_simp
      ring
    linarith
  have h2 : (n : ℚ) * 2 ^ e' ≤ m + 1 / 2 := by
    have := mul_le_mul_of_nonneg_right hge hE.le
    have e2 : ((m : ℚ) / 2 ^ e' + 1 / 2 ^ e' / 2) * 2 ^ e' = m + 1 / 2 := by
      field_simp
      ring
    linarith
  have h3 : (m : ℤ) = n * 2 ^ e' := by
    have a1 : ((m : ℤ) : ℚ) ≤ ((n * 2 ^ e' : ℤ) : ℚ) + 1 / 2 := by push_cast; linarith
    have a2 : ((n * 2 ^ e' : ℤ) : ℚ) ≤ ((m : ℤ) : ℚ) + 1 / 2 := by push_cast; linarith
    have b1 : (m : ℤ) < n * 2 ^ e' + 1 := by
      have : ((m : ℤ) : ℚ) < ((n * 2 ^ e' + 1 : ℤ) : ℚ) := by push_cast; push_cast at a1; linarith
      exact_mod_cast this
    have b2 : (n : ℤ) * 2 ^ e' < m + 1 := by
      have : ((n * 2 ^ e' : ℤ) : ℚ) < ((m + 1 : ℤ) : ℚ) := by push_cast; push_cast at a2; linarith
      exact_mod_cast this
    omega
  have h4 : (m : ℚ) = n * 2 ^ e' := by exact_mod_cast h3
  rw [h4, mul_div_assoc, div_self hE.ne', mul_one]

theorem Binary64.round_one : Binary64.round 1 = 1 := by
  simpa using Binary64.round_natCast 1 (by norm_num)

theorem Double.round_val (x : Double) : Binary64.round x.val = x.val := by
  obtain ⟨y, hy⟩ := x.property
  rw [← hy, Binary64.round_round]

theorem Double.val_zero : (0 : Double).val = 0 := Binary64.round_zero

theorem Double.val_one : (1 : Double).val = 1 := Binary64.round_one

theorem Double.val_add (a b : Double) : (a + b).val = Binary64.round (a.val + b.val) := rfl

theorem Double.val_mul (a b : Double) : (a * b).val = Binary64.round (a.val * b.val) := rfl

theorem Double.val_ofRat (q : ℚ) : (Double.ofRat q).val = Binary64.round q := rfl

theorem Double_mul_one (x : Double) : x * 1 = x :=
  Subtype.ext (by rw [Double.val_mul, Double.val_one, mul_one, Double.round_val])

theorem Double_one_mul (x : Double) : 1 * x = x :=
  Subtype.ext (by rw [Double.val_mul, Double.val_one, one_mul, Double.round_val])

theorem Double_mul_zero (x : Double) : x * 0 = 0 :=
  Subtype.ext (by rw [Double.val_mul, Double.val_zero, mul_zero, Binary64.round_zero])

theorem Double_zero_mul (x : Double) : 0 * x = 0 :=
  Subtype.ext (by rw [Double.val_mul, Double.val_zero, zero_mul, Binary64.round_zero])

theorem Double_add_zero (x : Double) : x + 0 = x :=
  Subtype.ext (by rw [Double.val_add, Double.val_zero, add_zero, Double.round_val])

theorem Double_zero_add (x : Double) : 0 + x = x :=
  Subtype.ext (by rw [Double.val_add, Double.val_zero, zero_add, Double.round_val])

/-- The relative error of one rounding is at most `2 ^ -53`. -/
theorem Binary64.round_error (q : ℚ) : |Binary64.round q - q| ≤ |q| / 2 ^ 53 := by
  have hpos : ∀ x : ℚ, 0 ≤ x → |Binary64.round x - x| ≤ |x| / 2 ^ 53 := by
    intro x hx
    have hx' : Binary64.round x = ((roundToDouble x.num.natAbs x.den).1 : ℚ) /
        ((roundToDouble x.num.natAbs x.den).2 : ℚ) := by
      unfold Binary64.round
      simp only [not_lt.mpr hx, if_false]
    have hle := roundToDouble_le x.num.natAbs x.den x.pos
    have hge := roundToDouble_ge x.num.natAbs x.den x.pos
    have hd := roundToDouble_den_pos x.num.natAbs x.den
    generalize roundToDouble x.num.natAbs x.den = r at hx' hle hge hd
    have hnum : 0 ≤ x.num := Rat.num_nonneg.mpr hx
    have hxv : x = (x.num.natAbs : ℚ) / (x.den : ℚ) := by
      have h1 : ((x.num.natAbs : ℤ) : ℚ) = (x.num : ℚ) := by
        rw [Int.natAbs_of_nonneg hnum]
      have h2 : ((x.num.natAbs : ℕ) : ℚ) = ((x.num.natAbs : ℤ) : ℚ) := (Int.cast_natCast _).symm
      rw [h2, h1]
      exact (Rat.num_div_den x).symm
    generalize x.num.natAbs = a at hle hge hxv
    have hb : (0 : ℚ) < (x.den : ℚ) := by exact_mod_cast x.pos
    generalize x.den = b at hle hge hxv hb
    have hr2 : (0 : ℚ) < (r.2 : ℚ) := by exact_mod_cast hd
    have hleq : (r.1 : ℚ) * b * 2 ^ 53 ≤ a * r.2 * (2 ^ 53 + 1) := by exact_mod_cast hle
    have hgeq : (a : ℚ) * r.2 * (2 ^ 53 - 1) ≤ r.1 * b * 2 ^ 53 := by
      have : ((a * r.2 * (2 ^ 53 - 1) : ℕ) : ℚ) ≤ ((r.1 * b * 2 ^ 53 : ℕ) : ℚ) :=
        Nat.cast_le.mpr hge
      push_cast at this
      norm_num at this ⊢
      exact this
    rw [hx', hxv, abs_of_nonneg (div_nonneg (Nat.cast_nonneg a) hb.le), abs_le]
    have key : (r.1 : ℚ) / r.2 - a / b = (r.1 * b - a * r.2) / (r.2 * b) := by
      field_simp
      ring
    rw [key]
    have hden : (0 : ℚ) < r.2 * b := mul_pos hr2 hb
    constructor
    · rw [le_div_iff₀ hden]
      have e : -((a : ℚ) / b / 2 ^ 53) * (r.2 * b) = -(a * r.2) / 2 ^ 53 := by
        field_simp
        ring
      rw [e, div_le_iff₀ (by positivity)]
      linarith
    · rw [div_le_iff₀ hden]
      have e : (a : ℚ) / b / 2 ^ 53 * (r.2 * b) = (a * r.2) / 2 ^ 53 := by
        field_simp
        ring
      rw [e, le_div_iff₀ (by positivity)]
      linarith
  rcases le_total 0 q with h | h
  · exact hpos q h
  · have h' : 0 ≤ -q := by linarith
    have := hpos (-q) h'
    rw [Binary64.round_neg, abs_neg] at this
    have e : -Binary64.round q - -q = -(Binary64.round q - q) := by ring
    rw [e, abs_neg] at this
    exact this

theorem Double_Multiply4x4_one (M : Mat4 Double) : vtkMatrix4x4.Multiply4x4 1 M = M := by
  ext i j
  fin_cases i <;>
    simp [vtkMatrix4x4.Multiply4x4, Matrix.one_apply, Double_one_mul, Double_zero_mul,
      Double_add_zero, Double_zero_add]

/-- The entries of the matrix that `AdjustFrame` outputs, in `double` arithmetic:
each product and each sum is rounded once. -/
theorem Double_AdjustFrame_entries (frame : vtkImageData Double) (M : Mat4 Double) (i : Fin 4) :
    (USAcquisitionObject.AdjustFrame frame M).2 i 0 = M i 0 * frame.spacing.1 ∧
    (USAcquisitionObject.AdjustFrame frame M).2 i 1 = M i 1 * frame.spacing.2.1 ∧
    (USAcquisitionObject.AdjustFrame frame M).2 i 2 = M i 2 * frame.spacing.2.2 ∧
    (USAcquisitionObject.AdjustFrame frame M).2 i 3 =
      M i 0 * frame.origin.1 + M i 1 * frame.origin.2.1 + M i 2 * frame.origin.2.2 + M i 3 := by
  simp only [USAcquisitionObject.AdjustFrame, Double_Multiply4x4_one]
  refine ⟨?_, ?_, ?_, ?_⟩ <;>
    simp [vtkMatrix4x4.Multiply4x4, vtkTranslate, vtkScale, Double_mul_one, Double_mul_zero,
      Double_add_zero, Double_zero_add]

end DoubleArithmetic

/-! ## `AdjustFrame` in `double`s and in exact arithmetic -/

section AdjustFrameInDoubles

theorem round_three : Binary64.round 3 = 3 := by
  simpa using Binary64.round_natCast 3 (by norm_num)

theorem round_five : Binary64.round 5 = 5 := by
  simpa using Binary64.round_natCast 5 (by norm_num)

theorem round_tenth :
    Binary64.round (1 / 10) = 3602879701896397 / 36028797018963968 := by
  have e : (1 / 10 : ℚ) = ((1 : ℕ) : ℚ) / ((10 : ℕ) : ℚ) := by norm_num
  rw [e, Binary64.round_eval 1 10 3602879701896397 36028797018963968 (by norm_num) (by norm_num)
    (by decide)]
  norm_num

theorem round_three_tenths :
    Binary64.round (3 * (3602879701896397 / 36028797018963968)) =
      1351079888211149 / 4503599627370496 := by
  have e : (3 * (3602879701896397 / 36028797018963968) : ℚ) =
      ((10808639105689191 : ℕ) : ℚ) / ((36028797018963968 : ℕ) : ℚ) := by norm_num
  rw [e, Binary64.round_eval 10808639105689191 36028797018963968 1351079888211149
    4503599627370496 (by norm_num) (by norm_num) (by decide)]
  norm_num

theorem round_three_tenths_five :
    Binary64.round (1351079888211149 / 4503599627370496 * 5) =
      6755399441055745 / 4503599627370496 := by
  have e : (1351079888211149 / 4503599627370496 * 5 : ℚ) =
      ((6755399441055745 : ℕ) : ℚ) / ((4503599627370496 : ℕ) : ℚ) := by norm_num
  rw [e, Binary64.round_eval 6755399441055745 4503599627370496 6755399441055745
    4503599627370496 (by norm_num) (by norm_num) (by decide)]
  norm_num

theorem round_five_tenths :
    Binary64.round (3602879701896397 / 36028797018963968 * 5) = 1 / 2 := by
  have e : (3602879701896397 / 36028797018963968 * 5 : ℚ) =
      ((18014398509481985 : ℕ) : ℚ) / ((36028797018963968 : ℕ) : ℚ) := by norm_num
  rw [e, Binary64.round_eval 18014398509481985 36028797018963968 1 2 (by norm_num) (by norm_num)
    (by decide)]
  norm_num

theorem round_three_halves : Binary64.round (3 * (1 / 2)) = 3 / 2 := by
  have e : (3 * (1 / 2) : ℚ) = ((3 : ℕ) : ℚ) / ((2 : ℕ) : ℚ) := by norm_num
  rw [e, Binary64.round_eval 3 2 3 2 (by norm_num) (by norm_num) (by decide)]
  norm_num

theorem sampleAdjusted_row (j : Fin 4) :
    (USAcquisitionObject.AdjustFrame sampleSpacedFrame sampleScaling).2 0 j =
      ![Double.ofRat 3 * Double.ofRat (1 / 10), 0, 0, 0] j := by
  obtain ⟨h0, h1, h2, h3⟩ := Double_AdjustFrame_entries sampleSpacedFrame sampleScaling 0
  fin_cases j
  · simpa [sampleSpacedFrame, sampleScaling, vtkScale] using h0
  · simpa [sampleSpacedFrame, sampleScaling, vtkScale, Double_zero_mul] using h1
  · simpa [sampleSpacedFrame, sampleScaling, vtkScale, Double_zero_mul] using h2
  · simpa [sampleSpacedFrame, sampleScaling, vtkScale, Double_zero_mul, Double_mul_zero,
      Double_add_zero] using h3

theorem val_three_tenths :
    (Double.ofRat 3 * Double.ofRat (1 / 10)).val = 1351079888211149 / 4503599627370496 := by
  rw [Double.val_mul, Double.val_ofRat, Double.val_ofRat, round_three, round_tenth,
    round_three_tenths]

end AdjustFrameInDoubles

end Ibis
